import Mathlib

/-!
# gby: the decode/execute core of a DMG CPU emulator

A shallow embedding of `internal/cpu` (cpu.go, fetch.go, opcodes.go),
`internal/memory` (memory.go) and the mock bus of `opcodes_test.go`.

Conventions of the embedding:

* `byte` and `uint16` values are natural numbers; every Go operation that can
  overflow is followed by an explicit `% 256` or `% 65536`.
* `int8` and `int16` values are integers, wrapped explicitly.
* A Go slice is the list of the bytes of its backing array from the slice's
  start up to its capacity, so the slice expression `s[lo:hi]` is in range
  exactly when `lo ≤ hi ≤ s.length`.
* A Go function that mutates its receiver returns the new receiver next to
  its Go results.  A run-time abort (slice bound or index out of range) is
  the outcome `abort`; it is never confused with a returned `error`.
* Writes to standard output (`fmt.Printf`) are not modelled.
-/

namespace Gby

/-! ## Outcomes and errors -/

/-- The `error` values the program builds, one constructor per `fmt.Errorf` call site. -/
inductive Fault where
  /-- Message "Illegal read at 0x%X" of memory.go. -/
  | illegalRead (address : Nat)
  /-- Message "write to ROM (index 0x%X)" of memory.go. -/
  | writeToROM (address : Nat)
  /-- Message "Illegal write at 0x%X" of memory.go. -/
  | illegalWrite (address : Nat)
  /-- Message "cpu error on fetch: illegal / unknown opcode 0x%X prefixed: %v" of fetch.go. -/
  | unknownOpcode (op : Nat) (cb : Bool)
  /-- Message "cpu error on fetch: %w" of fetch.go, wrapping the bus error. -/
  | onFetch (cause : Fault)
  deriving DecidableEq, Repr

/-- Outcome of a Go call that mutates state: it returns, or the run time aborts. -/
inductive Exec (α : Type) where
  | ret (a : α)
  | abort
  deriving DecidableEq, Repr

/-- Outcome of a Go call with results `(value, error)` that mutates nothing:
`ok v` when `err == nil`, `fail e` when `err != nil` (callers then ignore the
value), `abort` when the run time aborts. -/
inductive Res (α : Type) where
  | ok (a : α)
  | fail (e : Fault)
  | abort
  deriving DecidableEq, Repr

/-! ## Go slices -/

/-- The slice expression `s[lo:hi]` on a slice whose backing array, from its
first element up to its capacity, is `s`: Go checks `lo ≤ hi ≤ cap(s)`.  The
result lists the `hi - lo` elements of the new slice. -/
def goSlice (s : List Nat) (lo hi : Nat) : Res (List Nat) :=
  if lo ≤ hi ∧ hi ≤ s.length then Res.ok ((s.drop lo).take (hi - lo)) else Res.abort

/-- The statement `copy(s[lo:], bytes)`: the backing array afterwards.  `copy`
moves `min(len(dst), len(src))` elements and never fails; the slice expression
aborts when `lo` is past the end.  `s[lo:]` is bounded by the length of `s`:
the arrays written to come from `make([]byte, n)`, whose length is their
capacity. -/
def goCopyAt (s : List Nat) (lo : Nat) (bytes : List Nat) : Exec (List Nat) :=
  if lo ≤ s.length then
    Exec.ret (s.take lo ++ bytes.take (min (s.length - lo) bytes.length)
      ++ s.drop (lo + min (s.length - lo) bytes.length))
  else Exec.abort

/-- The index expression `s[i]`. -/
def goIndex (s : List Nat) (i : Nat) : Exec Nat :=
  match s[i]? with
  | some b => Exec.ret b
  | none => Exec.abort

/-! ## common/types.go -/

/-- The interface `common.MemoryReadWriter`.  `ReadFromAddress` takes the bus,
a `uint16` address and the amount; `WriteToAddress` returns the bus after the
call together with the returned `error` (`none` for `nil`).  Reads do not
mutate the bus: neither implementation in the repository does. -/
class MemoryReadWriter (σ : Type) where
  ReadFromAddress : σ → Nat → Nat → Res (List Nat)
  WriteToAddress : σ → Nat → List Nat → Exec (σ × Option Fault)

/-! ## memory/memory.go -/

/-- The struct `memory.Controller`. -/
structure Controller where
  cartridge : List Nat
  ram : List Nat
  vram : List Nat
  hram : List Nat
  deriving DecidableEq, Repr

/-- Constructor `NewController`.  The field `cartridge` holds the slice it is
given and is only ever read through slice expressions, which Go bounds by the
capacity and not by the length: `game` is therefore the backing array of the
argument from its first element up to its capacity.  A ROM image `image`
(the `len` elements) whose backing array continues with `spare` is
`NewController (image ++ spare)`; `make` gives the three RAM arrays a capacity
equal to their length. -/
def NewController (game : List Nat) : Controller :=
  { cartridge := game
    vram := List.replicate (1024 * 8) 0
    ram := List.replicate (1024 * 8) 0
    hram := List.replicate 127 0 }

/-- Function `toRAMSpace`: `address - 0xC000` on `uint16`. -/
def toRAMSpace (address : Nat) : Nat := (address + 65536 - 0xC000) % 65536

/-- Function `toVRAMSpace`: `address - 0x8000` on `uint16`. -/
def toVRAMSpace (address : Nat) : Nat := (address + 65536 - 0x8000) % 65536

/-- Function `toHRAMSpace`: `address - 0xFF80` on `uint16`. -/
def toHRAMSpace (address : Nat) : Nat := (address + 65536 - 0xFF80) % 65536

/-- The `uint16` sum `base + uint16(ammount)`. -/
def upTo (base ammount : Nat) : Nat := (base + ammount % 65536) % 65536

/-- Method `Controller.ReadFromAddress`. -/
def Controller.ReadFromAddress (c : Controller) (address ammount : Nat) : Res (List Nat) :=
  if address ≤ 0x3FFF then
    goSlice c.cartridge address (upTo address ammount)
  else if 0x8000 ≤ address ∧ address ≤ 0x9FFF then
    goSlice c.vram (toVRAMSpace address) (upTo (toVRAMSpace address) ammount)
  else if 0xC000 ≤ address ∧ address ≤ 0xDFFF then
    goSlice c.ram (toRAMSpace address) (upTo (toRAMSpace address) ammount)
  else if 0xFF80 ≤ address ∧ address ≤ 0xFFFE then
    goSlice c.hram (toHRAMSpace address) (upTo (toHRAMSpace address) ammount)
  else Res.fail (Fault.illegalRead address)

/-- Method `Controller.WriteToAddress`. -/
def Controller.WriteToAddress (c : Controller) (address : Nat) (bytes : List Nat) :
    Exec (Controller × Option Fault) :=
  if address ≤ 0x3FFF then
    Exec.ret (c, some (Fault.writeToROM address))
  else if 0x8000 ≤ address ∧ address ≤ 0x9FFF then
    match goCopyAt c.vram (toVRAMSpace address) bytes with
    | Exec.ret v => Exec.ret ({ c with vram := v }, none)
    | Exec.abort => Exec.abort
  else if 0xC000 ≤ address ∧ address ≤ 0xDFFF then
    match goCopyAt c.ram (toRAMSpace address) bytes with
    | Exec.ret v => Exec.ret ({ c with ram := v }, none)
    | Exec.abort => Exec.abort
  else if 0xFF80 ≤ address ∧ address ≤ 0xFFFE then
    match goCopyAt c.hram (toHRAMSpace address) bytes with
    | Exec.ret v => Exec.ret ({ c with hram := v }, none)
    | Exec.abort => Exec.abort
  else if 0xFE00 ≤ address ∧ address ≤ 0xFF7F then
    Exec.ret (c, none)
  else Exec.ret (c, some (Fault.illegalWrite address))

instance : MemoryReadWriter Controller where
  ReadFromAddress := Controller.ReadFromAddress
  WriteToAddress := Controller.WriteToAddress

/-! ## cpu/opcodes_test.go: the mock bus -/

/-- The struct `mockMemController` of the test file. -/
structure mockMemController where
  ram : List Nat
  deriving DecidableEq, Repr

/-- Method `mockMemController.ReadFromAddress`. -/
def mockMemController.ReadFromAddress (c : mockMemController) (address ammount : Nat) :
    Res (List Nat) :=
  goSlice c.ram address (upTo address ammount)

/-- Method `mockMemController.WriteToAddress`. -/
def mockMemController.WriteToAddress (c : mockMemController) (address : Nat)
    (bytes : List Nat) : Exec (mockMemController × Option Fault) :=
  match goCopyAt c.ram address bytes with
  | Exec.ret r => Exec.ret ({ ram := r }, none)
  | Exec.abort => Exec.abort

/-- Function `mockMemory`. -/
def mockMemory (state : List Nat) : mockMemController := { ram := state }

instance : MemoryReadWriter mockMemController where
  ReadFromAddress := mockMemController.ReadFromAddress
  WriteToAddress := mockMemController.WriteToAddress

/-! ## cpu/cpu.go -/

/-- The constants `A, F, B, C, D, E, H, L` of type `register`.  A Go pointer to
one of the eight byte fields of the CPU (`&ctx.cpu.C`) is the field's name. -/
inductive register where
  | A | F | B | C | D | E | H | L
  deriving DecidableEq, Repr

/-- The constants `ZERO, SUBSTRACT, HALF_CARRY, CARRY` of type `flag`. -/
inductive flag where
  | ZERO | SUBSTRACT | HALF_CARRY | CARRY
  deriving DecidableEq, Repr

/-- The map `flagMap`. -/
def flagMap : flag → Nat
  | flag.ZERO => 0x80
  | flag.SUBSTRACT => 0x40
  | flag.HALF_CARRY => 0x20
  | flag.CARRY => 0x10

/-- The operands of struct `context` (opcodes.go): `n8`, `e8`, `n16`.  Its
fourth field, the pointer `cpu`, is the CPU every handler receives next to the
context. -/
structure context where
  n8 : Nat
  e8 : Int
  n16 : Nat
  deriving DecidableEq, Repr

/-- An entry of `callStack`: what the trace keeps of an `instruction`, namely
the opcode's mnemonic and size and the operand context.  The handler closure,
which Go reaches through the same `*opcode`, is not called again from the trace
(`PrintStack` prints the mnemonic, `n8`, `e8` and `n16`). -/
structure traced where
  mnemonic : String
  size : Nat
  context : context
  deriving DecidableEq, Repr

/-- The struct `CPU`. -/
structure CPU (σ : Type) where
  A : Nat
  F : Nat
  B : Nat
  C : Nat
  D : Nat
  E : Nat
  H : Nat
  L : Nat
  sp : Nat
  PC : Nat
  memoryBus : σ
  callStack : List traced

/-- The struct `opcode` (opcodes.go).  A handler returns the CPU it leaves
behind, the duration and the `error`. -/
structure opcode (σ : Type) where
  mnemonic : String
  size : Nat
  handler : context → CPU σ → Exec (CPU σ × Int × Option Fault)

/-- The struct `instruction`. -/
structure instruction (σ : Type) where
  opcode : opcode σ
  context : context

/-- What `append(c.callStack, instruction)` adds to the trace. -/
def instruction.toTraced {σ : Type} (i : instruction σ) : traced :=
  { mnemonic := i.opcode.mnemonic, size := i.opcode.size, context := i.context }

/-- Method `instruction.execute`. -/
def instruction.execute {σ : Type} (i : instruction σ) (cpu : CPU σ) :
    Exec (CPU σ × Int × Option Fault) :=
  i.opcode.handler i.context cpu

/-- Constructor `NewCPU`: every field but the bus has its zero value. -/
def NewCPU {σ : Type} (memoryReadWriter : σ) : CPU σ :=
  { A := 0, F := 0, B := 0, C := 0, D := 0, E := 0, H := 0, L := 0, sp := 0, PC := 0
    memoryBus := memoryReadWriter, callStack := [] }

/-- Reading through a register pointer: `*register`. -/
def CPU.deref {σ : Type} (c : CPU σ) : register → Nat
  | register.A => c.A
  | register.F => c.F
  | register.B => c.B
  | register.C => c.C
  | register.D => c.D
  | register.E => c.E
  | register.H => c.H
  | register.L => c.L

/-- Writing through a register pointer: `*register = value`. -/
def CPU.assign {σ : Type} (c : CPU σ) (r : register) (value : Nat) : CPU σ :=
  match r with
  | register.A => { c with A := value }
  | register.F => { c with F := value }
  | register.B => { c with B := value }
  | register.C => { c with C := value }
  | register.D => { c with D := value }
  | register.E => { c with E := value }
  | register.H => { c with H := value }
  | register.L => { c with L := value }

/-- Method `CPU.setFlag`; `^flagMap[f]` is the complement on 8 bits. -/
def CPU.setFlag {σ : Type} (c : CPU σ) (f : flag) (state : Bool) : CPU σ :=
  if state then { c with F := c.F ||| flagMap f }
  else { c with F := c.F &&& (flagMap f ^^^ 0xFF) }

/-- Method `CPU.getFlag`. -/
def CPU.getFlag {σ : Type} (c : CPU σ) (f : flag) : Bool :=
  c.F &&& flagMap f == flagMap f

/-! ## cpu/opcodes.go: helpers -/

/-- Function `mergeBytesToUint16`: `(uint16(hi) << 8) | uint16(lo)`. -/
def mergeBytesToUint16 (hi lo : Nat) : Nat :=
  ((hi <<< 8) % 65536) ||| lo

/-- Function `splitUint16IntoBytes`: `byte(num >> 8)` and `byte(num & 0x00FF)`. -/
def splitUint16IntoBytes (num : Nat) : Nat × Nat :=
  ((num >>> 8) % 256, (num &&& 0x00FF) % 256)

/-- Function `load8bit`. -/
def load8bit {σ : Type} (c : CPU σ) (r : register) (value : Nat) : CPU σ :=
  c.assign r value

/-- Function `load16Bit`. -/
def load16Bit {σ : Type} (c : CPU σ) (hiRegister loRegister : register) (value : Nat) :
    CPU σ :=
  (c.assign hiRegister (splitUint16IntoBytes value).1).assign loRegister
    (splitUint16IntoBytes value).2

/-- Method `CPU.checkBit`; the mask is `byte(1 << bitPosition)`. -/
def CPU.checkBit {σ : Type} (c : CPU σ) (bitPosition : Nat) (reg : Nat) : CPU σ :=
  let mask := (1 <<< bitPosition) % 256
  let isZero := (reg &&& mask) == 0
  ((c.setFlag flag.ZERO isZero).setFlag flag.SUBSTRACT false).setFlag flag.HALF_CARRY true

/-- Method `CPU.incrementRegister`. -/
def CPU.incrementRegister {σ : Type} (c : CPU σ) (r : register) : CPU σ :=
  let registerBefore := c.deref r
  let c1 := c.assign r ((c.deref r + 1) % 256)
  let c2 := c1.setFlag flag.ZERO (c1.deref r == 0)
  let c3 := c2.setFlag flag.SUBSTRACT false
  c3.setFlag flag.HALF_CARRY (registerBefore &&& 0x0F == 0x0F)

/-- Method `CPU.decrementRegister`. -/
def CPU.decrementRegister {σ : Type} (c : CPU σ) (r : register) : CPU σ :=
  let registerBefore := c.deref r
  let c1 := c.assign r ((c.deref r + 255) % 256)
  let c2 := c1.setFlag flag.ZERO (c1.deref r == 0)
  let c3 := c2.setFlag flag.SUBSTRACT true
  c3.setFlag flag.HALF_CARRY ((registerBefore &&& 0x0F) == 0x00)

/-- Method `CPU.push`: the CPU afterwards and the returned `error`. -/
def CPU.push {σ : Type} [MemoryReadWriter σ] (c : CPU σ) (value : Nat) :
    Exec (CPU σ × Option Fault) :=
  let c1 := { c with sp := (c.sp + 65534) % 65536 }
  let hilo := splitUint16IntoBytes value
  match MemoryReadWriter.WriteToAddress c1.memoryBus c1.sp [hilo.2, hilo.1] with
  | Exec.abort => Exec.abort
  | Exec.ret (m, err) => Exec.ret ({ c1 with memoryBus := m }, err)

/-- Method `CPU.pop`: the CPU afterwards and the results `hi`, `lo`, `err`. -/
def CPU.pop {σ : Type} [MemoryReadWriter σ] (c : CPU σ) :
    Exec (CPU σ × Nat × Nat × Option Fault) :=
  match MemoryReadWriter.ReadFromAddress c.memoryBus c.sp 2 with
  | Res.abort => Exec.abort
  | Res.fail err => Exec.ret (c, 0, 0, some err)
  | Res.ok bytes =>
    let c1 := { c with sp := (c.sp + 2) % 65536 }
    match goIndex bytes 1, goIndex bytes 0 with
    | Exec.ret hi, Exec.ret lo => Exec.ret (c1, hi, lo, none)
    | _, _ => Exec.abort

/-- Method `CPU.callSubroutine`. -/
def CPU.callSubroutine {σ : Type} [MemoryReadWriter σ] (c : CPU σ) (address : Nat) :
    Exec (CPU σ × Option Fault) :=
  match c.push c.PC with
  | Exec.abort => Exec.abort
  | Exec.ret (c1, some err) => Exec.ret (c1, some err)
  | Exec.ret (c1, none) => Exec.ret ({ c1 with PC := address }, none)

/-- Method `CPU.rotateLeft`. -/
def CPU.rotateLeft {σ : Type} (c : CPU σ) (r : register) : CPU σ :=
  let carryFlag := if c.getFlag flag.CARRY then 1 else 0
  let shiftedBit := (c.deref r &&& 0x80) >>> 7
  let c1 := c.assign r (((c.deref r <<< 1) % 256) ||| carryFlag)
  let c2 := c1.setFlag flag.CARRY (shiftedBit == 1)
  let c3 := c2.setFlag flag.ZERO (c2.deref r == 0)
  let c4 := c3.setFlag flag.SUBSTRACT false
  c4.setFlag flag.HALF_CARRY false

/-- The conversion `int8(b)` of a byte. -/
def toInt8 (b : Nat) : Int :=
  if b % 256 < 128 then (b % 256 : Nat) else (b % 256 : Nat) - 256

/-- The conversion `int16(n)` of a `uint16`. -/
def toInt16 (n : Nat) : Int :=
  if n % 65536 < 32768 then (n % 65536 : Nat) else (n % 65536 : Nat) - 65536

/-- Wrap-around of an `int16` result. -/
def wrapInt16 (i : Int) : Int := (i + 32768) % 65536 - 32768

/-- The conversion `uint16(i)` of an `int16`. -/
def toUint16 (i : Int) : Nat := (i % 65536).toNat

/-! ## cpu/opcodes.go: the two opcode tables

A Go map literal is the list of its key/value pairs; `lookup[b]` is
`List.lookup b`. -/

/-- The shared shape of the handlers `LD [HL-],A`, `LD [C] A`, `LD [HL] A` and
`LDH (N), A` up to their `if err != nil { return 0, err }`: the one-byte bus
write, then `after` applied to the CPU on success. -/
def writeThen {σ : Type} [MemoryReadWriter σ] (c : CPU σ) (address : Nat) (value : Nat)
    (after : CPU σ → CPU σ × Int × Option Fault) : Exec (CPU σ × Int × Option Fault) :=
  match MemoryReadWriter.WriteToAddress c.memoryBus address [value] with
  | Exec.abort => Exec.abort
  | Exec.ret (m, some err) => Exec.ret ({ c with memoryBus := m }, 0, some err)
  | Exec.ret (m, none) => Exec.ret (after { c with memoryBus := m })

/-- The map `opcodeLookup`. -/
def opcodeLookup {σ : Type} [MemoryReadWriter σ] : List (Nat × opcode σ) :=
  [ (0x01, { mnemonic := "LD BC n16", size := 3, handler := fun ctx cpu =>
      Exec.ret (load16Bit cpu register.B register.C ctx.n16, 12, none) }),
    (0x21, { mnemonic := "LD HL n16", size := 3, handler := fun ctx cpu =>
      Exec.ret (load16Bit cpu register.H register.L ctx.n16, 12, none) }),
    (0x31, { mnemonic := "LD SP n16", size := 3, handler := fun ctx cpu =>
      Exec.ret ({ cpu with sp := ctx.n16 }, 12, none) }),
    (0x32, { mnemonic := "LD [HL-],A", size := 1, handler := fun _ cpu =>
      writeThen cpu (mergeBytesToUint16 cpu.H cpu.L) cpu.A fun cpu1 =>
        ({ cpu1 with
            H := (splitUint16IntoBytes ((mergeBytesToUint16 cpu.H cpu.L + 65535) % 65536)).1
            L := (splitUint16IntoBytes ((mergeBytesToUint16 cpu.H cpu.L + 65535) % 65536)).2 },
          8, none) }),
    (0x0E, { mnemonic := "LD C n8", size := 2, handler := fun ctx cpu =>
      Exec.ret (load8bit cpu register.C ctx.n8, 8, none) }),
    (0x3E, { mnemonic := "LD A n8", size := 2, handler := fun ctx cpu =>
      Exec.ret (load8bit cpu register.A ctx.n8, 8, none) }),
    (0xAF, { mnemonic := "XOR A,A", size := 1, handler := fun _ cpu =>
      Exec.ret (({ cpu with A := 0 } : CPU σ).setFlag flag.ZERO true, 4, none) }),
    (0x20, { mnemonic := "JR NZ e8", size := 2, handler := fun ctx cpu =>
      if !cpu.getFlag flag.ZERO then
        Exec.ret ({ cpu with PC := toUint16 (wrapInt16 (toInt16 cpu.PC + ctx.e8)) }, 12, none)
      else Exec.ret (cpu, 8, none) }),
    (0xE2, { mnemonic := "LD [C] A", size := 1, handler := fun _ cpu =>
      writeThen cpu ((0xFF00 + cpu.C) % 65536) cpu.A fun cpu1 => (cpu1, 8, none) }),
    (0x0C, { mnemonic := "INC C", size := 1, handler := fun _ cpu =>
      Exec.ret (cpu.incrementRegister register.C, 4, none) }),
    (0x77, { mnemonic := "LD [HL] A", size := 1, handler := fun _ cpu =>
      writeThen cpu (mergeBytesToUint16 cpu.H cpu.L) cpu.A fun cpu1 => (cpu1, 8, none) }),
    (0xE0, { mnemonic := "LDH (N), A", size := 2, handler := fun ctx cpu =>
      writeThen cpu ((0xFF00 + ctx.n8) % 65536) cpu.A fun cpu1 => (cpu1, 12, none) }),
    (0x11, { mnemonic := "LD DE n16", size := 3, handler := fun ctx cpu =>
      Exec.ret (load16Bit cpu register.D register.E ctx.n16, 12, none) }),
    (0x1A, { mnemonic := "LD A [DE]", size := 1, handler := fun _ cpu =>
      match MemoryReadWriter.ReadFromAddress cpu.memoryBus (mergeBytesToUint16 cpu.D cpu.E) 1 with
      | Res.abort => Exec.abort
      | Res.fail err => Exec.ret (cpu, 0, some err)
      | Res.ok bytes =>
        match goIndex bytes 0 with
        | Exec.abort => Exec.abort
        | Exec.ret value => Exec.ret (load8bit cpu register.A value, 8, none) }),
    (0xCD, { mnemonic := "CALL n16", size := 3, handler := fun ctx cpu =>
      match cpu.callSubroutine ctx.n16 with
      | Exec.abort => Exec.abort
      | Exec.ret (cpu1, err) => Exec.ret (cpu1, 24, err) }),
    (0x4F, { mnemonic := "LD C A", size := 1, handler := fun _ cpu =>
      Exec.ret (load8bit cpu register.C cpu.A, 4, none) }),
    (0x06, { mnemonic := "LD B n8", size := 2, handler := fun ctx cpu =>
      Exec.ret (load8bit cpu register.B ctx.n8, 8, none) }),
    (0xC5, { mnemonic := "PUSH BC", size := 1, handler := fun _ cpu =>
      match cpu.push (mergeBytesToUint16 cpu.B cpu.C) with
      | Exec.abort => Exec.abort
      | Exec.ret (cpu1, some err) => Exec.ret (cpu1, 0, some err)
      | Exec.ret (cpu1, none) => Exec.ret (cpu1, 16, none) }),
    (0x17, { mnemonic := "RLA", size := 1, handler := fun _ cpu =>
      Exec.ret ((cpu.rotateLeft register.A).setFlag flag.ZERO false, 4, none) }),
    (0xC1, { mnemonic := "POP BC", size := 1, handler := fun _ cpu =>
      match cpu.pop with
      | Exec.abort => Exec.abort
      | Exec.ret (cpu1, _, _, some err) => Exec.ret (cpu1, 0, some err)
      | Exec.ret (cpu1, hi, lo, none) => Exec.ret ({ cpu1 with B := hi, C := lo }, 12, none) }),
    (0x05, { mnemonic := "DEC B", size := 1, handler := fun _ cpu =>
      Exec.ret (cpu.decrementRegister register.B, 4, none) }) ]

/-- The map `cbPrefixedOpcodeLookup`. -/
def cbPrefixedOpcodeLookup {σ : Type} [MemoryReadWriter σ] : List (Nat × opcode σ) :=
  [ (0x7C, { mnemonic := "BIT 7 H", size := 2, handler := fun _ cpu =>
      Exec.ret (cpu.checkBit 7 cpu.H, 8, none) }),
    (0x11, { mnemonic := "RL C", size := 2, handler := fun _ cpu =>
      Exec.ret (cpu.rotateLeft register.C, 8, none) }) ]

/-! ## cpu/fetch.go -/

/-- The `switch opcode.size` of `fetch`: the context staged from the operand
slice.  Sizes other than 2 and 3 stage nothing. -/
def stageOperands (size : Nat) (operands : List Nat) : Exec context :=
  if size = 2 then
    match goIndex operands 0 with
    | Exec.abort => Exec.abort
    | Exec.ret b => Exec.ret { n8 := b, e8 := toInt8 b, n16 := 0 }
  else if size = 3 then
    match goIndex operands 1, goIndex operands 0 with
    | Exec.ret hi, Exec.ret lo => Exec.ret { n8 := 0, e8 := 0, n16 := mergeBytesToUint16 hi lo }
    | _, _ => Exec.abort
  else Exec.ret { n8 := 0, e8 := 0, n16 := 0 }

/-- The second half of `fetch`, from `opcode, ok := lookup[opcodeSlice[0]]` on:
`lookup` is the selected table, `cb` is `isPrefixed`. -/
def CPU.decode {σ : Type} [MemoryReadWriter σ] (c : CPU σ) (lookup : List (Nat × opcode σ))
    (cb : Bool) (opcodeSlice : List Nat) : Exec (CPU σ × Except Fault (instruction σ)) :=
  match goIndex opcodeSlice 0 with
  | Exec.abort => Exec.abort
  | Exec.ret b =>
    match lookup.lookup b with
    | none => Exec.ret (c, Except.error (Fault.unknownOpcode b cb))
    | some op =>
      match MemoryReadWriter.ReadFromAddress c.memoryBus ((c.PC + 1) % 65536) op.size with
      | Res.abort => Exec.abort
      | Res.fail err => Exec.ret (c, Except.error (Fault.onFetch err))
      | Res.ok operands =>
        match stageOperands op.size operands with
        | Exec.abort => Exec.abort
        | Exec.ret ctx =>
          Exec.ret ({ c with PC := (c.PC + op.size) % 65536 },
            Except.ok { opcode := op, context := ctx })

/-- Method `CPU.fetch`: the CPU afterwards and the results `(*instruction, error)`. -/
def CPU.fetch {σ : Type} [MemoryReadWriter σ] (c : CPU σ) :
    Exec (CPU σ × Except Fault (instruction σ)) :=
  match MemoryReadWriter.ReadFromAddress c.memoryBus c.PC 1 with
  | Res.abort => Exec.abort
  | Res.fail err => Exec.ret (c, Except.error (Fault.onFetch err))
  | Res.ok opcodeSlice =>
    match goIndex opcodeSlice 0 with
    | Exec.abort => Exec.abort
    | Exec.ret first =>
      if first = 0xCB then
        match MemoryReadWriter.ReadFromAddress c.memoryBus ((c.PC + 1) % 65536) 1 with
        | Res.abort => Exec.abort
        | Res.fail err => Exec.ret (c, Except.error (Fault.onFetch err))
        | Res.ok opcodeSlice1 => c.decode cbPrefixedOpcodeLookup true opcodeSlice1
      else c.decode opcodeLookup false opcodeSlice

/-! ## cpu/cpu.go: Tick -/

/-- Method `CPU.Tick`: the CPU afterwards and the results `(cycles, err)`. -/
def CPU.Tick {σ : Type} [MemoryReadWriter σ] (c : CPU σ) :
    Exec (CPU σ × Int × Option Fault) :=
  match c.fetch with
  | Exec.abort => Exec.abort
  | Exec.ret (c1, Except.error err) => Exec.ret (c1, 0, some err)
  | Exec.ret (c1, Except.ok ins) =>
    ins.execute { c1 with callStack := c1.callStack ++ [ins.toTraced] }

/-! ## Vocabulary of the statements -/

/-- The flag bit layout of the specification: bit 7 = Zero, bit 6 = Subtract,
bit 5 = Half-Carry, bit 4 = Carry. -/
def flagBit : flag → Nat
  | flag.ZERO => 7
  | flag.SUBSTRACT => 6
  | flag.HALF_CARRY => 5
  | flag.CARRY => 4

/-- The byte the bus shows at `address`: the first byte of a one-byte read. -/
def byteAt {σ : Type} [MemoryReadWriter σ] (m : σ) (address : Nat) : Option Nat :=
  match MemoryReadWriter.ReadFromAddress m address 1 with
  | Res.ok (b :: _) => some b
  | _ => none

/-- A bus whose reads agree with one another: when a read returns, each of its
first two bytes (the only ones `fetch` uses) is the byte a one-byte read shows
at the same address, whenever that one-byte read returns too. -/
def ReadsAgree (σ : Type) [MemoryReadWriter σ] : Prop :=
  ∀ (m : σ) (a n i x y : Nat) (bs : List Nat), a < 65536 → i < 2 →
    MemoryReadWriter.ReadFromAddress m a n = Res.ok bs → bs[i]? = some x →
    byteAt m ((a + i) % 65536) = some y → x = y

/-- The memory Controller of an empty ROM image after `0xAF` (`XOR A,A`) was
written to `0xDFFF`, the last work-RAM address. -/
def lastByteBus : Controller :=
  { NewController [] with ram := List.replicate 8191 0 ++ [0xAF] }

/-- The memory Controller of an empty ROM image after `0xCB, 0x11` (the sentinel
and `RL C`) was written to `0xFFFD`, the last two HRAM addresses. -/
def lastPairBus : Controller :=
  { NewController [] with hram := List.replicate 125 0 ++ [0xCB, 0x11] }

/-- The CPU states the run loop of `main` can reach: `NewCPU` on a bus, then
`Tick` after `Tick` for as long as `Tick` returns. -/
inductive Reachable {σ : Type} [MemoryReadWriter σ] : CPU σ → Prop where
  | init (m : σ) : Reachable (NewCPU m)
  | tick {c c1 : CPU σ} {cycles : Int} {err : Option Fault} :
      Reachable c → c.Tick = Exec.ret (c1, cycles, err) → Reachable c1

/-- A Controller whose three RAM arrays have the lengths `NewController` gives
them (8192, 8192 and 127 bytes); `WriteToAddress` keeps the lengths. -/
def Controller.Sized (m : Controller) : Prop :=
  m.vram.length = 8192 ∧ m.ram.length = 8192 ∧ m.hram.length = 127

/-- Address `a` and the address above it lie in the same one of VRAM
(`0x8000..0x9FFF`), work RAM (`0xC000..0xDFFF`) and HRAM (`0xFF80..0xFFFE`). -/
def pairInOneRegion (a : Nat) : Prop :=
  (0x8000 ≤ a ∧ a + 1 ≤ 0x9FFF) ∨ (0xC000 ≤ a ∧ a + 1 ≤ 0xDFFF) ∨
  (0xFF80 ≤ a ∧ a + 1 ≤ 0xFFFE)

/-- The four mapped regions of the address map: cartridge ROM, VRAM, work RAM
and HRAM. -/
def mappedAddress (a : Nat) : Prop :=
  a ≤ 0x3FFF ∨ (0x8000 ≤ a ∧ a ≤ 0x9FFF) ∨ (0xC000 ≤ a ∧ a ≤ 0xDFFF) ∨
  (0xFF80 ≤ a ∧ a ≤ 0xFFFE)

/-! ## The flag codec -/

theorem flagMap_eq_two_pow (f : flag) : flagMap f = 2 ^ flagBit f := by
  cases f <;> rfl

theorem flagBit_lt (f : flag) : flagBit f < 8 := by
  cases f <;> decide

theorem flagMap_ne_zero (f : flag) : flagMap f ≠ 0 := by
  cases f <;> decide

theorem flagMap_disjoint {f g : flag} (h : g ≠ f) : flagMap f &&& flagMap g = 0 := by
  cases f <;> cases g <;> first | rfl | exact absurd rfl h

theorem flagMap_compl_self (f : flag) : (flagMap f ^^^ 0xFF) &&& flagMap f = 0 := by
  cases f <;> rfl

theorem flagMap_compl_other {f g : flag} (h : g ≠ f) :
    (flagMap f ^^^ 0xFF) &&& flagMap g = flagMap g := by
  cases f <;> cases g <;> first | rfl | exact absurd rfl h

theorem setFlag_F {σ : Type} (c : CPU σ) (f : flag) (s : Bool) :
    (c.setFlag f s).F =
      if s then c.F ||| flagMap f else c.F &&& (flagMap f ^^^ 0xFF) := by
  cases s <;> rfl

theorem getFlag_setFlag_same {σ : Type} (c : CPU σ) (f : flag) (s : Bool) :
    (c.setFlag f s).getFlag f = s := by
  cases s
  · have h : (c.F &&& (flagMap f ^^^ 0xFF)) &&& flagMap f = 0 := by
      rw [Nat.and_assoc, flagMap_compl_self, Nat.and_zero]
    simp only [CPU.getFlag, CPU.setFlag, Bool.false_eq_true, if_false, h]
    simpa using (flagMap_ne_zero f).symm
  · have h : (c.F ||| flagMap f) &&& flagMap f = flagMap f := by
      apply Nat.eq_of_testBit_eq
      intro i
      simp only [Nat.testBit_and, Nat.testBit_or]
      cases c.F.testBit i <;> cases (flagMap f).testBit i <;> rfl
    simp only [CPU.getFlag, CPU.setFlag, if_true, h, beq_self_eq_true]

theorem getFlag_setFlag_other {σ : Type} (c : CPU σ) {f g : flag} (s : Bool) (h : g ≠ f) :
    (c.setFlag f s).getFlag g = c.getFlag g := by
  cases s
  · have e : (c.F &&& (flagMap f ^^^ 0xFF)) &&& flagMap g = c.F &&& flagMap g := by
      rw [Nat.and_assoc, flagMap_compl_other h]
    simp only [CPU.getFlag, CPU.setFlag, Bool.false_eq_true, if_false, e]
  · have e : (c.F ||| flagMap f) &&& flagMap g = c.F &&& flagMap g := by
      rw [Nat.and_distrib_right, flagMap_disjoint h, Nat.or_zero]
    simp only [CPU.getFlag, CPU.setFlag, if_true, e]

theorem getFlag_eq_testBit {σ : Type} (c : CPU σ) (f : flag) :
    c.getFlag f = c.F.testBit (flagBit f) := by
  simp only [CPU.getFlag, flagMap_eq_two_pow, Nat.and_two_pow]
  cases c.F.testBit (flagBit f)
  · simpa using Nat.ne_of_lt (Nat.two_pow_pos (flagBit f))
  · simp

/-- C5: for a status byte `F`, `setFlag f s` changes `F` in no bit but the one
the layout assigns to `f` (bit 7 Zero, 6 Subtract, 5 Half-Carry, 4 Carry), which
becomes `s`; afterwards `getFlag f` returns `s` and `getFlag g` is unchanged for
every other flag `g`; `getFlag f` is true exactly when that bit of `F` is 1; and
`setFlag` touches no field of the CPU other than `F`. -/
theorem setFlag_getFlag_contract {σ : Type} (c : CPU σ) (hF : c.F < 256) (f : flag)
    (s : Bool) :
    (∀ i, (c.setFlag f s).F.testBit i = if i = flagBit f then s else c.F.testBit i) ∧
    (c.setFlag f s).getFlag f = s ∧
    (∀ g, g ≠ f → (c.setFlag f s).getFlag g = c.getFlag g) ∧
    (c.getFlag f = true ↔ c.F.testBit (flagBit f) = true) ∧
    c.setFlag f s = { c with F := (c.setFlag f s).F } := by
  refine ⟨?_, getFlag_setFlag_same c f s, fun g hg => getFlag_setFlag_other c s hg, ?_, ?_⟩
  · intro i
    have h255 : Nat.testBit 0xFF i = decide (i < 8) := Nat.testBit_two_pow_sub_one 8 i
    rw [setFlag_F]
    cases s
    · simp only [Bool.false_eq_true, if_false, Nat.testBit_and, Nat.testBit_xor,
        flagMap_eq_two_pow, Nat.testBit_two_pow, h255]
      by_cases hi : i = flagBit f
      · have h8 : i < 8 := hi ▸ flagBit_lt f
        simp [hi, flagBit_lt f]
      · by_cases h8 : i < 8
        · have hne : ¬ flagBit f = i := fun e => hi e.symm
          simp [hi, hne, h8]
        · have hpow : 2 ^ 8 ≤ 2 ^ i :=
            Nat.pow_le_pow_right (show 0 < 2 by decide) (Nat.le_of_not_lt h8)
          have hlt : c.F < 2 ^ i := by omega
          simp [hi, Nat.testBit_lt_two_pow hlt]
    · simp only [if_true, Nat.testBit_or, flagMap_eq_two_pow, Nat.testBit_two_pow]
      by_cases hi : i = flagBit f
      · simp [hi]
      · have hne : ¬ flagBit f = i := fun e => hi e.symm
        simp [hi, hne]
  · rw [getFlag_eq_testBit]
  · cases s <;> rfl

/-- C5 at a concrete state: with `F = 0xB0`, clearing Half-Carry gives `F = 0x90`,
bit 5 cleared and bits 7 and 4 kept. -/
theorem setFlag_getFlag_contract_witness :
    (0xB0 < 256) ∧
    (({ NewCPU (mockMemory []) with F := 0xB0 } : CPU mockMemController).setFlag
        flag.HALF_CARRY false).getFlag flag.HALF_CARRY = false ∧
    (({ NewCPU (mockMemory []) with F := 0xB0 } : CPU mockMemController).setFlag
        flag.HALF_CARRY false).getFlag flag.CARRY
      = ({ NewCPU (mockMemory []) with F := 0xB0 } : CPU mockMemController).getFlag flag.CARRY ∧
    (({ NewCPU (mockMemory []) with F := 0xB0 } : CPU mockMemController).setFlag
        flag.HALF_CARRY false).F = 0x90 :=
  ⟨by decide,
   (setFlag_getFlag_contract ({ NewCPU (mockMemory []) with F := 0xB0 })
      (by decide) flag.HALF_CARRY false).2.1,
   (setFlag_getFlag_contract ({ NewCPU (mockMemory []) with F := 0xB0 })
      (by decide) flag.HALF_CARRY false).2.2.1 flag.CARRY (by decide),
   by decide⟩
/-! ## Register frame lemmas -/

theorem setFlag_eq {σ : Type} (c : CPU σ) (f : flag) (s : Bool) :
    c.setFlag f s = { c with F := (c.setFlag f s).F } := by
  cases s <;> rfl

theorem deref_setFlag {σ : Type} (c : CPU σ) (f : flag) (s : Bool) {r : register}
    (h : r ≠ register.F) : (c.setFlag f s).deref r = c.deref r := by
  cases s <;> cases r <;> first | rfl | exact absurd rfl h

theorem deref_assign_same {σ : Type} (c : CPU σ) (r : register) (v : Nat) :
    (c.assign r v).deref r = v := by
  cases r <;> rfl

theorem F_assign {σ : Type} (c : CPU σ) {r : register} (v : Nat) (h : r ≠ register.F) :
    (c.assign r v).F = c.F := by
  cases r <;> first | rfl | exact absurd rfl h

theorem getFlag_assign {σ : Type} (c : CPU σ) {r : register} (v : Nat) (f : flag)
    (h : r ≠ register.F) : (c.assign r v).getFlag f = c.getFlag f := by
  simp only [CPU.getFlag, F_assign c v h]

/-! ## Bytes and register pairs -/

theorem shiftRight8_lt {v : Nat} (hv : v < 65536) : v >>> 8 < 256 := by
  rw [Nat.shiftRight_eq_div_pow]
  exact Nat.div_lt_of_lt_mul (by simpa using hv)

theorem and_0xFF (v : Nat) : v &&& 0xFF = v % 256 :=
  Nat.and_pow_two_sub_one_eq_mod v 8

theorem split_eq {v : Nat} (hv : v < 65536) :
    splitUint16IntoBytes v = (v >>> 8, v &&& 0xFF) := by
  have h1 : v >>> 8 < 256 := shiftRight8_lt hv
  have h2 : v &&& 0xFF < 256 := by rw [and_0xFF]; exact Nat.mod_lt _ (by decide)
  simp only [splitUint16IntoBytes, Nat.mod_eq_of_lt h1, Nat.mod_eq_of_lt h2]

theorem merge_eq {hi lo : Nat} (hhi : hi < 256) (hlo : lo < 256) :
    mergeBytesToUint16 hi lo = hi * 256 + lo := by
  have h1 : hi <<< 8 = 2 ^ 8 * hi := by rw [Nat.shiftLeft_eq, Nat.mul_comm]
  have h2 : 2 ^ 8 * hi < 65536 := by omega
  have h3 : 2 ^ 8 * hi + lo = 2 ^ 8 * hi ||| lo := Nat.mul_add_lt_is_or (by simpa using hlo) hi
  simp only [mergeBytesToUint16, h1, Nat.mod_eq_of_lt h2, ← h3]
  omega

theorem merge_split {v : Nat} (hv : v < 65536) :
    mergeBytesToUint16 (v >>> 8) (v &&& 0xFF) = v := by
  have h1 : v >>> 8 < 256 := shiftRight8_lt hv
  have h2 : v &&& 0xFF < 256 := by rw [and_0xFF]; exact Nat.mod_lt _ (by decide)
  rw [merge_eq h1 h2, and_0xFF, Nat.shiftRight_eq_div_pow]
  have : v / 2 ^ 8 = v / 256 := rfl
  omega

theorem split_merge {hi lo : Nat} (hhi : hi < 256) (hlo : lo < 256) :
    splitUint16IntoBytes (mergeBytesToUint16 hi lo) = (hi, lo) := by
  have hv : hi * 256 + lo < 65536 := by omega
  rw [merge_eq hhi hlo, split_eq hv, and_0xFF, Nat.shiftRight_eq_div_pow]
  have : (hi * 256 + lo) / 2 ^ 8 = (hi * 256 + lo) / 256 := rfl
  rw [this]
  congr 1 <;> omega
/-- C7: for a 16-bit value `v`, `splitUint16IntoBytes v` is `(v >> 8, v & 0xFF)`
and merging the two halves gives `v` back; for bytes `hi`, `lo`, splitting
`mergeBytesToUint16 hi lo` gives `(hi, lo)`.  The handlers of `LD BC n16`,
`LD DE n16` and `LD HL n16` run `load16Bit` on the staged `n16 = v` and return 12
cycles; afterwards the pair reads back as `v` and its two registers hold the
high and the low byte of `v`. -/
theorem register_pair_roundtrip {σ : Type} [MemoryReadWriter σ] (c : CPU σ)
    (ctx : context) (v hi lo : Nat) (hv : v < 65536) (hhi : hi < 256) (hlo : lo < 256) :
    splitUint16IntoBytes v = (v >>> 8, v &&& 0xFF) ∧
    mergeBytesToUint16 (splitUint16IntoBytes v).1 (splitUint16IntoBytes v).2 = v ∧
    splitUint16IntoBytes (mergeBytesToUint16 hi lo) = (hi, lo) ∧
    ((List.lookup 0x01 opcodeLookup).map fun op => op.handler { ctx with n16 := v } c)
      = some (Exec.ret (load16Bit c register.B register.C v, 12, none)) ∧
    ((List.lookup 0x11 opcodeLookup).map fun op => op.handler { ctx with n16 := v } c)
      = some (Exec.ret (load16Bit c register.D register.E v, 12, none)) ∧
    ((List.lookup 0x21 opcodeLookup).map fun op => op.handler { ctx with n16 := v } c)
      = some (Exec.ret (load16Bit c register.H register.L v, 12, none)) ∧
    ((load16Bit c register.B register.C v).B = v >>> 8 ∧
      (load16Bit c register.B register.C v).C = v &&& 0xFF ∧
      mergeBytesToUint16 (load16Bit c register.B register.C v).B
        (load16Bit c register.B register.C v).C = v) ∧
    ((load16Bit c register.D register.E v).D = v >>> 8 ∧
      (load16Bit c register.D register.E v).E = v &&& 0xFF ∧
      mergeBytesToUint16 (load16Bit c register.D register.E v).D
        (load16Bit c register.D register.E v).E = v) ∧
    ((load16Bit c register.H register.L v).H = v >>> 8 ∧
      (load16Bit c register.H register.L v).L = v &&& 0xFF ∧
      mergeBytesToUint16 (load16Bit c register.H register.L v).H
        (load16Bit c register.H register.L v).L = v) := by
  have hs := split_eq hv
  have hm := merge_split hv
  have hB : (load16Bit c register.B register.C v).B = v >>> 8 := by
    show (splitUint16IntoBytes v).1 = _
    rw [hs]
  have hC : (load16Bit c register.B register.C v).C = v &&& 0xFF := by
    show (splitUint16IntoBytes v).2 = _
    rw [hs]
  have hD : (load16Bit c register.D register.E v).D = v >>> 8 := by
    show (splitUint16IntoBytes v).1 = _
    rw [hs]
  have hE : (load16Bit c register.D register.E v).E = v &&& 0xFF := by
    show (splitUint16IntoBytes v).2 = _
    rw [hs]
  have hH : (load16Bit c register.H register.L v).H = v >>> 8 := by
    show (splitUint16IntoBytes v).1 = _
    rw [hs]
  have hL : (load16Bit c register.H register.L v).L = v &&& 0xFF := by
    show (splitUint16IntoBytes v).2 = _
    rw [hs]
  refine ⟨hs, ?_, split_merge hhi hlo, rfl, rfl, rfl, ⟨hB, hC, ?_⟩, ⟨hD, hE, ?_⟩, ⟨hH, hL, ?_⟩⟩
  · rw [hs]; exact hm
  · rw [hB, hC]; exact hm
  · rw [hD, hE]; exact hm
  · rw [hH, hL]; exact hm

/-- C7 at `n16 = 0xABCD` (test "LD BC n16"): `B = 0xAB` and `C = 0xCD`. -/
theorem register_pair_roundtrip_witness :
    (0xABCD < 65536 ∧ 0xAB < 256 ∧ 0xCD < 256) ∧
    (load16Bit (NewCPU (mockMemory [])) register.B register.C 0xABCD).B = 0xAB ∧
    (load16Bit (NewCPU (mockMemory [])) register.B register.C 0xABCD).C = 0xCD ∧
    splitUint16IntoBytes (mergeBytesToUint16 0xAB 0xCD) = (0xAB, 0xCD) :=
  ⟨by decide,
   (register_pair_roundtrip (NewCPU (mockMemory [])) { n8 := 0, e8 := 0, n16 := 0 }
      0xABCD 0xAB 0xCD (by decide) (by decide) (by decide)).2.2.2.2.2.2.1.1,
   (register_pair_roundtrip (NewCPU (mockMemory [])) { n8 := 0, e8 := 0, n16 := 0 }
      0xABCD 0xAB 0xCD (by decide) (by decide) (by decide)).2.2.2.2.2.2.1.2.1,
   (register_pair_roundtrip (NewCPU (mockMemory [])) { n8 := 0, e8 := 0, n16 := 0 }
      0xABCD 0xAB 0xCD (by decide) (by decide) (by decide)).2.2.1⟩
/-! ## Increment, decrement, rotate -/

theorem incrementRegister_spec {σ : Type} (c : CPU σ) {r : register} (h : r ≠ register.F) :
    (c.incrementRegister r).deref r = (c.deref r + 1) % 256 ∧
    (c.incrementRegister r).getFlag flag.ZERO = ((c.deref r + 1) % 256 == 0) ∧
    (c.incrementRegister r).getFlag flag.SUBSTRACT = false ∧
    (c.incrementRegister r).getFlag flag.HALF_CARRY = (c.deref r &&& 0x0F == 0x0F) ∧
    (c.incrementRegister r).getFlag flag.CARRY = c.getFlag flag.CARRY := by
  simp only [CPU.incrementRegister, deref_setFlag _ _ _ h, deref_assign_same,
    getFlag_setFlag_same, getFlag_assign _ _ _ h, ne_eq, not_false_eq_true,
    getFlag_setFlag_other, reduceCtorEq, and_self]

theorem decrementRegister_spec {σ : Type} (c : CPU σ) {r : register} (h : r ≠ register.F) :
    (c.decrementRegister r).deref r = (c.deref r + 255) % 256 ∧
    (c.decrementRegister r).getFlag flag.ZERO = ((c.deref r + 255) % 256 == 0) ∧
    (c.decrementRegister r).getFlag flag.SUBSTRACT = true ∧
    (c.decrementRegister r).getFlag flag.HALF_CARRY = (c.deref r &&& 0x0F == 0x00) ∧
    (c.decrementRegister r).getFlag flag.CARRY = c.getFlag flag.CARRY := by
  simp only [CPU.decrementRegister, deref_setFlag _ _ _ h, deref_assign_same,
    getFlag_setFlag_same, getFlag_assign _ _ _ h, ne_eq, not_false_eq_true,
    getFlag_setFlag_other, reduceCtorEq, and_self]

theorem rotateLeft_spec {σ : Type} (c : CPU σ) {r : register} (h : r ≠ register.F) :
    (c.rotateLeft r).deref r
      = (((c.deref r <<< 1) % 256) ||| (if c.getFlag flag.CARRY then 1 else 0)) ∧
    (c.rotateLeft r).getFlag flag.CARRY = ((c.deref r &&& 0x80) >>> 7 == 1) ∧
    (c.rotateLeft r).getFlag flag.ZERO
      = ((((c.deref r <<< 1) % 256) ||| (if c.getFlag flag.CARRY then 1 else 0)) == 0) ∧
    (c.rotateLeft r).getFlag flag.SUBSTRACT = false ∧
    (c.rotateLeft r).getFlag flag.HALF_CARRY = false := by
  simp only [CPU.rotateLeft, deref_setFlag _ _ _ h, deref_assign_same,
    getFlag_setFlag_same, getFlag_assign _ _ _ h, ne_eq, not_false_eq_true,
    getFlag_setFlag_other, reduceCtorEq, and_self]
theorem bit7_eq_testBit (r : Nat) : ((r &&& 0x80) >>> 7 == 1) = r.testBit 7 := by
  have h : r &&& 0x80 = (r.testBit 7).toNat * 2 ^ 7 := Nat.and_two_pow r 7
  rw [h, Nat.shiftRight_eq_div_pow]
  cases r.testBit 7 <;> rfl

/-- C8: the handler of `INC C` runs `incrementRegister` on `C` and returns 4
cycles.  Whatever the flags were, `C` becomes `(C + 1) mod 256`, Zero is set
exactly when that result is 0, Subtract is cleared, and Half-Carry is set
exactly when the low nibble of the old `C` was `0xF`.  From `0xFF` the result is
`0x00` with Zero and Half-Carry set; from `0xFE` it is `0xFF` with both clear. -/
theorem incrementRegister_INC_C {σ : Type} [MemoryReadWriter σ] (c : CPU σ) (ctx : context) :
    ((List.lookup 0x0C opcodeLookup).map fun op => (op.mnemonic, op.handler ctx c))
      = some ("INC C", Exec.ret (c.incrementRegister register.C, 4, none)) ∧
    (c.incrementRegister register.C).C = (c.C + 1) % 256 ∧
    ((c.incrementRegister register.C).getFlag flag.ZERO = true ↔ (c.C + 1) % 256 = 0) ∧
    (c.incrementRegister register.C).getFlag flag.SUBSTRACT = false ∧
    ((c.incrementRegister register.C).getFlag flag.HALF_CARRY = true ↔ c.C &&& 0x0F = 0x0F) ∧
    (({ c with C := 0xFF } : CPU σ).incrementRegister register.C).C = 0x00 ∧
    (({ c with C := 0xFF } : CPU σ).incrementRegister register.C).getFlag flag.ZERO = true ∧
    (({ c with C := 0xFF } : CPU σ).incrementRegister register.C).getFlag flag.SUBSTRACT = false ∧
    (({ c with C := 0xFF } : CPU σ).incrementRegister register.C).getFlag flag.HALF_CARRY = true ∧
    (({ c with C := 0xFE } : CPU σ).incrementRegister register.C).C = 0xFF ∧
    (({ c with C := 0xFE } : CPU σ).incrementRegister register.C).getFlag flag.ZERO = false ∧
    (({ c with C := 0xFE } : CPU σ).incrementRegister register.C).getFlag flag.HALF_CARRY = false := by
  have hC : register.C ≠ register.F := by decide
  have g := incrementRegister_spec c hC
  have g1 := incrementRegister_spec ({ c with C := 0xFF } : CPU σ) hC
  have g2 := incrementRegister_spec ({ c with C := 0xFE } : CPU σ) hC
  simp only [CPU.deref] at g g1 g2
  refine ⟨rfl, g.1, ?_, g.2.2.1, ?_, g1.1, ?_, g1.2.2.1, ?_, g2.1, ?_, ?_⟩
  · rw [g.2.1]; exact beq_iff_eq
  · rw [g.2.2.2.1]; exact beq_iff_eq
  · rw [g1.2.1]; decide
  · rw [g1.2.2.2.1]; decide
  · rw [g2.2.1]; decide
  · rw [g2.2.2.2.1]; decide

/-- C9: the handler of `DEC B` runs `decrementRegister` on `B` and returns 4
cycles.  Whatever the flags were, `B` becomes `(B - 1) mod 256`, Zero is set
exactly when that result is 0, Subtract is set, and Half-Carry is set exactly
when the low nibble of the old `B` was `0x0`.  From `0x10` the result is `0x0F`
with Half-Carry set and Zero clear; from `0x00` it is `0xFF`. -/
theorem decrementRegister_DEC_B {σ : Type} [MemoryReadWriter σ] (c : CPU σ) (ctx : context) :
    ((List.lookup 0x05 opcodeLookup).map fun op => (op.mnemonic, op.handler ctx c))
      = some ("DEC B", Exec.ret (c.decrementRegister register.B, 4, none)) ∧
    (((c.decrementRegister register.B).B : Int) = ((c.B : Int) - 1) % 256) ∧
    ((c.decrementRegister register.B).getFlag flag.ZERO = true
      ↔ (c.decrementRegister register.B).B = 0) ∧
    (c.decrementRegister register.B).getFlag flag.SUBSTRACT = true ∧
    ((c.decrementRegister register.B).getFlag flag.HALF_CARRY = true ↔ c.B &&& 0x0F = 0x00) ∧
    (({ c with B := 0x10 } : CPU σ).decrementRegister register.B).B = 0x0F ∧
    (({ c with B := 0x10 } : CPU σ).decrementRegister register.B).getFlag flag.HALF_CARRY = true ∧
    (({ c with B := 0x10 } : CPU σ).decrementRegister register.B).getFlag flag.ZERO = false ∧
    (({ c with B := 0x00 } : CPU σ).decrementRegister register.B).B = 0xFF := by
  have hB : register.B ≠ register.F := by decide
  have g := decrementRegister_spec c hB
  have g1 := decrementRegister_spec ({ c with B := 0x10 } : CPU σ) hB
  have g2 := decrementRegister_spec ({ c with B := 0x00 } : CPU σ) hB
  simp only [CPU.deref] at g g1 g2
  have e : (c.decrementRegister register.B).B = (c.B + 255) % 256 := g.1
  refine ⟨rfl, ?_, ?_, g.2.2.1, ?_, g1.1, ?_, ?_, g2.1⟩
  · rw [e]; omega
  · rw [g.2.1, e]; exact beq_iff_eq
  · rw [g.2.2.2.1]; exact beq_iff_eq
  · rw [g1.2.2.2.1]; decide
  · rw [g1.2.1]; decide

/-- C10: the handler of the CB-prefixed `RL C` runs `rotateLeft` on `C` and
returns 8 cycles.  With `k` the old Carry (0 or 1), `C` becomes
`((C << 1) mod 256) | k`, Carry is set exactly when bit 7 of the old `C` was 1,
Zero exactly when the new `C` is 0, and Subtract and Half-Carry are cleared.
From `C = 0x85` with Carry clear the result is `0x0A` with Carry set and Zero,
Subtract and Half-Carry clear. -/
theorem rotateLeft_RL_C {σ : Type} [MemoryReadWriter σ] (c : CPU σ) (ctx : context) :
    ((List.lookup 0x11 cbPrefixedOpcodeLookup).map fun op => (op.mnemonic, op.handler ctx c))
      = some ("RL C", Exec.ret (c.rotateLeft register.C, 8, none)) ∧
    (c.rotateLeft register.C).C
      = (((c.C <<< 1) % 256) ||| (if c.getFlag flag.CARRY then 1 else 0)) ∧
    ((c.rotateLeft register.C).getFlag flag.CARRY = true ↔ c.C.testBit 7 = true) ∧
    ((c.rotateLeft register.C).getFlag flag.ZERO = true ↔ (c.rotateLeft register.C).C = 0) ∧
    (c.rotateLeft register.C).getFlag flag.SUBSTRACT = false ∧
    (c.rotateLeft register.C).getFlag flag.HALF_CARRY = false ∧
    (((({ c with C := 0x85 } : CPU σ).setFlag flag.CARRY false).rotateLeft register.C).C = 0x0A ∧
     ((({ c with C := 0x85 } : CPU σ).setFlag flag.CARRY false).rotateLeft
        register.C).getFlag flag.CARRY = true ∧
     ((({ c with C := 0x85 } : CPU σ).setFlag flag.CARRY false).rotateLeft
        register.C).getFlag flag.ZERO = false ∧
     ((({ c with C := 0x85 } : CPU σ).setFlag flag.CARRY false).rotateLeft
        register.C).getFlag flag.SUBSTRACT = false ∧
     ((({ c with C := 0x85 } : CPU σ).setFlag flag.CARRY false).rotateLeft
        register.C).getFlag flag.HALF_CARRY = false) := by
  have hC : register.C ≠ register.F := by decide
  have g := rotateLeft_spec c hC
  have g1 := rotateLeft_spec (({ c with C := 0x85 } : CPU σ).setFlag flag.CARRY false) hC
  have k : (({ c with C := 0x85 } : CPU σ).setFlag flag.CARRY false).getFlag flag.CARRY = false :=
    getFlag_setFlag_same _ _ _
  have d : (({ c with C := 0x85 } : CPU σ).setFlag flag.CARRY false).deref register.C = 0x85 :=
    deref_setFlag _ _ _ hC
  rw [k, d] at g1
  simp only [CPU.deref] at g
  have e : (c.rotateLeft register.C).C
      = (((c.C <<< 1) % 256) ||| (if c.getFlag flag.CARRY then 1 else 0)) := g.1
  refine ⟨rfl, e, ?_, ?_, g.2.2.2.1, g.2.2.2.2, g1.1, ?_, ?_, g1.2.2.2.1, g1.2.2.2.2⟩
  · rw [g.2.1, bit7_eq_testBit]
  · rw [g.2.2.1, e]; exact beq_iff_eq
  · rw [g1.2.1]; decide
  · rw [g1.2.2.1]; decide
/-! ## Inversion of fetch -/

theorem lookup_mem {α : Type} (l : List (Nat × α)) (k : Nat) (v : α)
    (h : List.lookup k l = some v) : (k, v) ∈ l := by
  induction l with
  | nil => simp [List.lookup] at h
  | cons p t ih =>
    obtain ⟨k1, v1⟩ := p
    by_cases e : k = k1
    · subst e
      simp [List.lookup] at h
      subst h
      exact List.mem_cons_self _ _
    · have hb : (k == k1) = false := by simpa using e
      rw [List.lookup, hb] at h
      exact List.mem_cons_of_mem _ (ih h)

theorem decode_ok_inv {σ : Type} [MemoryReadWriter σ] {c c1 : CPU σ}
    {lookup : List (Nat × opcode σ)} {cb : Bool} {sl : List Nat} {ins : instruction σ}
    (h : c.decode lookup cb sl = Exec.ret (c1, Except.ok ins)) :
    ∃ b operands, goIndex sl 0 = Exec.ret b ∧ List.lookup b lookup = some ins.opcode ∧
      MemoryReadWriter.ReadFromAddress c.memoryBus ((c.PC + 1) % 65536) ins.opcode.size
        = Res.ok operands ∧
      stageOperands ins.opcode.size operands = Exec.ret ins.context ∧
      c1 = { c with PC := (c.PC + ins.opcode.size) % 65536 } := by
  unfold CPU.decode at h
  split at h
  · cases h
  · rename_i b hb
    split at h
    · cases h
    · rename_i op hop
      split at h
      · cases h
      · cases h
      · rename_i operands hops
        split at h
        · cases h
        · rename_i ctx hctx
          cases h
          exact ⟨b, operands, hb, hop, hops, hctx, rfl⟩

theorem decode_error_inv {σ : Type} [MemoryReadWriter σ] {c c1 : CPU σ}
    {lookup : List (Nat × opcode σ)} {cb : Bool} {sl : List Nat} {e : Fault}
    (h : c.decode lookup cb sl = Exec.ret (c1, Except.error e)) : c1 = c := by
  unfold CPU.decode at h
  split at h
  · cases h
  · split at h
    · cases h; rfl
    · split at h
      · cases h
      · cases h; rfl
      · split at h
        · cases h
        · cases h

theorem fetch_ok_inv {σ : Type} [MemoryReadWriter σ] {c c1 : CPU σ} {ins : instruction σ}
    (h : c.fetch = Exec.ret (c1, Except.ok ins)) :
    ∃ (cb : Bool) (sl0 sl : List Nat) (first b : Nat) (operands : List Nat),
      MemoryReadWriter.ReadFromAddress c.memoryBus c.PC 1 = Res.ok sl0 ∧
      goIndex sl0 0 = Exec.ret first ∧
      (cb = true ↔ first = 0xCB) ∧
      (if cb then MemoryReadWriter.ReadFromAddress c.memoryBus ((c.PC + 1) % 65536) 1 = Res.ok sl
        else sl = sl0) ∧
      goIndex sl 0 = Exec.ret b ∧
      List.lookup b (if cb then cbPrefixedOpcodeLookup else opcodeLookup) = some ins.opcode ∧
      MemoryReadWriter.ReadFromAddress c.memoryBus ((c.PC + 1) % 65536) ins.opcode.size
        = Res.ok operands ∧
      stageOperands ins.opcode.size operands = Exec.ret ins.context ∧
      c1 = { c with PC := (c.PC + ins.opcode.size) % 65536 } := by
  unfold CPU.fetch at h
  split at h
  · cases h
  · cases h
  · rename_i sl0 h0
    split at h
    · cases h
    · rename_i first hfirst
      split at h
      · rename_i hcb
        split at h
        · cases h
        · cases h
        · rename_i sl1 h1
          obtain ⟨b, operands, hb, hop, hops, hctx, hc⟩ := decode_ok_inv h
          exact ⟨true, sl0, sl1, first, b, operands, h0, hfirst, by simp [hcb], by simpa using h1,
            hb, by simpa using hop, hops, hctx, hc⟩
      · rename_i hcb
        obtain ⟨b, operands, hb, hop, hops, hctx, hc⟩ := decode_ok_inv h
        exact ⟨false, sl0, sl0, first, b, operands, h0, hfirst, by simp [hcb], by simp,
          hb, by simpa using hop, hops, hctx, hc⟩

theorem fetch_error_inv {σ : Type} [MemoryReadWriter σ] {c c1 : CPU σ} {e : Fault}
    (h : c.fetch = Exec.ret (c1, Except.error e)) : c1 = c := by
  unfold CPU.fetch at h
  split at h
  · cases h
  · cases h; rfl
  · split at h
    · cases h
    · split at h
      · split at h
        · cases h
        · cases h; rfl
        · exact decode_error_inv h
      · exact decode_error_inv h
/-! ## Reads of the two buses -/

theorem goSlice_getElem? {s bs : List Nat} {lo hi i x : Nat}
    (h : goSlice s lo hi = Res.ok bs) (hx : bs[i]? = some x) : s[lo + i]? = some x := by
  unfold goSlice at h
  split at h
  · cases h
    rw [List.getElem?_take] at hx
    split at hx
    · rwa [List.getElem?_drop] at hx
    · cases hx
  · cases h

theorem byteAt_read {σ : Type} [MemoryReadWriter σ] {m : σ} {a y : Nat}
    (h : byteAt m a = some y) :
    ∃ bs, MemoryReadWriter.ReadFromAddress m a 1 = Res.ok bs ∧ bs[0]? = some y := by
  unfold byteAt at h
  split at h
  · rename_i b rest hr
    cases h
    exact ⟨_, hr, by simp⟩
  · cases h

theorem controller_read_getElem? {m : Controller} {a n i x : Nat} {bs : List Nat}
    (ha : a < 65536) (h : m.ReadFromAddress a n = Res.ok bs) (hx : bs[i]? = some x) :
    (a ≤ 0x3FFF ∧ m.cartridge[a + i]? = some x) ∨
    (0x8000 ≤ a ∧ a ≤ 0x9FFF ∧ m.vram[a - 0x8000 + i]? = some x) ∨
    (0xC000 ≤ a ∧ a ≤ 0xDFFF ∧ m.ram[a - 0xC000 + i]? = some x) ∨
    (0xFF80 ≤ a ∧ a ≤ 0xFFFE ∧ m.hram[a - 0xFF80 + i]? = some x) := by
  unfold Controller.ReadFromAddress at h
  split at h
  · rename_i h1
    exact Or.inl ⟨h1, goSlice_getElem? h hx⟩
  · split at h
    · rename_i h1 h2
      have e : toVRAMSpace a = a - 0x8000 := by unfold toVRAMSpace; omega
      rw [e] at h
      exact Or.inr (Or.inl ⟨h2.1, h2.2, goSlice_getElem? h hx⟩)
    · split at h
      · rename_i h1 h2 h3
        have e : toRAMSpace a = a - 0xC000 := by unfold toRAMSpace; omega
        rw [e] at h
        exact Or.inr (Or.inr (Or.inl ⟨h3.1, h3.2, goSlice_getElem? h hx⟩))
      · split at h
        · rename_i h1 h2 h3 h4
          have e : toHRAMSpace a = a - 0xFF80 := by unfold toHRAMSpace; omega
          rw [e] at h
          exact Or.inr (Or.inr (Or.inr ⟨h4.1, h4.2, goSlice_getElem? h hx⟩))
        · cases h

theorem controller_readsAgree : ReadsAgree Controller := by
  intro m a n i x y bs ha hi hr hx hy
  obtain ⟨bs1, hr1, hy1⟩ := byteAt_read hy
  have ha1 : (a + i) % 65536 < 65536 := Nat.mod_lt _ (by decide)
  have g := controller_read_getElem? ha hr hx
  have g1 := controller_read_getElem? ha1 hr1 hy1
  have key : ∀ (s : List Nat) (j k : Nat), j = k → s[j]? = some x → s[k]? = some y → x = y := by
    intro s j k hjk h1 h2
    subst hjk
    rw [h1] at h2
    exact Option.some.inj h2
  rcases g with ⟨h, hv⟩ | ⟨h, h', hv⟩ | ⟨h, h', hv⟩ | ⟨h, h', hv⟩ <;>
    rcases g1 with ⟨k, kv⟩ | ⟨k, k', kv⟩ | ⟨k, k', kv⟩ | ⟨k, k', kv⟩ <;>
    first
      | exact key _ _ _ (by omega) hv kv
      | (exfalso; omega)

theorem mock_readsAgree : ReadsAgree mockMemController := by
  intro m a n i x y bs ha hi hr hx hy
  obtain ⟨bs1, hr1, hy1⟩ := byteAt_read hy
  have g : m.ram[a + i]? = some x := goSlice_getElem? hr hx
  have g1 : m.ram[(a + i) % 65536 + 0]? = some y := goSlice_getElem? hr1 hy1
  have hlt : a + i < 65536 := by
    have hr' : goSlice m.ram a (upTo a n) = Res.ok bs := hr
    unfold goSlice at hr'
    split at hr'
    · rename_i hb
      cases hr'
      rw [List.getElem?_take] at hx
      split at hx
      · rename_i hlt
        have : upTo a n < 65536 := Nat.mod_lt _ (by decide)
        omega
      · cases hx
    · cases hr'
  rw [Nat.add_zero, Nat.mod_eq_of_lt hlt, g] at g1
  exact Option.some.inj g1
/-! ## Operand staging -/

theorem goIndex_eq_ret {s : List Nat} {i b : Nat} :
    goIndex s i = Exec.ret b ↔ s[i]? = some b := by
  unfold goIndex
  constructor
  · intro h
    split at h
    · rename_i b1 hb
      cases h
      exact hb
    · cases h
  · intro h
    rw [h]

theorem stageOperands_two {operands : List Nat} {ctx : context}
    (h : stageOperands 2 operands = Exec.ret ctx) :
    ∃ b, operands[0]? = some b ∧ ctx = { n8 := b, e8 := toInt8 b, n16 := 0 } := by
  unfold stageOperands at h
  simp only [if_true] at h
  split at h
  · cases h
  · rename_i b hb
    cases h
    exact ⟨b, goIndex_eq_ret.mp hb, rfl⟩

theorem stageOperands_three {operands : List Nat} {ctx : context}
    (h : stageOperands 3 operands = Exec.ret ctx) :
    ∃ hi lo, operands[1]? = some hi ∧ operands[0]? = some lo ∧
      ctx = { n8 := 0, e8 := 0, n16 := mergeBytesToUint16 hi lo } := by
  unfold stageOperands at h
  simp only [show ¬ (3 = 2) by decide, if_false, if_true] at h
  split at h
  · rename_i hi lo hhi hlo
    cases h
    exact ⟨hi, lo, goIndex_eq_ret.mp hhi, goIndex_eq_ret.mp hlo, rfl⟩
  · cases h

theorem toInt8_of_byte {x : Nat} (hx : x < 256) :
    toInt8 x = if x < 128 then (x : Int) else (x : Int) - 256 := by
  unfold toInt8
  rw [Nat.mod_eq_of_lt hx]

theorem fetch_ok_staged {σ : Type} [MemoryReadWriter σ] (agree : ReadsAgree σ)
    (c c1 : CPU σ) (ins : instruction σ) (b : Nat) (op : opcode σ)
    (hb : byteAt c.memoryBus c.PC = some b)
    (hop : List.lookup b opcodeLookup = some op)
    (hf : c.fetch = Exec.ret (c1, Except.ok ins)) :
    ins.opcode = op ∧
    c1.PC = (c.PC + op.size) % 65536 ∧
    (op.size = 2 → ∀ x, x < 256 → byteAt c.memoryBus ((c.PC + 1) % 65536) = some x →
      ins.context.n8 = x ∧
      ins.context.e8 = if x < 128 then (x : Int) else (x : Int) - 256) ∧
    (op.size = 3 → ∀ x y, x < 256 → y < 256 →
      byteAt c.memoryBus ((c.PC + 1) % 65536) = some x →
      byteAt c.memoryBus ((c.PC + 2) % 65536) = some y →
      ins.context.n16 = y * 256 + x) ∧
    (c1.A = c.A ∧ c1.F = c.F ∧ c1.B = c.B ∧ c1.C = c.C ∧ c1.D = c.D ∧ c1.E = c.E ∧
      c1.H = c.H ∧ c1.L = c.L ∧ c1.sp = c.sp ∧ c1.memoryBus = c.memoryBus ∧
      c1.callStack = c.callStack) := by
  obtain ⟨cb, sl0, sl, first, b1, operands, h0, hfirst, hcb, hsl, hb1, hlook, hops, hctx, hc1⟩ :=
    fetch_ok_inv hf
  obtain ⟨bs, hbs, hbs0⟩ := byteAt_read hb
  rw [h0] at hbs
  cases hbs
  have hfb : first = b := by
    have := goIndex_eq_ret.mp hfirst
    rw [hbs0] at this
    exact (Option.some.inj this).symm
  subst hfb
  have hne : first ≠ 0xCB := by
    intro e
    rw [e] at hop
    cases hop
  have hcbf : cb = false := by
    cases cb
    · rfl
    · exact absurd (hcb.mp rfl) hne
  subst hcbf
  simp only [Bool.false_eq_true, if_false] at hsl hlook
  subst hsl
  have hb1' : b1 = first := by
    rw [hfirst] at hb1
    cases hb1
    rfl
  subst hb1'
  have hopeq : ins.opcode = op := by
    rw [hop] at hlook
    exact (Option.some.inj hlook).symm
  have hpc : (c.PC + 1) % 65536 < 65536 := Nat.mod_lt _ (by decide)
  rw [hopeq] at hops hctx hc1
  refine ⟨hopeq, by rw [hc1], ?_, ?_, by rw [hc1]; simp⟩
  · intro h2 x hx hbx
    rw [h2] at hops hctx
    obtain ⟨v, hv, hcx⟩ := stageOperands_two hctx
    have hxv : v = x := by
      have := agree c.memoryBus ((c.PC + 1) % 65536) 2 0 v x operands hpc (by decide) hops hv
      apply this
      rw [Nat.add_zero, Nat.mod_mod]
      exact hbx
    subst hxv
    rw [hcx]
    exact ⟨rfl, toInt8_of_byte hx⟩
  · intro h3 x y hx hy hbx hby
    rw [h3] at hops hctx
    obtain ⟨hi, lo, hhi, hlo, hcx⟩ := stageOperands_three hctx
    have hlo' : lo = x := by
      apply agree c.memoryBus ((c.PC + 1) % 65536) 3 0 lo x operands hpc (by decide) hops hlo
      rw [Nat.add_zero, Nat.mod_mod]
      exact hbx
    have hhi' : hi = y := by
      apply agree c.memoryBus ((c.PC + 1) % 65536) 3 1 hi y operands hpc (by decide) hops hhi
      have e : ((c.PC + 1) % 65536 + 1) % 65536 = (c.PC + 2) % 65536 := by omega
      rw [e]
      exact hby
    subst hlo' hhi'
    rw [hcx]
    exact merge_eq hy hx


/-! ## Table selection -/

theorem fetch_cb {σ : Type} [MemoryReadWriter σ] (c : CPU σ) {rest sl : List Nat}
    (h0 : MemoryReadWriter.ReadFromAddress c.memoryBus c.PC 1 = Res.ok (0xCB :: rest))
    (h1 : MemoryReadWriter.ReadFromAddress c.memoryBus ((c.PC + 1) % 65536) 1 = Res.ok sl) :
    c.fetch = c.decode cbPrefixedOpcodeLookup true sl := by
  unfold CPU.fetch
  simp only [h0, goIndex, List.getElem?_cons_zero, if_true, h1]

theorem fetch_plain {σ : Type} [MemoryReadWriter σ] (c : CPU σ) {first : Nat}
    {rest : List Nat}
    (h0 : MemoryReadWriter.ReadFromAddress c.memoryBus c.PC 1 = Res.ok (first :: rest))
    (hne : first ≠ 0xCB) :
    c.fetch = c.decode opcodeLookup false (first :: rest) := by
  unfold CPU.fetch
  simp only [h0, goIndex, List.getElem?_cons_zero, if_neg hne]

theorem decode_unknown {σ : Type} [MemoryReadWriter σ] (c : CPU σ)
    (lookup : List (Nat × opcode σ)) (cb : Bool) {b : Nat} {rest : List Nat}
    (h : List.lookup b lookup = none) :
    c.decode lookup cb (b :: rest) = Exec.ret (c, Except.error (Fault.unknownOpcode b cb)) := by
  unfold CPU.decode
  simp only [goIndex, List.getElem?_cons_zero, h]

/-! ## Operand staging -/

theorem opcodeLookup_no_sentinel {σ : Type} [MemoryReadWriter σ] :
    List.lookup 0xCB (opcodeLookup : List (Nat × opcode σ)) = none := rfl

theorem fetch_of_reads {σ : Type} [MemoryReadWriter σ] (c : CPU σ) (b : Nat) (op : opcode σ)
    (operands : List Nat) (ctx : context)
    (hb : byteAt c.memoryBus c.PC = some b)
    (hop : List.lookup b opcodeLookup = some op)
    (hops : MemoryReadWriter.ReadFromAddress c.memoryBus ((c.PC + 1) % 65536) op.size
      = Res.ok operands)
    (hst : stageOperands op.size operands = Exec.ret ctx) :
    c.fetch = Exec.ret ({ c with PC := (c.PC + op.size) % 65536 },
      Except.ok { opcode := op, context := ctx }) := by
  obtain ⟨bs, hbs, hbs0⟩ := byteAt_read hb
  have hne : b ≠ 0xCB := by
    intro e
    rw [e, opcodeLookup_no_sentinel] at hop
    cases hop
  cases bs with
  | nil => cases hbs0
  | cons first rest =>
    have hfb : first = b := by simpa using hbs0
    subst hfb
    rw [fetch_plain c hbs hne]
    unfold CPU.decode
    simp only [goIndex, List.getElem?_cons_zero, hop, hops, hst]

/-- C1: on a bus whose reads agree, let the byte at `PC` be `b`, an opcode of
`opcodeLookup` with entry `op` of size `n`.  Whenever `fetch` succeeds, the
fetched opcode is `op`, `PC` afterwards is `(PC + n) mod 2^16`, and no register,
flag, stack pointer, bus content or trace entry changed; when `n = 2`, `n8` is
the byte at `PC+1` and `e8` is that byte read as a two's-complement signed
value; when `n = 3`, `n16` is `(byte at PC+2) * 256 + (byte at PC+1)`.  And
`fetch` does succeed, with exactly that result, whenever the bus returns the
operand read of `n` bytes at `PC+1`: for `n = 2` it returns the CPU with `PC`
advanced by 2 and the instruction whose context holds the first operand byte
as `n8` and as the signed `e8`; for `n = 3` the CPU with `PC` advanced by 3
and the context whose `n16` merges the second operand byte (high) with the
first (low); for any other `n` the CPU with `PC` advanced by `n` and the zero
context. -/
theorem fetch_stages_operands {σ : Type} [MemoryReadWriter σ] (agree : ReadsAgree σ)
    (c : CPU σ) (b : Nat) (op : opcode σ)
    (hb : byteAt c.memoryBus c.PC = some b)
    (hop : List.lookup b opcodeLookup = some op) :
    (∀ (c1 : CPU σ) (ins : instruction σ), c.fetch = Exec.ret (c1, Except.ok ins) →
      ins.opcode = op ∧
      c1.PC = (c.PC + op.size) % 65536 ∧
      (op.size = 2 → ∀ x, x < 256 → byteAt c.memoryBus ((c.PC + 1) % 65536) = some x →
        ins.context.n8 = x ∧
        ins.context.e8 = if x < 128 then (x : Int) else (x : Int) - 256) ∧
      (op.size = 3 → ∀ x y, x < 256 → y < 256 →
        byteAt c.memoryBus ((c.PC + 1) % 65536) = some x →
        byteAt c.memoryBus ((c.PC + 2) % 65536) = some y →
        ins.context.n16 = y * 256 + x) ∧
      (c1.A = c.A ∧ c1.F = c.F ∧ c1.B = c.B ∧ c1.C = c.C ∧ c1.D = c.D ∧ c1.E = c.E ∧
        c1.H = c.H ∧ c1.L = c.L ∧ c1.sp = c.sp ∧ c1.memoryBus = c.memoryBus ∧
        c1.callStack = c.callStack)) ∧
    (∀ operands : List Nat,
      MemoryReadWriter.ReadFromAddress c.memoryBus ((c.PC + 1) % 65536) op.size
        = Res.ok operands →
      (op.size = 2 → ∀ x, operands[0]? = some x →
        c.fetch = Exec.ret ({ c with PC := (c.PC + 2) % 65536 },
          Except.ok { opcode := op, context := { n8 := x, e8 := toInt8 x, n16 := 0 } })) ∧
      (op.size = 3 → ∀ x y, operands[0]? = some x → operands[1]? = some y →
        c.fetch = Exec.ret ({ c with PC := (c.PC + 3) % 65536 },
          Except.ok { opcode := op,
                      context := { n8 := 0, e8 := 0, n16 := mergeBytesToUint16 y x } })) ∧
      (op.size ≠ 2 → op.size ≠ 3 →
        c.fetch = Exec.ret ({ c with PC := (c.PC + op.size) % 65536 },
          Except.ok { opcode := op, context := { n8 := 0, e8 := 0, n16 := 0 } }))) := by
  refine ⟨fun c1 ins hf => fetch_ok_staged agree c c1 ins b op hb hop hf, ?_⟩
  intro operands hops
  refine ⟨?_, ?_, ?_⟩
  · intro h2 x hx
    have hst : stageOperands op.size operands
        = Exec.ret { n8 := x, e8 := toInt8 x, n16 := 0 } := by
      rw [h2]
      unfold stageOperands
      simp only [if_true, goIndex, hx]
    have g := fetch_of_reads c b op operands _ hb hop hops hst
    rw [h2] at g
    exact g
  · intro h3 x y hx hy
    have hst : stageOperands op.size operands
        = Exec.ret { n8 := 0, e8 := 0, n16 := mergeBytesToUint16 y x } := by
      rw [h3]
      unfold stageOperands
      simp only [show ¬ (3 = 2) by decide, if_false, if_true, goIndex, hx, hy]
    have g := fetch_of_reads c b op operands _ hb hop hops hst
    rw [h3] at g
    exact g
  · intro n2 n3
    have hst : stageOperands op.size operands
        = Exec.ret { n8 := 0, e8 := 0, n16 := 0 } := by
      unfold stageOperands
      rw [if_neg n2, if_neg n3]
    exact fetch_of_reads c b op operands _ hb hop hops hst

/-- C1 on the memory Controller.  The ROM image `[0x11, 0xCD, 0xAB, 0x00]` at
`PC = 0` is fetched as `LD DE n16` with `n16 = 0xABCD` and `PC = 3`; the ROM
image `[0x0E, 0x80, 0x00]` is fetched as `LD C n8` with `n8 = 0x80`,
`e8 = -128` and `PC = 2`. -/
theorem fetch_stages_operands_witness :
    (byteAt (NewController [0x11, 0xCD, 0xAB, 0x00]) 0 = some 0x11 ∧
      ∃ op : opcode Controller,
        List.lookup 0x11 opcodeLookup = some op ∧ op.mnemonic = "LD DE n16" ∧ op.size = 3 ∧
        (NewCPU (NewController [0x11, 0xCD, 0xAB, 0x00])).fetch
          = Exec.ret ({ NewCPU (NewController [0x11, 0xCD, 0xAB, 0x00]) with PC := 3 },
              Except.ok { opcode := op, context := { n8 := 0, e8 := 0, n16 := 0xABCD } })) ∧
    (byteAt (NewController [0x0E, 0x80, 0x00]) 0 = some 0x0E ∧
      ∃ op : opcode Controller,
        List.lookup 0x0E opcodeLookup = some op ∧ op.mnemonic = "LD C n8" ∧ op.size = 2 ∧
        (NewCPU (NewController [0x0E, 0x80, 0x00])).fetch
          = Exec.ret ({ NewCPU (NewController [0x0E, 0x80, 0x00]) with PC := 2 },
              Except.ok { opcode := op, context := { n8 := 0x80, e8 := -128, n16 := 0 } })) :=
  ⟨⟨rfl, _, rfl, rfl, rfl,
    ((fetch_stages_operands controller_readsAgree
        (NewCPU (NewController [0x11, 0xCD, 0xAB, 0x00])) 0x11 _ rfl rfl).2
      [0xCD, 0xAB, 0x00] rfl).2.1 rfl 0xCD 0xAB rfl rfl⟩,
   ⟨rfl, _, rfl, rfl, rfl,
    ((fetch_stages_operands controller_readsAgree
        (NewCPU (NewController [0x0E, 0x80, 0x00])) 0x0E _ rfl rfl).2
      [0x80, 0x00] rfl).1 rfl 0x80 rfl⟩⟩


/-- Table selection of `fetch`: when the byte at `PC` is `0xCB`, `fetch` decodes
the byte at `PC+1` against `cbPrefixedOpcodeLookup` alone: it is an unknown
opcode exactly when that table has no entry for it, and a fetched opcode is
that table's entry.  Otherwise `fetch` decodes the byte at `PC` against
`opcodeLookup` alone, in the same way.  With `0xCB, 0x11` at `PC` and the read
of 2 bytes at `PC+1` returning, `fetch` yields "RL C" of size 2 (not
"LD DE n16" of size 3) and `PC` advances by 2. -/
theorem fetch_selects_table {σ : Type} [MemoryReadWriter σ] (c : CPU σ) (first : Nat)
    (rest : List Nat)
    (h0 : MemoryReadWriter.ReadFromAddress c.memoryBus c.PC 1 = Res.ok (first :: rest)) :
    (first = 0xCB → ∀ b rest1,
      MemoryReadWriter.ReadFromAddress c.memoryBus ((c.PC + 1) % 65536) 1
        = Res.ok (b :: rest1) →
      c.fetch = c.decode cbPrefixedOpcodeLookup true (b :: rest1) ∧
      (List.lookup b (cbPrefixedOpcodeLookup : List (Nat × opcode σ)) = none →
        c.fetch = Exec.ret (c, Except.error (Fault.unknownOpcode b true))) ∧
      (∀ c1 ins, c.fetch = Exec.ret (c1, Except.ok ins) →
        List.lookup b cbPrefixedOpcodeLookup = some ins.opcode ∧
        c1.PC = (c.PC + ins.opcode.size) % 65536)) ∧
    (first ≠ 0xCB →
      c.fetch = c.decode opcodeLookup false (first :: rest) ∧
      (List.lookup first (opcodeLookup : List (Nat × opcode σ)) = none →
        c.fetch = Exec.ret (c, Except.error (Fault.unknownOpcode first false))) ∧
      (∀ c1 ins, c.fetch = Exec.ret (c1, Except.ok ins) →
        List.lookup first opcodeLookup = some ins.opcode ∧
        c1.PC = (c.PC + ins.opcode.size) % 65536)) ∧
    (first = 0xCB → ∀ rest1 x xs,
      MemoryReadWriter.ReadFromAddress c.memoryBus ((c.PC + 1) % 65536) 1
        = Res.ok (0x11 :: rest1) →
      MemoryReadWriter.ReadFromAddress c.memoryBus ((c.PC + 1) % 65536) 2
        = Res.ok (x :: xs) →
      ∃ ins, c.fetch = Exec.ret ({ c with PC := (c.PC + 2) % 65536 }, Except.ok ins) ∧
        ins.opcode.mnemonic = "RL C" ∧ ins.opcode.size = 2 ∧
        ins.opcode.mnemonic ≠ "LD DE n16" ∧
        List.lookup 0x11 cbPrefixedOpcodeLookup = some ins.opcode) := by
  refine ⟨?_, ?_, ?_⟩
  · intro hcb b rest1 h1
    subst hcb
    have e := fetch_cb c h0 h1
    refine ⟨e, fun hnone => ?_, fun c1 ins hf => ?_⟩
    · rw [e]; exact decode_unknown c _ _ hnone
    · rw [e] at hf
      obtain ⟨b1, operands, hb1, hop, _, _, hc1⟩ := decode_ok_inv hf
      have : b1 = b := by
        have := goIndex_eq_ret.mp hb1
        simpa using this.symm
      subst this
      exact ⟨hop, by rw [hc1]⟩
  · intro hne
    have e := fetch_plain c h0 hne
    refine ⟨e, fun hnone => ?_, fun c1 ins hf => ?_⟩
    · rw [e]; exact decode_unknown c _ _ hnone
    · rw [e] at hf
      obtain ⟨b1, operands, hb1, hop, _, _, hc1⟩ := decode_ok_inv hf
      have : b1 = first := by
        have := goIndex_eq_ret.mp hb1
        simpa using this.symm
      subst this
      exact ⟨hop, by rw [hc1]⟩
  · intro hcb rest1 x xs h1 h2
    subst hcb
    obtain ⟨op, hl, hm, hs⟩ : ∃ op : opcode σ,
        List.lookup 0x11 cbPrefixedOpcodeLookup = some op ∧ op.mnemonic = "RL C" ∧ op.size = 2 :=
      ⟨_, rfl, rfl, rfl⟩
    refine ⟨instruction.mk op (context.mk x (toInt8 x) 0), ?_, hm, hs, ?_, hl⟩
    · rw [fetch_cb c h0 h1]
      unfold CPU.decode
      simp only [goIndex, List.getElem?_cons_zero, hl, hs, h2, stageOperands, if_true]
    · rw [hm]; decide

/-- Table selection on the mock bus holding `0xCB, 0x11, 0x00` at `PC = 0`:
"RL C", `PC = 2`. -/
theorem fetch_selects_table_example :
    ∃ ins, (NewCPU (mockMemory [0xCB, 0x11, 0x00])).fetch
        = Exec.ret ({ NewCPU (mockMemory [0xCB, 0x11, 0x00]) with PC := (0 + 2) % 65536 },
            Except.ok ins) ∧
      ins.opcode.mnemonic = "RL C" ∧ ins.opcode.size = 2 ∧
      ins.opcode.mnemonic ≠ "LD DE n16" ∧
      List.lookup 0x11 cbPrefixedOpcodeLookup = some ins.opcode :=
  (fetch_selects_table (NewCPU (mockMemory [0xCB, 0x11, 0x00])) 0xCB [] rfl).2.2 rfl
    [] 0x11 [0x00] rfl rfl

set_option maxRecDepth 8000 in
/-- C2, the code at the failing input: `0xCB, 0x11` is readable at `0xFFFD` and
`0xFFFE`, the last two HRAM addresses, and `cbPrefixedOpcodeLookup` holds
"RL C" of size 2 for `0x11`, yet `fetch` at `PC = 0xFFFD` does not return "RL C":
the operand read asks for 2 bytes at `PC+1 = 0xFFFE`, one past the encoding,
and the slice expression runs out of the 127-byte array.  The same happens on
the mock bus whose memory is just `0xCB, 0x11`. -/
theorem fetch_cb_pair_at_region_end_aborts :
    (NewController []).WriteToAddress 0xFFFD [0xCB, 0x11] = Exec.ret (lastPairBus, none) ∧
    byteAt lastPairBus 0xFFFD = some 0xCB ∧
    byteAt lastPairBus 0xFFFE = some 0x11 ∧
    ((List.lookup 0x11 (cbPrefixedOpcodeLookup : List (Nat × opcode Controller))).map
      fun op => (op.mnemonic, op.size)) = some ("RL C", 2) ∧
    MemoryReadWriter.ReadFromAddress lastPairBus ((0xFFFD + 1) % 65536) 2 = Res.abort ∧
    ({ NewCPU lastPairBus with PC := 0xFFFD } : CPU Controller).fetch = Exec.abort ∧
    byteAt (mockMemory [0xCB, 0x11]) 0 = some 0xCB ∧
    byteAt (mockMemory [0xCB, 0x11]) 1 = some 0x11 ∧
    (NewCPU (mockMemory [0xCB, 0x11])).fetch = Exec.abort := by
  refine ⟨by rfl, by rfl, by rfl, by rfl, by rfl, by rfl, by rfl, by rfl, by rfl⟩


/-- C3: when the opcode byte `fetch` selects has no entry in the selected table
(the byte at `PC` in `opcodeLookup`, or after the `0xCB` sentinel the byte at
`PC+1` in `cbPrefixedOpcodeLookup`), `Tick` returns 0 cycles and the
unknown-opcode error, and the CPU afterwards is the CPU before: program
counter, registers, flags, stack pointer, bus and trace are untouched. -/
theorem Tick_unknown_opcode {σ : Type} [MemoryReadWriter σ] (c : CPU σ) (first : Nat)
    (rest : List Nat)
    (h0 : MemoryReadWriter.ReadFromAddress c.memoryBus c.PC 1 = Res.ok (first :: rest)) :
    (first ≠ 0xCB → List.lookup first (opcodeLookup : List (Nat × opcode σ)) = none →
      c.Tick = Exec.ret (c, 0, some (Fault.unknownOpcode first false))) ∧
    (first = 0xCB → ∀ b rest1,
      MemoryReadWriter.ReadFromAddress c.memoryBus ((c.PC + 1) % 65536) 1
        = Res.ok (b :: rest1) →
      List.lookup b (cbPrefixedOpcodeLookup : List (Nat × opcode σ)) = none →
      c.Tick = Exec.ret (c, 0, some (Fault.unknownOpcode b true))) := by
  constructor
  · intro hne hnone
    have e : c.fetch = Exec.ret (c, Except.error (Fault.unknownOpcode first false)) := by
      rw [fetch_plain c h0 hne]; exact decode_unknown c _ _ hnone
    unfold CPU.Tick
    rw [e]
  · intro hcb b rest1 h1 hnone
    subst hcb
    have e : c.fetch = Exec.ret (c, Except.error (Fault.unknownOpcode b true)) := by
      rw [fetch_cb c h0 h1]; exact decode_unknown c _ _ hnone
    unfold CPU.Tick
    rw [e]

/-- C3 on the memory Controller: the ROM image `[0xD3]` at `PC = 0`. -/
theorem Tick_unknown_opcode_witness :
    (NewCPU (NewController [0xD3])).Tick
      = Exec.ret (NewCPU (NewController [0xD3]), 0, some (Fault.unknownOpcode 0xD3 false)) :=
  (Tick_unknown_opcode (NewCPU (NewController [0xD3])) 0xD3 [] rfl).1 (by decide) rfl

/-! ## The operand read at the end of a region -/

theorem read_lastByteBus :
    Controller.ReadFromAddress lastByteBus 0xDFFF 1 = Res.ok [0xAF] := by
  have hlen : (List.replicate 8191 0 ++ [0xAF] : List Nat).length = 8192 := by
    rw [List.length_append, List.length_replicate]; rfl
  have hdrop : (List.replicate 8191 0 ++ [0xAF] : List Nat).drop 8191 = [0xAF] :=
    List.drop_left' (List.length_replicate 8191 0)
  have e1 : toRAMSpace 0xDFFF = 8191 := by decide
  have e2 : upTo 8191 1 = 8192 := by decide
  unfold Controller.ReadFromAddress
  rw [if_neg (by decide), if_neg (by decide), if_pos (by decide), e1, e2]
  show goSlice (List.replicate 8191 0 ++ [0xAF]) 8191 8192 = _
  unfold goSlice
  rw [hlen, if_pos (by decide), hdrop]
  rfl

theorem write_lastByteBus :
    (NewController []).WriteToAddress 0xDFFF [0xAF] = Exec.ret (lastByteBus, none) := by
  have e1 : toRAMSpace 0xDFFF = 8191 := by decide
  have hlen : (List.replicate 8192 0 : List Nat).length = 8192 := List.length_replicate _ _
  have m1 : min 8191 8192 = 8191 := by decide
  have m2 : min (8192 - 8191) ([0xAF] : List Nat).length = 1 := by decide
  have m3 : 8192 - (8191 + 1) = 0 := by decide
  have t1 : List.take 1 ([0xAF] : List Nat) = [0xAF] := rfl
  have t2 : List.replicate 0 (0 : Nat) = [] := rfl
  have h : goCopyAt (List.replicate 8192 0) 8191 [0xAF]
      = Exec.ret (List.replicate 8191 0 ++ [0xAF]) := by
    unfold goCopyAt
    rw [hlen, if_pos (by decide), List.take_replicate, List.drop_replicate, m1, m2, m3, t1, t2,
      List.append_nil]
  have hr : (NewController []).ram = List.replicate 8192 0 := rfl
  unfold Controller.WriteToAddress
  rw [if_neg (by decide), if_neg (by decide), if_pos (by decide), e1, hr, h]
  rfl

/-- C4, the code at the failing input: `0xAF` (`XOR A,A`, size 1) is readable at
`0xDFFF`, yet `fetch` at `PC = 0xDFFF` returns the bus error of a read at
`0xE000`, because the operand read asks for `size` bytes at `PC+1`. -/
theorem fetch_last_work_ram_byte_fails :
    (NewController []).WriteToAddress 0xDFFF [0xAF] = Exec.ret (lastByteBus, none) ∧
    byteAt lastByteBus 0xDFFF = some 0xAF ∧
    ((List.lookup 0xAF (opcodeLookup : List (Nat × opcode Controller))).map
      fun op => (op.mnemonic, op.size)) = some ("XOR A,A", 1) ∧
    ({ NewCPU lastByteBus with PC := 0xDFFF } : CPU Controller).fetch
      = Exec.ret ({ NewCPU lastByteBus with PC := 0xDFFF },
          Except.error (Fault.onFetch (Fault.illegalRead 0xE000))) := by
  have hread : MemoryReadWriter.ReadFromAddress lastByteBus 0xDFFF 1 = Res.ok [0xAF] :=
    read_lastByteBus
  obtain ⟨op, hl, hs⟩ : ∃ op : opcode Controller,
      List.lookup 0xAF opcodeLookup = some op ∧ op.size = 1 := ⟨_, rfl, rfl⟩
  have hnext : MemoryReadWriter.ReadFromAddress lastByteBus ((0xDFFF + 1) % 65536) 1
      = Res.fail (Fault.illegalRead 0xE000) := by
    show Controller.ReadFromAddress lastByteBus 0xE000 1 = _
    unfold Controller.ReadFromAddress
    rw [if_neg (by decide), if_neg (by decide), if_neg (by decide), if_neg (by decide)]
  refine ⟨write_lastByteBus, ?_, rfl, ?_⟩
  · unfold byteAt
    rw [hread]
  · have hplain := fetch_plain ({ NewCPU lastByteBus with PC := 0xDFFF } : CPU Controller)
      hread (by decide)
    have hbus : (NewCPU lastByteBus).memoryBus = lastByteBus := rfl
    rw [hplain]
    unfold CPU.decode
    simp only [goIndex, List.getElem?_cons_zero, hl, hs, hbus, hnext]
/-! ## The low nibble of F -/

theorem flagMap_and_0x0F (f : flag) : flagMap f &&& 0x0F = 0 := by
  cases f <;> rfl

theorem lowNibble_setFlag {σ : Type} (c : CPU σ) (f : flag) (s : Bool)
    (h : c.F &&& 0x0F = 0) : (c.setFlag f s).F &&& 0x0F = 0 := by
  rw [setFlag_F]
  cases s
  · simp only [Bool.false_eq_true, if_false]
    rw [Nat.and_assoc, Nat.and_comm (flagMap f ^^^ 0xFF), ← Nat.and_assoc, h, Nat.zero_and]
  · simp only [if_true]
    rw [Nat.and_distrib_right, h, flagMap_and_0x0F, Nat.or_zero]

theorem lowNibble_incrementRegister {σ : Type} (c : CPU σ) {r : register}
    (hr : r ≠ register.F) (h : c.F &&& 0x0F = 0) : (c.incrementRegister r).F &&& 0x0F = 0 := by
  unfold CPU.incrementRegister
  exact lowNibble_setFlag _ _ _ (lowNibble_setFlag _ _ _ (lowNibble_setFlag _ _ _
    (by rw [F_assign c _ hr]; exact h)))

theorem lowNibble_decrementRegister {σ : Type} (c : CPU σ) {r : register}
    (hr : r ≠ register.F) (h : c.F &&& 0x0F = 0) : (c.decrementRegister r).F &&& 0x0F = 0 := by
  unfold CPU.decrementRegister
  exact lowNibble_setFlag _ _ _ (lowNibble_setFlag _ _ _ (lowNibble_setFlag _ _ _
    (by rw [F_assign c _ hr]; exact h)))

theorem lowNibble_rotateLeft {σ : Type} (c : CPU σ) {r : register}
    (hr : r ≠ register.F) (h : c.F &&& 0x0F = 0) : (c.rotateLeft r).F &&& 0x0F = 0 := by
  unfold CPU.rotateLeft
  exact lowNibble_setFlag _ _ _ (lowNibble_setFlag _ _ _ (lowNibble_setFlag _ _ _
    (lowNibble_setFlag _ _ _ (by rw [F_assign c _ hr]; exact h))))

theorem lowNibble_checkBit {σ : Type} (c : CPU σ) (bitPosition reg : Nat)
    (h : c.F &&& 0x0F = 0) : (c.checkBit bitPosition reg).F &&& 0x0F = 0 := by
  unfold CPU.checkBit
  exact lowNibble_setFlag _ _ _ (lowNibble_setFlag _ _ _ (lowNibble_setFlag _ _ _ h))

theorem writeThen_F {σ : Type} [MemoryReadWriter σ] {c c1 : CPU σ} {address value : Nat}
    {after : CPU σ → CPU σ × Int × Option Fault} {cycles : Int} {err : Option Fault}
    (hafter : ∀ m, (after { c with memoryBus := m }).1.F = c.F)
    (h : writeThen c address value after = Exec.ret (c1, cycles, err)) : c1.F = c.F := by
  unfold writeThen at h
  split at h
  · cases h
  · cases h; rfl
  · rename_i m hm
    have e : (after { c with memoryBus := m }).1 = c1 := by
      rw [Exec.ret.inj h]
    rw [← e, hafter]

theorem push_F {σ : Type} [MemoryReadWriter σ] {c c1 : CPU σ} {value : Nat}
    {err : Option Fault} (h : c.push value = Exec.ret (c1, err)) : c1.F = c.F := by
  unfold CPU.push at h
  dsimp only at h
  split at h
  · cases h
  · cases h; rfl

theorem pop_F {σ : Type} [MemoryReadWriter σ] {c c1 : CPU σ} {hi lo : Nat}
    {err : Option Fault} (h : c.pop = Exec.ret (c1, hi, lo, err)) : c1.F = c.F := by
  unfold CPU.pop at h
  split at h
  · cases h
  · cases h; rfl
  · split at h
    · cases h; rfl
    · cases h

theorem callSubroutine_F {σ : Type} [MemoryReadWriter σ] {c c1 : CPU σ} {address : Nat}
    {err : Option Fault} (h : c.callSubroutine address = Exec.ret (c1, err)) : c1.F = c.F := by
  unfold CPU.callSubroutine at h
  split at h
  · cases h
  · rename_i c2 e hp
    cases h
    exact push_F hp
  · rename_i c2 hp
    cases h
    exact (push_F hp : c2.F = c.F)
theorem handler_lowNibble {σ : Type} [MemoryReadWriter σ] (e : Nat × opcode σ)
    (he : e ∈ (opcodeLookup ++ cbPrefixedOpcodeLookup : List (Nat × opcode σ)))
    (ctx : context) (c c1 : CPU σ) (cycles : Int) (err : Option Fault)
    (h : c.F &&& 0x0F = 0) (hr : e.2.handler ctx c = Exec.ret (c1, cycles, err)) :
    c1.F &&& 0x0F = 0 := by
  have hB : register.B ≠ register.F := by decide
  have hC : register.C ≠ register.F := by decide
  have hA : register.A ≠ register.F := by decide
  simp only [opcodeLookup, cbPrefixedOpcodeLookup, List.cons_append, List.nil_append,
    List.mem_cons, List.mem_nil_iff, or_false] at he
  rcases he with rfl | rfl | rfl | rfl | rfl | rfl | rfl | rfl | rfl | rfl | rfl | rfl | rfl |
    rfl | rfl | rfl | rfl | rfl | rfl | rfl | rfl | rfl | rfl
  -- LD BC n16
  · cases hr; exact h
  -- LD HL n16
  · cases hr; exact h
  -- LD SP n16
  · cases hr; exact h
  -- LD [HL-],A
  · dsimp only at hr
    rw [writeThen_F (fun _ => rfl) hr]; exact h
  -- LD C n8
  · cases hr; exact h
  -- LD A n8
  · cases hr; exact h
  -- XOR A,A
  · cases hr; exact lowNibble_setFlag _ _ _ h
  -- JR NZ e8
  · dsimp only at hr
    split at hr
    · cases hr; exact h
    · cases hr; exact h
  -- LD [C] A
  · dsimp only at hr
    rw [writeThen_F (fun _ => rfl) hr]; exact h
  -- INC C
  · cases hr; exact lowNibble_incrementRegister c hC h
  -- LD [HL] A
  · dsimp only at hr
    rw [writeThen_F (fun _ => rfl) hr]; exact h
  -- LDH (N), A
  · dsimp only at hr
    rw [writeThen_F (fun _ => rfl) hr]; exact h
  -- LD DE n16
  · cases hr; exact h
  -- LD A [DE]
  · dsimp only at hr
    split at hr
    · cases hr
    · cases hr; exact h
    · split at hr
      · cases hr
      · cases hr; exact h
  -- CALL n16
  · dsimp only at hr
    split at hr
    · cases hr
    · rename_i c2 e2 hc
      cases hr
      rw [callSubroutine_F hc]; exact h
  -- LD C A
  · cases hr; exact h
  -- LD B n8
  · cases hr; exact h
  -- PUSH BC
  · dsimp only at hr
    split at hr
    · cases hr
    · rename_i c2 e2 hp
      cases hr
      rw [push_F hp]; exact h
    · rename_i c2 hp
      cases hr
      rw [push_F hp]; exact h
  -- RLA
  · cases hr; exact lowNibble_setFlag _ _ _ (lowNibble_rotateLeft c hA h)
  -- POP BC
  · dsimp only at hr
    split at hr
    · cases hr
    · rename_i c2 hi lo e2 hp
      cases hr
      rw [pop_F hp]; exact h
    · rename_i c2 hi lo hp
      cases hr
      show c2.F &&& 0x0F = 0
      rw [pop_F hp]; exact h
  -- DEC B
  · cases hr; exact lowNibble_decrementRegister c hB h
  -- BIT 7 H
  · cases hr; exact lowNibble_checkBit c _ _ h
  -- RL C
  · cases hr; exact lowNibble_rotateLeft c hC h
theorem fetch_ok_mem {σ : Type} [MemoryReadWriter σ] {c c1 : CPU σ} {ins : instruction σ}
    (h : c.fetch = Exec.ret (c1, Except.ok ins)) :
    (∃ b, (b, ins.opcode) ∈ (opcodeLookup ++ cbPrefixedOpcodeLookup : List (Nat × opcode σ))) ∧
    c1 = { c with PC := (c.PC + ins.opcode.size) % 65536 } := by
  obtain ⟨cb, _, _, _, b, _, _, _, _, _, _, hlook, _, _, hc1⟩ := fetch_ok_inv h
  refine ⟨⟨b, ?_⟩, hc1⟩
  cases cb
  · exact List.mem_append_left _ (lookup_mem _ _ _ (by simpa using hlook))
  · exact List.mem_append_right _ (lookup_mem _ _ _ (by simpa using hlook))

theorem Tick_lowNibble {σ : Type} [MemoryReadWriter σ] (c c1 : CPU σ) (cycles : Int)
    (err : Option Fault) (h : c.F &&& 0x0F = 0)
    (ht : c.Tick = Exec.ret (c1, cycles, err)) : c1.F &&& 0x0F = 0 := by
  unfold CPU.Tick at ht
  split at ht
  · cases ht
  · rename_i c2 e hf
    cases ht
    rw [fetch_error_inv hf]; exact h
  · rename_i c2 ins hf
    obtain ⟨⟨b, hmem⟩, hc2⟩ := fetch_ok_mem hf
    have h2 : ({ c2 with callStack := c2.callStack ++ [ins.toTraced] } : CPU σ).F &&& 0x0F = 0 := by
      rw [hc2]; exact h
    exact handler_lowNibble (b, ins.opcode) hmem ins.context _ c1 cycles err h2 ht

/-- C6: `NewCPU` yields `F = 0`; every handler of `opcodeLookup` and of
`cbPrefixedOpcodeLookup`, on every operand context and every bus, started with
the low nibble of `F` zero, returns with it zero, with or without an error; the
same holds across every `Tick`; hence the low nibble of `F` is zero in every
state reachable from `NewCPU` by `Tick`s. -/
theorem low_nibble_invariant {σ : Type} [MemoryReadWriter σ] :
    (∀ m : σ, (NewCPU m).F = 0) ∧
    (∀ e ∈ (opcodeLookup ++ cbPrefixedOpcodeLookup : List (Nat × opcode σ)),
      ∀ (ctx : context) (c c1 : CPU σ) (cycles : Int) (err : Option Fault),
        c.F &&& 0x0F = 0 → e.2.handler ctx c = Exec.ret (c1, cycles, err) →
        c1.F &&& 0x0F = 0) ∧
    (∀ (c c1 : CPU σ) (cycles : Int) (err : Option Fault),
      c.F &&& 0x0F = 0 → c.Tick = Exec.ret (c1, cycles, err) → c1.F &&& 0x0F = 0) ∧
    (∀ c : CPU σ, Reachable c → c.F &&& 0x0F = 0) := by
  refine ⟨fun _ => rfl, fun e he ctx c c1 cycles err h hr =>
    handler_lowNibble e he ctx c c1 cycles err h hr, Tick_lowNibble, ?_⟩
  intro c hc
  induction hc with
  | init m => exact Nat.zero_and _
  | tick _ ht ih => exact Tick_lowNibble _ _ _ _ ih ht

/-- C6 on the mock bus: `XOR A,A` at `PC = 0` from `NewCPU` leaves `F = 0x80`. -/
theorem low_nibble_invariant_witness :
    (NewCPU (mockMemory [0xAF, 0x00])).F &&& 0x0F = 0 ∧
    (NewCPU (mockMemory [0xAF, 0x00])).Tick
      = Exec.ret ({ NewCPU (mockMemory [0xAF, 0x00]) with
          F := 0x80, PC := 1
          callStack := [{ mnemonic := "XOR A,A", size := 1
                          context := { n8 := 0, e8 := 0, n16 := 0 } }] }, 4, none) ∧
    (0x80 : Nat) &&& 0x0F = 0 :=
  ⟨rfl, rfl,
   low_nibble_invariant.2.2.1 (NewCPU (mockMemory [0xAF, 0x00]))
     { NewCPU (mockMemory [0xAF, 0x00]) with
        F := 0x80, PC := 1
        callStack := [{ mnemonic := "XOR A,A", size := 1
                        context := { n8 := 0, e8 := 0, n16 := 0 } }] }
     4 none (Nat.zero_and _) (by rfl)⟩
/-! ## RLA, BIT and JR -/

theorem setFlag_lowNibble_eq {σ : Type} (c : CPU σ) (f : flag) (s : Bool) :
    (c.setFlag f s).F &&& 0x0F = c.F &&& 0x0F := by
  have hm : (flagMap f ^^^ 0xFF) &&& 0x0F = 0x0F := by cases f <;> rfl
  rw [setFlag_F]
  cases s
  · simp only [Bool.false_eq_true, if_false]
    rw [Nat.and_assoc, hm]
  · simp only [if_true]
    rw [Nat.and_distrib_right, flagMap_and_0x0F, Nat.or_zero]

theorem checkBit_eq {σ : Type} (c : CPU σ) (bitPosition reg : Nat) :
    c.checkBit bitPosition reg = { c with F := (c.checkBit bitPosition reg).F } := by
  unfold CPU.checkBit
  dsimp only
  rw [setFlag_eq _ flag.HALF_CARRY, setFlag_eq _ flag.SUBSTRACT, setFlag_eq _ flag.ZERO]

theorem bit_mask_zero_iff {b : Nat} (hb : b < 8) (r : Nat) :
    ((r &&& ((1 <<< b) % 256)) == 0) = !r.testBit b := by
  have h1 : (1 <<< b) % 256 = 2 ^ b := by
    rw [Nat.shiftLeft_eq, Nat.one_mul]
    apply Nat.mod_eq_of_lt
    have : 2 ^ b < 2 ^ 8 := Nat.pow_lt_pow_right (by decide) hb
    simpa using this
  rw [h1, Nat.and_two_pow]
  cases r.testBit b
  · simp
  · simp

/-- C11: the handler of `RLA` runs `rotateLeft` on `A`, then clears Zero, and
returns 4 cycles.  With `k` the old Carry, `A` becomes `((A << 1) mod 256) | k`
and Carry becomes the old bit 7 of `A`, both as `rotateLeft` leaves them; Zero,
Subtract and Half-Carry are clear afterwards, also when the result is 0: from
`A = 0x80` with Carry clear, `A = 0x00` with Carry set and Zero clear. -/
theorem RLA_clears_zero {σ : Type} [MemoryReadWriter σ] (c : CPU σ) (ctx : context) :
    ((List.lookup 0x17 opcodeLookup).map fun op => (op.mnemonic, op.handler ctx c))
      = some ("RLA", Exec.ret ((c.rotateLeft register.A).setFlag flag.ZERO false, 4, none)) ∧
    ((c.rotateLeft register.A).setFlag flag.ZERO false).A = (c.rotateLeft register.A).A ∧
    ((c.rotateLeft register.A).setFlag flag.ZERO false).A
      = (((c.A <<< 1) % 256) ||| (if c.getFlag flag.CARRY then 1 else 0)) ∧
    (((c.rotateLeft register.A).setFlag flag.ZERO false).getFlag flag.CARRY
      = (c.rotateLeft register.A).getFlag flag.CARRY) ∧
    (((c.rotateLeft register.A).setFlag flag.ZERO false).getFlag flag.CARRY = true
      ↔ c.A.testBit 7 = true) ∧
    ((c.rotateLeft register.A).setFlag flag.ZERO false).getFlag flag.ZERO = false ∧
    ((c.rotateLeft register.A).setFlag flag.ZERO false).getFlag flag.SUBSTRACT = false ∧
    ((c.rotateLeft register.A).setFlag flag.ZERO false).getFlag flag.HALF_CARRY = false ∧
    ((((({ c with A := 0x80 } : CPU σ).setFlag flag.CARRY false).rotateLeft
        register.A).setFlag flag.ZERO false).A = 0x00 ∧
     (((({ c with A := 0x80 } : CPU σ).setFlag flag.CARRY false).rotateLeft
        register.A).setFlag flag.ZERO false).getFlag flag.CARRY = true ∧
     (((({ c with A := 0x80 } : CPU σ).setFlag flag.CARRY false).rotateLeft
        register.A).setFlag flag.ZERO false).getFlag flag.ZERO = false) := by
  have hA : register.A ≠ register.F := by decide
  have g := rotateLeft_spec c hA
  have g1 := rotateLeft_spec (({ c with A := 0x80 } : CPU σ).setFlag flag.CARRY false) hA
  have k : (({ c with A := 0x80 } : CPU σ).setFlag flag.CARRY false).getFlag flag.CARRY = false :=
    getFlag_setFlag_same _ _ _
  have d : (({ c with A := 0x80 } : CPU σ).setFlag flag.CARRY false).deref register.A = 0x80 :=
    deref_setFlag _ _ _ hA
  rw [k, d] at g1
  simp only [CPU.deref] at g
  have fr : ∀ x : CPU σ, (x.setFlag flag.ZERO false).A = x.A := fun x => by
    rw [setFlag_eq]
  have oc : ∀ x : CPU σ, (x.setFlag flag.ZERO false).getFlag flag.CARRY = x.getFlag flag.CARRY :=
    fun x => getFlag_setFlag_other x false (by decide)
  have os : ∀ x : CPU σ,
      (x.setFlag flag.ZERO false).getFlag flag.SUBSTRACT = x.getFlag flag.SUBSTRACT :=
    fun x => getFlag_setFlag_other x false (by decide)
  have oh : ∀ x : CPU σ,
      (x.setFlag flag.ZERO false).getFlag flag.HALF_CARRY = x.getFlag flag.HALF_CARRY :=
    fun x => getFlag_setFlag_other x false (by decide)
  refine ⟨rfl, fr _, ?_, oc _, ?_, getFlag_setFlag_same _ _ _, ?_, ?_, ?_, ?_,
    getFlag_setFlag_same _ _ _⟩
  · rw [fr]; exact g.1
  · rw [oc, g.2.1, bit7_eq_testBit]
  · rw [os]; exact g.2.2.2.1
  · rw [oh]; exact g.2.2.2.2
  · rw [fr]; exact g1.1
  · rw [oc, g1.2.1]; decide
/-- C12: for a bit position `b` in 0..7 and a byte `r`, `checkBit b r` sets Zero
exactly when bit `b` of `r` is 0, clears Subtract, sets Half-Carry, and leaves
Carry, the low nibble of `F` and every field of the CPU other than `F` as they
were.  The handler of the CB-prefixed `BIT 7 H` runs `checkBit 7` on `H` and
returns 8 cycles. -/
theorem checkBit_BIT_7_H {σ : Type} [MemoryReadWriter σ] (c : CPU σ) (ctx : context)
    (b r : Nat) (hb : b < 8) :
    ((c.checkBit b r).getFlag flag.ZERO = true ↔ r.testBit b = false) ∧
    (c.checkBit b r).getFlag flag.SUBSTRACT = false ∧
    (c.checkBit b r).getFlag flag.HALF_CARRY = true ∧
    (c.checkBit b r).getFlag flag.CARRY = c.getFlag flag.CARRY ∧
    (c.checkBit b r).F &&& 0x0F = c.F &&& 0x0F ∧
    c.checkBit b r = { c with F := (c.checkBit b r).F } ∧
    ((List.lookup 0x7C cbPrefixedOpcodeLookup).map fun op => (op.mnemonic, op.handler ctx c))
      = some ("BIT 7 H", Exec.ret (c.checkBit 7 c.H, 8, none)) := by
  refine ⟨?_, ?_, ?_, ?_, ?_, checkBit_eq c b r, rfl⟩
  · have h : (c.checkBit b r).getFlag flag.ZERO = ((r &&& ((1 <<< b) % 256)) == 0) := by
      unfold CPU.checkBit
      dsimp only
      rw [getFlag_setFlag_other _ _ (by decide), getFlag_setFlag_other _ _ (by decide),
        getFlag_setFlag_same]
    rw [h, bit_mask_zero_iff hb]
    cases r.testBit b <;> simp
  · unfold CPU.checkBit
    dsimp only
    rw [getFlag_setFlag_other _ _ (by decide), getFlag_setFlag_same]
  · unfold CPU.checkBit
    dsimp only
    rw [getFlag_setFlag_same]
  · unfold CPU.checkBit
    dsimp only
    rw [getFlag_setFlag_other _ _ (by decide), getFlag_setFlag_other _ _ (by decide),
      getFlag_setFlag_other _ _ (by decide)]
  · unfold CPU.checkBit
    dsimp only
    rw [setFlag_lowNibble_eq, setFlag_lowNibble_eq, setFlag_lowNibble_eq]

/-- C12 at `b = 7`, `H = 0x80`, `F = 0x50`: Zero clear, Half-Carry set, `F = 0x30`. -/
theorem checkBit_BIT_7_H_witness :
    (7 < 8) ∧
    ((({ NewCPU (mockMemory []) with H := 0x80, F := 0x50 } : CPU mockMemController).checkBit
        7 0x80).getFlag flag.ZERO = true ↔ Nat.testBit 0x80 7 = false) ∧
    (({ NewCPU (mockMemory []) with H := 0x80, F := 0x50 } : CPU mockMemController).checkBit
        7 0x80).getFlag flag.HALF_CARRY = true ∧
    (({ NewCPU (mockMemory []) with H := 0x80, F := 0x50 } : CPU mockMemController).checkBit
        7 0x80).F = 0x30 :=
  ⟨by decide,
   (checkBit_BIT_7_H ({ NewCPU (mockMemory []) with H := 0x80, F := 0x50 })
      { n8 := 0, e8 := 0, n16 := 0 } 7 0x80 (by decide)).1,
   (checkBit_BIT_7_H ({ NewCPU (mockMemory []) with H := 0x80, F := 0x50 })
      { n8 := 0, e8 := 0, n16 := 0 } 7 0x80 (by decide)).2.2.1,
   by decide⟩

theorem jr_target (p : Nat) (e : Int) :
    toUint16 (wrapInt16 (toInt16 p + e)) = (((p : Int) + e) % 65536).toNat := by
  unfold toUint16 wrapInt16 toInt16
  split <;> omega

/-- C13: the handler of `JR NZ e8`, run with the program counter `p` already past
the instruction: with Zero clear it sets `PC` to `(p + e8) mod 2^16` and returns
12 cycles; with Zero set it returns 8 cycles.  In the first case the CPU
afterwards differs from the one before in `PC` only, in the second in nothing:
no register, flag, stack pointer, bus content or trace entry changes. -/
theorem JR_NZ_relative_jump {σ : Type} [MemoryReadWriter σ] (c : CPU σ) (ctx : context) :
    ((List.lookup 0x20 (opcodeLookup : List (Nat × opcode σ))).map fun op => op.mnemonic)
      = some "JR NZ e8" ∧
    (c.getFlag flag.ZERO = false →
      ((List.lookup 0x20 opcodeLookup).map fun op => op.handler ctx c)
        = some (Exec.ret ({ c with PC := (((c.PC : Int) + ctx.e8) % 65536).toNat }, 12, none))) ∧
    (c.getFlag flag.ZERO = true →
      ((List.lookup 0x20 opcodeLookup).map fun op => op.handler ctx c)
        = some (Exec.ret (c, 8, none))) := by
  obtain ⟨op, hl, hm, hh⟩ : ∃ op : opcode σ, List.lookup 0x20 opcodeLookup = some op ∧
      op.mnemonic = "JR NZ e8" ∧
      op.handler = fun ctx cpu =>
        if !cpu.getFlag flag.ZERO then
          Exec.ret ({ cpu with PC := toUint16 (wrapInt16 (toInt16 cpu.PC + ctx.e8)) }, 12, none)
        else Exec.ret (cpu, 8, none) := ⟨_, rfl, rfl, rfl⟩
  rw [hl]
  refine ⟨by rw [Option.map_some', hm], fun hz => ?_, fun hz => ?_⟩
  · rw [Option.map_some', hh]
    simp only [hz, Bool.not_false, if_true, jr_target]
  · rw [Option.map_some', hh]
    simp only [hz, Bool.not_true, Bool.false_eq_true, if_false]

/-- C13 on the test values: `PC = 22`, `e8 = -22`; Zero clear (`F = 0x70`) gives
`PC = 0` in 12 cycles, Zero set (`F = 0x80`) leaves `PC = 22` in 8 cycles. -/
theorem JR_NZ_relative_jump_witness :
    (({ NewCPU (mockMemory []) with PC := 22, F := 0x70 } : CPU mockMemController).getFlag
        flag.ZERO = false) ∧
    ((List.lookup 0x20 opcodeLookup).map fun op =>
        op.handler { n8 := 0xEA, e8 := -22, n16 := 0 }
          ({ NewCPU (mockMemory []) with PC := 22, F := 0x70 } : CPU mockMemController))
      = some (Exec.ret ({ NewCPU (mockMemory []) with PC := 0, F := 0x70 }, 12, none)) ∧
    ((List.lookup 0x20 opcodeLookup).map fun op =>
        op.handler { n8 := 0xEA, e8 := -22, n16 := 0 }
          ({ NewCPU (mockMemory []) with PC := 22, F := 0x80 } : CPU mockMemController))
      = some (Exec.ret ({ NewCPU (mockMemory []) with PC := 22, F := 0x80 }, 8, none)) :=
  ⟨by decide,
   (JR_NZ_relative_jump ({ NewCPU (mockMemory []) with PC := 22, F := 0x70 })
      { n8 := 0xEA, e8 := -22, n16 := 0 }).2.1 (by decide),
   (JR_NZ_relative_jump ({ NewCPU (mockMemory []) with PC := 22, F := 0x80 })
      { n8 := 0xEA, e8 := -22, n16 := 0 }).2.2 (by decide)⟩
/-! ## The memory Controller: ROM and unmapped addresses -/

/-- C17: on the memory Controller, a write to any address of `0x0000..0x3FFF`,
whatever the bytes, returns the write-to-ROM error and leaves the Controller as
it was: cartridge ROM, VRAM, work RAM and HRAM are unchanged. -/
theorem write_to_ROM_fails (m : Controller) (a : Nat) (bs : List Nat) (ha : a ≤ 0x3FFF) :
    m.WriteToAddress a bs = Exec.ret (m, some (Fault.writeToROM a)) ∧
    MemoryReadWriter.WriteToAddress m a bs = Exec.ret (m, some (Fault.writeToROM a)) := by
  have h : m.WriteToAddress a bs = Exec.ret (m, some (Fault.writeToROM a)) := by
    unfold Controller.WriteToAddress
    rw [if_pos ha]
  exact ⟨h, h⟩

/-- C17 at address `0x0150` of a four-byte ROM image. -/
theorem write_to_ROM_fails_witness :
    (0x0150 ≤ 0x3FFF) ∧
    (NewController [0x11, 0xCD, 0xAB, 0x00]).WriteToAddress 0x0150 [0xFF, 0xFE]
      = Exec.ret (NewController [0x11, 0xCD, 0xAB, 0x00], some (Fault.writeToROM 0x0150)) :=
  ⟨by decide,
   (write_to_ROM_fails (NewController [0x11, 0xCD, 0xAB, 0x00]) 0x0150 [0xFF, 0xFE]
      (by decide)).1⟩

/-- C18 fails as stated: `0xFE00` lies outside the four mapped regions, yet a
write there returns no error (and stores nothing). -/
theorem write_io_returns_no_error :
    ¬ (0xFE00 ≤ 0x3FFF) ∧ ¬ (0x8000 ≤ 0xFE00 ∧ 0xFE00 ≤ 0x9FFF) ∧
    ¬ (0xC000 ≤ 0xFE00 ∧ 0xFE00 ≤ 0xDFFF) ∧ ¬ (0xFF80 ≤ 0xFE00 ∧ 0xFE00 ≤ 0xFFFE) ∧
    (NewController []).WriteToAddress 0xFE00 [0x01] = Exec.ret (NewController [], none) := by
  refine ⟨by decide, by decide, by decide, by decide, ?_⟩
  unfold Controller.WriteToAddress
  rw [if_neg (by decide), if_neg (by decide), if_neg (by decide), if_neg (by decide),
    if_pos (by decide)]

/-- C18 as amended: for an address `a` outside the four mapped regions, every
read returns the illegal-read error; a write returns the illegal-write error
when `a` is also outside `0xFE00..0xFF7F`, and inside that range it returns no
error; in both cases the Controller is left as it was. -/
theorem unmapped_access (m : Controller) (a n : Nat) (bs : List Nat)
    (h1 : ¬ a ≤ 0x3FFF) (h2 : ¬ (0x8000 ≤ a ∧ a ≤ 0x9FFF))
    (h3 : ¬ (0xC000 ≤ a ∧ a ≤ 0xDFFF)) (h4 : ¬ (0xFF80 ≤ a ∧ a ≤ 0xFFFE)) :
    m.ReadFromAddress a n = Res.fail (Fault.illegalRead a) ∧
    (¬ (0xFE00 ≤ a ∧ a ≤ 0xFF7F) →
      m.WriteToAddress a bs = Exec.ret (m, some (Fault.illegalWrite a))) ∧
    ((0xFE00 ≤ a ∧ a ≤ 0xFF7F) → m.WriteToAddress a bs = Exec.ret (m, none)) := by
  refine ⟨?_, fun h5 => ?_, fun h5 => ?_⟩
  · unfold Controller.ReadFromAddress
    rw [if_neg h1, if_neg h2, if_neg h3, if_neg h4]
  · unfold Controller.WriteToAddress
    rw [if_neg h1, if_neg h2, if_neg h3, if_neg h4, if_neg h5]
  · unfold Controller.WriteToAddress
    rw [if_neg h1, if_neg h2, if_neg h3, if_neg h4, if_pos h5]

/-- C18 as amended, at `0x4000`, `0xA000`, `0xE000` and `0xFFFF`. -/
theorem unmapped_access_witness :
    ((NewController []).ReadFromAddress 0x4000 1 = Res.fail (Fault.illegalRead 0x4000) ∧
     (NewController []).WriteToAddress 0x4000 [0x01]
       = Exec.ret (NewController [], some (Fault.illegalWrite 0x4000))) ∧
    ((NewController []).ReadFromAddress 0xA000 1 = Res.fail (Fault.illegalRead 0xA000) ∧
     (NewController []).WriteToAddress 0xA000 [0x01]
       = Exec.ret (NewController [], some (Fault.illegalWrite 0xA000))) ∧
    ((NewController []).ReadFromAddress 0xE000 1 = Res.fail (Fault.illegalRead 0xE000) ∧
     (NewController []).WriteToAddress 0xE000 [0x01]
       = Exec.ret (NewController [], some (Fault.illegalWrite 0xE000))) ∧
    ((NewController []).ReadFromAddress 0xFFFF 1 = Res.fail (Fault.illegalRead 0xFFFF) ∧
     (NewController []).WriteToAddress 0xFFFF [0x01]
       = Exec.ret (NewController [], some (Fault.illegalWrite 0xFFFF))) ∧
    (NewController []).ReadFromAddress 0xFE00 1 = Res.fail (Fault.illegalRead 0xFE00) :=
  ⟨⟨(unmapped_access (NewController []) 0x4000 1 [0x01] (by decide) (by decide) (by decide)
        (by decide)).1,
    (unmapped_access (NewController []) 0x4000 1 [0x01] (by decide) (by decide) (by decide)
        (by decide)).2.1 (by decide)⟩,
   ⟨(unmapped_access (NewController []) 0xA000 1 [0x01] (by decide) (by decide) (by decide)
        (by decide)).1,
    (unmapped_access (NewController []) 0xA000 1 [0x01] (by decide) (by decide) (by decide)
        (by decide)).2.1 (by decide)⟩,
   ⟨(unmapped_access (NewController []) 0xE000 1 [0x01] (by decide) (by decide) (by decide)
        (by decide)).1,
    (unmapped_access (NewController []) 0xE000 1 [0x01] (by decide) (by decide) (by decide)
        (by decide)).2.1 (by decide)⟩,
   ⟨(unmapped_access (NewController []) 0xFFFF 1 [0x01] (by decide) (by decide) (by decide)
        (by decide)).1,
    (unmapped_access (NewController []) 0xFFFF 1 [0x01] (by decide) (by decide) (by decide)
        (by decide)).2.1 (by decide)⟩,
   (unmapped_access (NewController []) 0xFE00 1 [0x01] (by decide) (by decide) (by decide)
      (by decide)).1⟩

/-! ## XOR A,A -/

/-- C20, the code at the failing input: from `A = 0xFF`, `F = 0b0111_0000` the
handler of `XOR A,A` returns 4 cycles with `A = 0x00` and `F = 0b1111_0000`,
not `0b1000_0000`: it sets Zero and leaves Subtract, Half-Carry and Carry as
they were, for every CPU state. -/
theorem XOR_A_A_keeps_other_flags {σ : Type} [MemoryReadWriter σ] (c : CPU σ)
    (ctx : context) :
    ((List.lookup 0xAF opcodeLookup).map fun op => (op.mnemonic, op.handler ctx c))
      = some ("XOR A,A",
          Exec.ret (({ c with A := 0 } : CPU σ).setFlag flag.ZERO true, 4, none)) ∧
    (({ c with A := 0 } : CPU σ).setFlag flag.ZERO true).A = 0 ∧
    (({ c with A := 0 } : CPU σ).setFlag flag.ZERO true).F = c.F ||| 0x80 ∧
    (({ c with A := 0 } : CPU σ).setFlag flag.ZERO true).getFlag flag.ZERO = true ∧
    (({ c with A := 0 } : CPU σ).setFlag flag.ZERO true).getFlag flag.SUBSTRACT
      = c.getFlag flag.SUBSTRACT ∧
    (({ c with A := 0 } : CPU σ).setFlag flag.ZERO true).getFlag flag.HALF_CARRY
      = c.getFlag flag.HALF_CARRY ∧
    (({ c with A := 0 } : CPU σ).setFlag flag.ZERO true).getFlag flag.CARRY
      = c.getFlag flag.CARRY ∧
    ((({ c with A := 0xFF, F := 0x70 } : CPU σ).A = 0xFF) ∧
     ((List.lookup 0xAF opcodeLookup).map fun op =>
        op.handler ctx ({ c with A := 0xFF, F := 0x70 } : CPU σ))
       = some (Exec.ret ({ c with A := 0x00, F := 0xF0 }, 4, none)) ∧
     (0xF0 : Nat) ≠ 0x80) := by
  refine ⟨rfl, rfl, rfl, getFlag_setFlag_same _ _ _, ?_, ?_, ?_, rfl, ?_, by decide⟩
  · exact getFlag_setFlag_other ({ c with A := 0 } : CPU σ) true (by decide)
  · exact getFlag_setFlag_other ({ c with A := 0 } : CPU σ) true (by decide)
  · exact getFlag_setFlag_other ({ c with A := 0 } : CPU σ) true (by decide)
  · obtain ⟨op, hl, hh⟩ : ∃ op : opcode σ, List.lookup 0xAF opcodeLookup = some op ∧
        op.handler = fun _ cpu =>
          Exec.ret (({ cpu with A := 0 } : CPU σ).setFlag flag.ZERO true, 4, none) :=
      ⟨_, rfl, rfl⟩
    rw [hl, Option.map_some', hh]
    have e : ((0x70 : Nat) ||| 0x80) = 0xF0 := by decide
    show some (Exec.ret (({ c with A := 0, F := 0x70 ||| 0x80 } : CPU σ), (4 : Int),
      (none : Option Fault))) = _
    rw [e]
/-! ## Inversion of push, pop and call -/

theorem push_inv {σ : Type} [MemoryReadWriter σ] {c c1 : CPU σ} {value : Nat}
    {err : Option Fault} (h : c.push value = Exec.ret (c1, err)) :
    ∃ m, MemoryReadWriter.WriteToAddress c.memoryBus ((c.sp + 65534) % 65536)
        [(splitUint16IntoBytes value).2, (splitUint16IntoBytes value).1] = Exec.ret (m, err) ∧
      c1 = { c with sp := (c.sp + 65534) % 65536, memoryBus := m } := by
  unfold CPU.push at h
  dsimp only at h
  split at h
  · cases h
  · rename_i m e hw
    cases h
    exact ⟨m, hw, rfl⟩

theorem pop_ok_inv {σ : Type} [MemoryReadWriter σ] {c c1 : CPU σ} {hi lo : Nat}
    (h : c.pop = Exec.ret (c1, hi, lo, none)) :
    ∃ bytes, MemoryReadWriter.ReadFromAddress c.memoryBus c.sp 2 = Res.ok bytes ∧
      bytes[1]? = some hi ∧ bytes[0]? = some lo ∧
      c1 = { c with sp := (c.sp + 2) % 65536 } := by
  unfold CPU.pop at h
  split at h
  · cases h
  · cases h
  · rename_i bytes hr
    dsimp only at h
    split at h
    · rename_i hi1 lo1 hhi hlo
      cases h
      exact ⟨bytes, hr, goIndex_eq_ret.mp hhi, goIndex_eq_ret.mp hlo, rfl⟩
    · cases h

theorem pop_fail_inv {σ : Type} [MemoryReadWriter σ] {c c1 : CPU σ} {hi lo : Nat}
    {e : Fault} (h : c.pop = Exec.ret (c1, hi, lo, some e)) :
    MemoryReadWriter.ReadFromAddress c.memoryBus c.sp 2 = Res.fail e ∧ c1 = c ∧
      hi = 0 ∧ lo = 0 := by
  unfold CPU.pop at h
  split at h
  · cases h
  · rename_i e1 hr
    cases h
    exact ⟨hr, rfl, rfl, rfl⟩
  · dsimp only at h
    split at h
    · cases h
    · cases h

theorem callSubroutine_ok_inv {σ : Type} [MemoryReadWriter σ] {c c1 : CPU σ} {address : Nat}
    (h : c.callSubroutine address = Exec.ret (c1, none)) :
    ∃ c2, c.push c.PC = Exec.ret (c2, none) ∧ c1 = { c2 with PC := address } := by
  unfold CPU.callSubroutine at h
  split at h
  · cases h
  · cases h
  · rename_i c2 hp
    cases h
    exact ⟨c2, hp, rfl⟩

theorem callSubroutine_fail_inv {σ : Type} [MemoryReadWriter σ] {c c1 : CPU σ}
    {address : Nat} {e : Fault} (h : c.callSubroutine address = Exec.ret (c1, some e)) :
    c.push c.PC = Exec.ret (c1, some e) := by
  unfold CPU.callSubroutine at h
  split at h
  · cases h
  · rename_i c2 e2 hp
    cases h
    exact hp
  · cases h

theorem writeThen_inv {σ : Type} [MemoryReadWriter σ] {c c1 : CPU σ} {address value : Nat}
    {after : CPU σ → CPU σ × Int × Option Fault} {cycles : Int} {err : Option Fault}
    (h : writeThen c address value after = Exec.ret (c1, cycles, err)) :
    ∃ m, (c1 = { c with memoryBus := m } ∧ cycles = 0 ∧ (∃ e, err = some e)) ∨
      after { c with memoryBus := m } = (c1, cycles, err) := by
  unfold writeThen at h
  split at h
  · cases h
  · rename_i m e hw
    cases h
    exact ⟨m, Or.inl ⟨rfl, rfl, e, rfl⟩⟩
  · rename_i m hw
    exact ⟨m, Or.inr (Exec.ret.inj h)⟩

/-! ## The trace -/

theorem callStack_setFlag {σ : Type} (c : CPU σ) (f : flag) (s : Bool) :
    (c.setFlag f s).callStack = c.callStack := by
  rw [setFlag_eq]

theorem callStack_assign {σ : Type} (c : CPU σ) (r : register) (v : Nat) :
    (c.assign r v).callStack = c.callStack := by
  cases r <;> rfl

theorem callStack_incrementRegister {σ : Type} (c : CPU σ) (r : register) :
    (c.incrementRegister r).callStack = c.callStack := by
  unfold CPU.incrementRegister
  dsimp only
  rw [callStack_setFlag, callStack_setFlag, callStack_setFlag, callStack_assign]

theorem callStack_decrementRegister {σ : Type} (c : CPU σ) (r : register) :
    (c.decrementRegister r).callStack = c.callStack := by
  unfold CPU.decrementRegister
  dsimp only
  rw [callStack_setFlag, callStack_setFlag, callStack_setFlag, callStack_assign]

theorem callStack_rotateLeft {σ : Type} (c : CPU σ) (r : register) :
    (c.rotateLeft r).callStack = c.callStack := by
  unfold CPU.rotateLeft
  dsimp only
  rw [callStack_setFlag, callStack_setFlag, callStack_setFlag, callStack_setFlag,
    callStack_assign]

theorem callStack_checkBit {σ : Type} (c : CPU σ) (b r : Nat) :
    (c.checkBit b r).callStack = c.callStack := by
  rw [checkBit_eq]

theorem callStack_push {σ : Type} [MemoryReadWriter σ] {c c1 : CPU σ} {value : Nat}
    {err : Option Fault} (h : c.push value = Exec.ret (c1, err)) :
    c1.callStack = c.callStack := by
  obtain ⟨m, _, hc⟩ := push_inv h
  rw [hc]

theorem callStack_callSubroutine {σ : Type} [MemoryReadWriter σ] {c c1 : CPU σ}
    {address : Nat} {err : Option Fault}
    (h : c.callSubroutine address = Exec.ret (c1, err)) : c1.callStack = c.callStack := by
  cases err with
  | none =>
    obtain ⟨c2, hp, hc⟩ := callSubroutine_ok_inv h
    rw [hc]
    exact (callStack_push hp : c2.callStack = c.callStack)
  | some e => exact callStack_push (callSubroutine_fail_inv h)

theorem callStack_pop {σ : Type} [MemoryReadWriter σ] {c c1 : CPU σ} {hi lo : Nat}
    {err : Option Fault} (h : c.pop = Exec.ret (c1, hi, lo, err)) :
    c1.callStack = c.callStack := by
  cases err with
  | none =>
    obtain ⟨_, _, _, _, hc⟩ := pop_ok_inv h
    rw [hc]
  | some e => rw [(pop_fail_inv h).2.1]

theorem callStack_writeThen {σ : Type} [MemoryReadWriter σ] {c c1 : CPU σ}
    {address value : Nat} {after : CPU σ → CPU σ × Int × Option Fault} {cycles : Int}
    {err : Option Fault}
    (hafter : ∀ m, (after { c with memoryBus := m }).1.callStack = c.callStack)
    (h : writeThen c address value after = Exec.ret (c1, cycles, err)) :
    c1.callStack = c.callStack := by
  obtain ⟨m, ⟨hc, _, _⟩ | ha⟩ := writeThen_inv h
  · rw [hc]
  · have := hafter m
    rw [ha] at this
    exact this
theorem handler_callStack {σ : Type} [MemoryReadWriter σ] (e : Nat × opcode σ)
    (he : e ∈ (opcodeLookup ++ cbPrefixedOpcodeLookup : List (Nat × opcode σ)))
    (ctx : context) (c c1 : CPU σ) (cycles : Int) (err : Option Fault)
    (hr : e.2.handler ctx c = Exec.ret (c1, cycles, err)) :
    c1.callStack = c.callStack := by
  simp only [opcodeLookup, cbPrefixedOpcodeLookup, List.cons_append, List.nil_append,
    List.mem_cons, List.mem_nil_iff, or_false] at he
  rcases he with rfl | rfl | rfl | rfl | rfl | rfl | rfl | rfl | rfl | rfl | rfl | rfl | rfl |
    rfl | rfl | rfl | rfl | rfl | rfl | rfl | rfl | rfl | rfl
  -- LD BC n16
  · cases hr; rfl
  -- LD HL n16
  · cases hr; rfl
  -- LD SP n16
  · cases hr; rfl
  -- LD [HL-],A
  · dsimp only at hr
    exact callStack_writeThen (fun _ => rfl) hr
  -- LD C n8
  · cases hr; rfl
  -- LD A n8
  · cases hr; rfl
  -- XOR A,A
  · cases hr; exact callStack_setFlag _ _ _
  -- JR NZ e8
  · dsimp only at hr
    split at hr
    · cases hr; rfl
    · cases hr; rfl
  -- LD [C] A
  · dsimp only at hr
    exact callStack_writeThen (fun _ => rfl) hr
  -- INC C
  · cases hr; exact callStack_incrementRegister _ _
  -- LD [HL] A
  · dsimp only at hr
    exact callStack_writeThen (fun _ => rfl) hr
  -- LDH (N), A
  · dsimp only at hr
    exact callStack_writeThen (fun _ => rfl) hr
  -- LD DE n16
  · cases hr; rfl
  -- LD A [DE]
  · dsimp only at hr
    split at hr
    · cases hr
    · cases hr; rfl
    · split at hr
      · cases hr
      · cases hr; rfl
  -- CALL n16
  · dsimp only at hr
    split at hr
    · cases hr
    · rename_i c2 e2 hc
      cases hr
      exact callStack_callSubroutine hc
  -- LD C A
  · cases hr; rfl
  -- LD B n8
  · cases hr; rfl
  -- PUSH BC
  · dsimp only at hr
    split at hr
    · cases hr
    · rename_i c2 e2 hp
      cases hr
      exact callStack_push hp
    · rename_i c2 hp
      cases hr
      exact callStack_push hp
  -- RLA
  · cases hr
    rw [callStack_setFlag, callStack_rotateLeft]
  -- POP BC
  · dsimp only at hr
    split at hr
    · cases hr
    · rename_i c2 hi lo e2 hp
      cases hr
      exact callStack_pop hp
    · rename_i c2 hi lo hp
      cases hr
      exact (callStack_pop hp : c2.callStack = c.callStack)
  -- DEC B
  · cases hr; exact callStack_decrementRegister _ _
  -- BIT 7 H
  · cases hr; exact callStack_checkBit _ _ _
  -- RL C
  · cases hr; exact callStack_rotateLeft _ _

theorem Tick_of_fetch_ok {σ : Type} [MemoryReadWriter σ] {c c1 : CPU σ} {ins : instruction σ}
    (hf : c.fetch = Exec.ret (c1, Except.ok ins)) :
    c.Tick = ins.execute { c1 with callStack := c.callStack ++ [ins.toTraced] } := by
  have hc : c1.callStack = c.callStack := by
    rw [(fetch_ok_mem hf).2]
  unfold CPU.Tick
  rw [hf]
  dsimp only
  rw [hc]

/-- C16: when `fetch` succeeds with instruction `ins`, `Tick` is the handler of
`ins` run on the CPU whose trace already ends with the record of `ins` (its
opcode's mnemonic and size, and its operand context); so whenever that `Tick`
returns, with or without an error, the trace is the trace before followed by
that one record.  Whenever any `Tick` returns, the trace before it is kept
entry for entry, followed by at most one new record. -/
theorem Tick_appends_to_trace {σ : Type} [MemoryReadWriter σ] (c : CPU σ) :
    (∀ (c1 : CPU σ) (ins : instruction σ), c.fetch = Exec.ret (c1, Except.ok ins) →
      c.Tick = ins.execute { c1 with callStack := c.callStack ++ [ins.toTraced] } ∧
      ins.toTraced = { mnemonic := ins.opcode.mnemonic, size := ins.opcode.size,
                       context := ins.context } ∧
      ∀ (c2 : CPU σ) (cycles : Int) (err : Option Fault),
        c.Tick = Exec.ret (c2, cycles, err) →
        c2.callStack = c.callStack ++ [ins.toTraced]) ∧
    (∀ (c2 : CPU σ) (cycles : Int) (err : Option Fault),
      c.Tick = Exec.ret (c2, cycles, err) →
      ∃ added : List traced, c2.callStack = c.callStack ++ added ∧ added.length ≤ 1) := by
  have key : ∀ (c1 : CPU σ) (ins : instruction σ), c.fetch = Exec.ret (c1, Except.ok ins) →
      ∀ (c2 : CPU σ) (cycles : Int) (err : Option Fault),
        c.Tick = Exec.ret (c2, cycles, err) →
        c2.callStack = c.callStack ++ [ins.toTraced] := by
    intro c1 ins hf c2 cycles err ht
    rw [Tick_of_fetch_ok hf] at ht
    obtain ⟨⟨b, hmem⟩, _⟩ := fetch_ok_mem hf
    exact handler_callStack (b, ins.opcode) hmem ins.context _ c2 cycles err ht
  refine ⟨fun c1 ins hf => ⟨Tick_of_fetch_ok hf, rfl, key c1 ins hf⟩, ?_⟩
  intro c2 cycles err ht
  cases hfe : c.fetch with
  | abort =>
    unfold CPU.Tick at ht
    rw [hfe] at ht
    cases ht
  | ret p =>
    obtain ⟨c1, r⟩ := p
    cases r with
    | error e =>
      unfold CPU.Tick at ht
      rw [hfe] at ht
      cases ht
      exact ⟨[], by rw [List.append_nil, fetch_error_inv hfe], Nat.zero_le 1⟩
    | ok ins => exact ⟨[ins.toTraced], key c1 ins hfe c2 cycles err ht, Nat.le_refl 1⟩

/-- C16 on the memory Controller: `LD [HL] A` at `PC = 0` of the ROM image
`[0x77, 0x00]` with `HL = 0` fails on its write to ROM, and the trace after the
`Tick` lists it. -/
theorem Tick_appends_to_trace_witness :
    (NewCPU (NewController [0x77, 0x00])).Tick
      = Exec.ret ({ NewCPU (NewController [0x77, 0x00]) with
          PC := 1
          callStack := [{ mnemonic := "LD [HL] A", size := 1
                          context := { n8 := 0, e8 := 0, n16 := 0 } }] },
          0, some (Fault.writeToROM 0)) ∧
    ({ NewCPU (NewController [0x77, 0x00]) with
          PC := 1
          callStack := [{ mnemonic := "LD [HL] A", size := 1
                          context := { n8 := 0, e8 := 0, n16 := 0 } }] } : CPU Controller).callStack
      = (NewCPU (NewController [0x77, 0x00])).callStack
        ++ [{ mnemonic := "LD [HL] A", size := 1, context := { n8 := 0, e8 := 0, n16 := 0 } }] :=
  ⟨by rfl,
   ((Tick_appends_to_trace (NewCPU (NewController [0x77, 0x00]))).1
      { NewCPU (NewController [0x77, 0x00]) with PC := 1 }
      (instruction.mk
        (opcode.mk "LD [HL] A" 1 fun _ cpu =>
          writeThen cpu (mergeBytesToUint16 cpu.H cpu.L) cpu.A fun cpu1 => (cpu1, 8, none))
        (context.mk 0 0 0))
      (by rfl)).2.2
      { NewCPU (NewController [0x77, 0x00]) with
          PC := 1
          callStack := [{ mnemonic := "LD [HL] A", size := 1
                          context := { n8 := 0, e8 := 0, n16 := 0 } }] }
      0 (some (Fault.writeToROM 0)) (by rfl)⟩
/-! ## Writes of the memory Controller -/

theorem goCopyAt_inv {s v bytes : List Nat} {lo : Nat}
    (h : goCopyAt s lo bytes = Exec.ret v) :
    lo ≤ s.length ∧
    v = s.take lo ++ bytes.take (min (s.length - lo) bytes.length)
      ++ s.drop (lo + min (s.length - lo) bytes.length) := by
  unfold goCopyAt at h
  split at h
  · rename_i hlo
    cases h
    exact ⟨hlo, rfl⟩
  · cases h

theorem goCopyAt_length {s v bytes : List Nat} {lo : Nat}
    (h : goCopyAt s lo bytes = Exec.ret v) : v.length = s.length := by
  obtain ⟨hlo, hv⟩ := goCopyAt_inv h
  rw [hv]
  simp only [List.length_append, List.length_take, List.length_drop]
  omega

theorem goCopyAt_getElem? {s v bytes : List Nat} {lo : Nat} (i : Nat)
    (h : goCopyAt s lo bytes = Exec.ret v) (hi : i < bytes.length) (hlen : lo + i < s.length) :
    v[lo + i]? = bytes[i]? := by
  obtain ⟨hlo, hv⟩ := goCopyAt_inv h
  have h1 : (s.take lo).length = lo := by
    rw [List.length_take]; omega
  have h2 : i < (bytes.take (min (s.length - lo) bytes.length)).length := by
    rw [List.length_take]; omega
  rw [hv, List.append_assoc, List.getElem?_append_right (by omega), h1, Nat.add_sub_cancel_left,
    List.getElem?_append_left h2, List.getElem?_take]
  rw [if_pos (by omega)]

theorem goCopyAt_getElem?_other {s v bytes : List Nat} {lo j : Nat}
    (h : goCopyAt s lo bytes = Exec.ret v) (hj : j < lo ∨ lo + bytes.length ≤ j) :
    v[j]? = s[j]? := by
  obtain ⟨hlo, hv⟩ := goCopyAt_inv h
  have h1 : (s.take lo).length = lo := by
    rw [List.length_take]; omega
  have h2 : (bytes.take (min (s.length - lo) bytes.length)).length
      = min (s.length - lo) bytes.length := by
    rw [List.length_take]; omega
  rw [hv, List.append_assoc]
  rcases hj with hj | hj
  · rw [List.getElem?_append_left (by omega), List.getElem?_take, if_pos hj]
  · rw [List.getElem?_append_right (by omega), h1,
      List.getElem?_append_right (by omega), h2, List.getElem?_drop]
    by_cases hjs : j < s.length
    · congr 1; omega
    · rw [List.getElem?_eq_none (by omega), List.getElem?_eq_none (by omega)]

theorem goSlice_one {s : List Nat} {k x : Nat} (hw : k + 1 < 65536) (h : s[k]? = some x) :
    goSlice s k (upTo k 1) = Res.ok [x] := by
  have hk : k < s.length := by
    by_contra hn
    rw [List.getElem?_eq_none (by omega)] at h
    cases h
  have hget : s[k] = x := by
    rw [List.getElem?_eq_getElem hk] at h
    exact Option.some.inj h
  have e : upTo k 1 = k + 1 := by unfold upTo; omega
  unfold goSlice
  rw [e, if_pos ⟨by omega, by omega⟩, Nat.add_sub_cancel_left, List.drop_eq_getElem_cons hk, hget]
  rfl

theorem goSlice_abort {s : List Nat} {lo hi : Nat} (h : s.length < hi) :
    goSlice s lo hi = Res.abort := by
  unfold goSlice
  rw [if_neg (by omega)]

theorem controller_write_ok_inv {m m1 : Controller} {a : Nat} {bs : List Nat}
    (ha : a < 65536) (h : m.WriteToAddress a bs = Exec.ret (m1, none)) :
    (0x8000 ≤ a ∧ a ≤ 0x9FFF ∧ ∃ v, goCopyAt m.vram (a - 0x8000) bs = Exec.ret v ∧
      m1 = { m with vram := v }) ∨
    (0xC000 ≤ a ∧ a ≤ 0xDFFF ∧ ∃ v, goCopyAt m.ram (a - 0xC000) bs = Exec.ret v ∧
      m1 = { m with ram := v }) ∨
    (0xFF80 ≤ a ∧ a ≤ 0xFFFE ∧ ∃ v, goCopyAt m.hram (a - 0xFF80) bs = Exec.ret v ∧
      m1 = { m with hram := v }) ∨
    (0xFE00 ≤ a ∧ a ≤ 0xFF7F ∧ m1 = m) := by
  unfold Controller.WriteToAddress at h
  split at h
  · cases h
  · split at h
    · rename_i h1 h2
      have e : toVRAMSpace a = a - 0x8000 := by unfold toVRAMSpace; omega
      rw [e] at h
      split at h
      · rename_i v hv
        cases h
        exact Or.inl ⟨h2.1, h2.2, v, hv, rfl⟩
      · cases h
    · split at h
      · rename_i h1 h2 h3
        have e : toRAMSpace a = a - 0xC000 := by unfold toRAMSpace; omega
        rw [e] at h
        split at h
        · rename_i v hv
          cases h
          exact Or.inr (Or.inl ⟨h3.1, h3.2, v, hv, rfl⟩)
        · cases h
      · split at h
        · rename_i h1 h2 h3 h4
          have e : toHRAMSpace a = a - 0xFF80 := by unfold toHRAMSpace; omega
          rw [e] at h
          split at h
          · rename_i v hv
            cases h
            exact Or.inr (Or.inr (Or.inl ⟨h4.1, h4.2, v, hv, rfl⟩))
          · cases h
        · split at h
          · rename_i h1 h2 h3 h4 h5
            cases h
            exact Or.inr (Or.inr (Or.inr ⟨h5.1, h5.2, rfl⟩))
          · cases h

theorem controller_byteAt_vram {m : Controller} {a x : Nat} (h1 : 0x8000 ≤ a) (h2 : a ≤ 0x9FFF)
    (h : m.vram[a - 0x8000]? = some x) : byteAt m a = some x := by
  have e : toVRAMSpace a = a - 0x8000 := by unfold toVRAMSpace; omega
  have r : MemoryReadWriter.ReadFromAddress m a 1 = Res.ok [x] := by
    show Controller.ReadFromAddress m a 1 = _
    unfold Controller.ReadFromAddress
    rw [if_neg (by omega), if_pos ⟨h1, h2⟩, e]
    exact goSlice_one (by omega) h
  unfold byteAt
  rw [r]

theorem controller_byteAt_ram {m : Controller} {a x : Nat} (h1 : 0xC000 ≤ a) (h2 : a ≤ 0xDFFF)
    (h : m.ram[a - 0xC000]? = some x) : byteAt m a = some x := by
  have e : toRAMSpace a = a - 0xC000 := by unfold toRAMSpace; omega
  have r : MemoryReadWriter.ReadFromAddress m a 1 = Res.ok [x] := by
    show Controller.ReadFromAddress m a 1 = _
    unfold Controller.ReadFromAddress
    rw [if_neg (by omega), if_neg (by omega), if_pos ⟨h1, h2⟩, e]
    exact goSlice_one (by omega) h
  unfold byteAt
  rw [r]

theorem controller_byteAt_hram {m : Controller} {a x : Nat} (h1 : 0xFF80 ≤ a) (h2 : a ≤ 0xFFFE)
    (h : m.hram[a - 0xFF80]? = some x) : byteAt m a = some x := by
  have e : toHRAMSpace a = a - 0xFF80 := by unfold toHRAMSpace; omega
  have r : MemoryReadWriter.ReadFromAddress m a 1 = Res.ok [x] := by
    show Controller.ReadFromAddress m a 1 = _
    unfold Controller.ReadFromAddress
    rw [if_neg (by omega), if_neg (by omega), if_neg (by omega), if_pos ⟨h1, h2⟩, e]
    exact goSlice_one (by omega) h
  unfold byteAt
  rw [r]
theorem controller_write_read_two {m m1 : Controller} (hm : m.Sized) {a x y hi lo : Nat}
    {bytes : List Nat} (ha : a < 65536)
    (hw : m.WriteToAddress a [x, y] = Exec.ret (m1, none))
    (hr : m1.ReadFromAddress a 2 = Res.ok bytes)
    (hhi : bytes[1]? = some hi) (hlo : bytes[0]? = some lo) :
    lo = x ∧ hi = y ∧ byteAt m1 a = some x ∧ byteAt m1 ((a + 1) % 65536) = some y := by
  have g1 := controller_read_getElem? ha hr hhi
  have g0 := controller_read_getElem? ha hr hlo
  have len_of : ∀ (s : List Nat) (j z : Nat), s[j]? = some z → j < s.length := by
    intro s j z h
    by_contra hn
    rw [List.getElem?_eq_none (by omega)] at h
    cases h
  rcases controller_write_ok_inv ha hw with
    ⟨h1, h2, v, hv, rfl⟩ | ⟨h1, h2, v, hv, rfl⟩ | ⟨h1, h2, v, hv, rfl⟩ | ⟨h1, h2, rfl⟩
  · -- VRAM
    have hl := goCopyAt_length hv
    rcases g1 with ⟨k, _⟩ | ⟨_, _, e1⟩ | ⟨k, _, _⟩ | ⟨k, _, _⟩ <;> try (exfalso; omega)
    rcases g0 with ⟨k, _⟩ | ⟨_, _, e0⟩ | ⟨k, _, _⟩ | ⟨k, _, _⟩ <;> try (exfalso; omega)
    have b1 : a - 0x8000 + 1 < m.vram.length := hl ▸ len_of _ _ _ e1
    have c1 := goCopyAt_getElem? 1 hv (show 1 < 2 by decide) b1
    have c0 := goCopyAt_getElem? 0 hv (show 0 < 2 by decide) (by omega)
    have e1' : v[a - 0x8000 + 1]? = some hi := e1
    have e0' : v[a - 0x8000 + 0]? = some lo := e0
    rw [e1'] at c1
    rw [e0'] at c0
    have hy : hi = y := Option.some.inj c1
    have hx : lo = x := Option.some.inj c0
    subst hy hx
    have s8 : m.vram.length = 8192 := hm.1
    refine ⟨rfl, rfl, controller_byteAt_vram h1 h2 (by simpa using e0'), ?_⟩
    have ea : (a + 1) % 65536 = a + 1 := by omega
    rw [ea]
    refine controller_byteAt_vram (by omega) (by omega) ?_
    have : a + 1 - 0x8000 = a - 0x8000 + 1 := by omega
    rw [this]
    exact e1'
  · -- work RAM
    have hl := goCopyAt_length hv
    rcases g1 with ⟨k, _⟩ | ⟨k, _, _⟩ | ⟨_, _, e1⟩ | ⟨k, _, _⟩ <;> try (exfalso; omega)
    rcases g0 with ⟨k, _⟩ | ⟨k, _, _⟩ | ⟨_, _, e0⟩ | ⟨k, _, _⟩ <;> try (exfalso; omega)
    have b1 : a - 0xC000 + 1 < m.ram.length := hl ▸ len_of _ _ _ e1
    have c1 := goCopyAt_getElem? 1 hv (show 1 < 2 by decide) b1
    have c0 := goCopyAt_getElem? 0 hv (show 0 < 2 by decide) (by omega)
    have e1' : v[a - 0xC000 + 1]? = some hi := e1
    have e0' : v[a - 0xC000 + 0]? = some lo := e0
    rw [e1'] at c1
    rw [e0'] at c0
    have hy : hi = y := Option.some.inj c1
    have hx : lo = x := Option.some.inj c0
    subst hy hx
    have s8 : m.ram.length = 8192 := hm.2.1
    refine ⟨rfl, rfl, controller_byteAt_ram h1 h2 (by simpa using e0'), ?_⟩
    have ea : (a + 1) % 65536 = a + 1 := by omega
    rw [ea]
    refine controller_byteAt_ram (by omega) (by omega) ?_
    have : a + 1 - 0xC000 = a - 0xC000 + 1 := by omega
    rw [this]
    exact e1'
  · -- HRAM
    have hl := goCopyAt_length hv
    rcases g1 with ⟨k, _⟩ | ⟨k, _, _⟩ | ⟨k, _, _⟩ | ⟨_, _, e1⟩ <;> try (exfalso; omega)
    rcases g0 with ⟨k, _⟩ | ⟨k, _, _⟩ | ⟨k, _, _⟩ | ⟨_, _, e0⟩ <;> try (exfalso; omega)
    have b1 : a - 0xFF80 + 1 < m.hram.length := hl ▸ len_of _ _ _ e1
    have c1 := goCopyAt_getElem? 1 hv (show 1 < 2 by decide) b1
    have c0 := goCopyAt_getElem? 0 hv (show 0 < 2 by decide) (by omega)
    have e1' : v[a - 0xFF80 + 1]? = some hi := e1
    have e0' : v[a - 0xFF80 + 0]? = some lo := e0
    rw [e1'] at c1
    rw [e0'] at c0
    have hy : hi = y := Option.some.inj c1
    have hx : lo = x := Option.some.inj c0
    subst hy hx
    have s8 : m.hram.length = 127 := hm.2.2
    refine ⟨rfl, rfl, controller_byteAt_hram h1 h2 (by simpa using e0'), ?_⟩
    have ea : (a + 1) % 65536 = a + 1 := by omega
    rw [ea]
    refine controller_byteAt_hram (by omega) (by omega) ?_
    have : a + 1 - 0xFF80 = a - 0xFF80 + 1 := by omega
    rw [this]
    exact e1'
  · -- 0xFE00..0xFF7F: the write stored nothing and no read returns
    rcases g1 with ⟨k, _⟩ | ⟨k, _, _⟩ | ⟨k, _, _⟩ | ⟨k, _, _⟩ <;> exfalso <;> omega
/-! ## Push then pop -/

theorem push_pop_core {c c1 c2 : CPU Controller} (c3 : CPU Controller)
    (hm : c.memoryBus.Sized) {v hi lo : Nat}
    (hpush : c.push v = Exec.ret (c1, none))
    (hb : c3.memoryBus = c1.memoryBus) (hsp : c3.sp = c1.sp)
    (hpop : c3.pop = Exec.ret (c2, hi, lo, none)) :
    lo = (splitUint16IntoBytes v).2 ∧ hi = (splitUint16IntoBytes v).1 ∧
    byteAt c1.memoryBus c1.sp = some (splitUint16IntoBytes v).2 ∧
    byteAt c1.memoryBus ((c1.sp + 1) % 65536) = some (splitUint16IntoBytes v).1 ∧
    c1 = { c with sp := (c.sp + 65534) % 65536, memoryBus := c1.memoryBus } ∧
    c2 = { c3 with sp := (c3.sp + 2) % 65536 } := by
  obtain ⟨m, hw, hc1⟩ := push_inv hpush
  obtain ⟨bytes, hr, hhi, hlo, hc2⟩ := pop_ok_inv hpop
  have hbus : c1.memoryBus = m := by rw [hc1]
  have hsp1 : c1.sp = (c.sp + 65534) % 65536 := by rw [hc1]
  rw [hb, hsp, hbus, hsp1] at hr
  have ha : (c.sp + 65534) % 65536 < 65536 := Nat.mod_lt _ (by decide)
  obtain ⟨e1, e2, e3, e4⟩ := controller_write_read_two hm ha hw hr hhi hlo
  rw [hbus, hsp1]
  refine ⟨e1, e2, e3, e4, ?_, hc2⟩
  rw [hc1]

theorem PUSH_BC_inv {σ : Type} [MemoryReadWriter σ] {ctx : context} {c c1 : CPU σ} {n1 : Int}
    (h : ((List.lookup 0xC5 opcodeLookup).map fun op => op.handler ctx c)
      = some (Exec.ret (c1, n1, none))) :
    c.push (mergeBytesToUint16 c.B c.C) = Exec.ret (c1, none) ∧ n1 = 16 := by
  have key : ((List.lookup 0xC5 opcodeLookup).map fun op => op.handler ctx c)
      = some (match c.push (mergeBytesToUint16 c.B c.C) with
        | Exec.abort => Exec.abort
        | Exec.ret (cpu1, some err) => Exec.ret (cpu1, 0, some err)
        | Exec.ret (cpu1, none) => Exec.ret (cpu1, 16, none)) := rfl
  rw [key] at h
  have h := Option.some.inj h
  split at h
  · cases h
  · cases h
  · rename_i cp hp
    cases h
    exact ⟨hp, rfl⟩

theorem POP_BC_inv {σ : Type} [MemoryReadWriter σ] {ctx : context} {c c2 : CPU σ} {n2 : Int}
    (h : ((List.lookup 0xC1 opcodeLookup).map fun op => op.handler ctx c)
      = some (Exec.ret (c2, n2, none))) :
    ∃ cq hi lo, c.pop = Exec.ret (cq, hi, lo, none) ∧ c2 = { cq with B := hi, C := lo } ∧
      n2 = 12 := by
  have key : ((List.lookup 0xC1 opcodeLookup).map fun op => op.handler ctx c)
      = some (match c.pop with
        | Exec.abort => Exec.abort
        | Exec.ret (cpu1, _, _, some err) => Exec.ret (cpu1, 0, some err)
        | Exec.ret (cpu1, hi, lo, none) =>
          Exec.ret ({ cpu1 with B := hi, C := lo }, 12, none)) := rfl
  rw [key] at h
  have h := Option.some.inj h
  split at h
  · cases h
  · cases h
  · rename_i cq hi lo hq
    cases h
    exact ⟨cq, hi, lo, hq, rfl, rfl⟩

/-- C14: on a memory Controller with arrays sized as `NewController` sizes them,
for a 16-bit value `v` and a stack pointer `s`: if `push v` returns without
error and the `pop` that follows returns without error, then `pop` yields the
high and low byte of `v` (merging them gives `v`) and the stack pointer is `s`
again; between the two the stack pointer is `(s - 2) mod 2^16`, the byte there
is `v`'s low byte and the byte above it is `v`'s high byte.  Likewise a `PUSH BC`
and a later `POP BC` on the same bus and stack pointer, both without error,
take 16 and 12 cycles and leave `B`, `C` and the stack pointer as they were
before the push, whatever `B` and `C` held in between. -/
theorem push_pop_roundtrip (c : CPU Controller) (hm : c.memoryBus.Sized)
    (hs : c.sp < 65536) :
    (∀ (v : Nat) (c1 c2 : CPU Controller) (hi lo : Nat), v < 65536 →
      c.push v = Exec.ret (c1, none) → c1.pop = Exec.ret (c2, hi, lo, none) →
      mergeBytesToUint16 hi lo = v ∧ hi = v >>> 8 ∧ lo = v &&& 0xFF ∧
      c2.sp = c.sp ∧ c1.sp = (c.sp + 65534) % 65536 ∧
      (c1.sp : Int) = ((c.sp : Int) - 2) % 65536 ∧
      byteAt c1.memoryBus c1.sp = some (v &&& 0xFF) ∧
      byteAt c1.memoryBus ((c1.sp + 1) % 65536) = some (v >>> 8) ∧
      c2 = { c1 with sp := c.sp }) ∧
    (∀ (ctx ctx1 : context) (c1 c2 : CPU Controller) (n1 n2 : Int) (x y : Nat),
      c.B < 256 → c.C < 256 →
      ((List.lookup 0xC5 opcodeLookup).map fun op => op.handler ctx c)
        = some (Exec.ret (c1, n1, none)) →
      ((List.lookup 0xC1 opcodeLookup).map fun op =>
          op.handler ctx1 ({ c1 with B := x, C := y } : CPU Controller))
        = some (Exec.ret (c2, n2, none)) →
      n1 = 16 ∧ n2 = 12 ∧ c2.B = c.B ∧ c2.C = c.C ∧ c2.sp = c.sp) := by
  constructor
  · intro v c1 c2 hi lo hv hpush hpop
    obtain ⟨e1, e2, e3, e4, e5, e6⟩ := push_pop_core c1 hm hpush rfl rfl hpop
    have hsplit := split_eq hv
    rw [hsplit] at e1 e2 e3 e4
    have hsp1 : c1.sp = (c.sp + 65534) % 65536 := by rw [e5]
    have hback : (c1.sp + 2) % 65536 = c.sp := by rw [hsp1]; omega
    rw [hback] at e6
    refine ⟨?_, e2, e1, by rw [e6], hsp1, by rw [hsp1]; omega, e3, e4, e6⟩
    rw [e1, e2]
    exact merge_split hv
  · intro ctx ctx1 c1 c2 n1 n2 x y hB hC hpushH hpopH
    obtain ⟨hp, hn1⟩ := PUSH_BC_inv hpushH
    obtain ⟨cq, hi, lo, hq, hc2, hn2⟩ := POP_BC_inv hpopH
    obtain ⟨e1, e2, _, _, e5, e6⟩ :=
      push_pop_core ({ c1 with B := x, C := y } : CPU Controller) hm hp rfl rfl hq
    have hsm := split_merge hB hC
    rw [hsm] at e1 e2
    have hsp1 : c1.sp = (c.sp + 65534) % 65536 := by rw [e5]
    have hback : (c1.sp + 2) % 65536 = c.sp := by rw [hsp1]; omega
    refine ⟨hn1, hn2, ?_, ?_, ?_⟩
    · rw [hc2]; exact e2
    · rw [hc2]; exact e1
    · rw [hc2, e6]; exact hback
theorem newController_sized (game : List Nat) : (NewController game).Sized :=
  ⟨List.length_replicate _ _, List.length_replicate _ _, List.length_replicate _ _⟩

set_option maxRecDepth 8000 in
/-- C14 on `NewController` of an empty ROM image with `sp = 0xFFFE`: pushing
`0xABCD` stores `0xCD` at `0xFFFC` and `0xAB` at `0xFFFD` in HRAM, and the pop
returns `(0xAB, 0xCD)` with `sp = 0xFFFE`. -/
theorem push_pop_roundtrip_witness :
    (0xFFFE < 65536 ∧ 0xABCD < 65536) ∧
    ({ NewCPU (NewController []) with sp := 0xFFFE } : CPU Controller).push 0xABCD
      = Exec.ret ({ NewCPU ({ NewController [] with
            hram := List.replicate 124 0 ++ [0xCD, 0xAB, 0x00] } : Controller) with
          sp := 0xFFFC }, none) ∧
    ({ NewCPU ({ NewController [] with
          hram := List.replicate 124 0 ++ [0xCD, 0xAB, 0x00] } : Controller) with
        sp := 0xFFFC } : CPU Controller).pop
      = Exec.ret ({ NewCPU ({ NewController [] with
            hram := List.replicate 124 0 ++ [0xCD, 0xAB, 0x00] } : Controller) with
          sp := 0xFFFE }, 0xAB, 0xCD, none) ∧
    mergeBytesToUint16 0xAB 0xCD = 0xABCD :=
  ⟨by decide, by rfl, by rfl,
   ((push_pop_roundtrip ({ NewCPU (NewController []) with sp := 0xFFFE } : CPU Controller)
      (newController_sized []) (by decide)).1 0xABCD
      ({ NewCPU ({ NewController [] with
            hram := List.replicate 124 0 ++ [0xCD, 0xAB, 0x00] } : Controller) with
          sp := 0xFFFC })
      ({ NewCPU ({ NewController [] with
            hram := List.replicate 124 0 ++ [0xCD, 0xAB, 0x00] } : Controller) with
          sp := 0xFFFE })
      0xAB 0xCD (by decide) (by rfl) (by rfl)).1⟩
/-! ## Accesses that run past the end of a region -/

theorem goCopyAt_replicate_last (n x y : Nat) :
    goCopyAt (List.replicate (n + 1) 0) n [x, y] = Exec.ret (List.replicate n 0 ++ [x]) := by
  have m1 : min n (n + 1) = n := by omega
  have m2 : min (n + 1 - n) ([x, y] : List Nat).length = 1 := by
    show min (n + 1 - n) 2 = 1
    omega
  have m3 : n + 1 - (n + 1) = 0 := by omega
  have t1 : List.take 1 [x, y] = [x] := rfl
  have t2 : List.replicate 0 (0 : Nat) = [] := rfl
  unfold goCopyAt
  rw [List.length_replicate, if_pos (by omega), List.take_replicate, List.drop_replicate, m1, m2,
    m3, t1, t2, List.append_nil]

/-- C19, the code at the failing inputs: on `NewController`, a two-byte write at
the last address of VRAM, work RAM or HRAM returns no error after storing the
first byte only, and a two-byte read there aborts on a slice bound out of range
instead of returning a failure value. -/
theorem access_past_region_end (game : List Nat) (x y : Nat) :
    ((NewController game).WriteToAddress 0x9FFF [x, y]
        = Exec.ret ({ NewController game with vram := List.replicate 8191 0 ++ [x] }, none) ∧
     (NewController game).ReadFromAddress 0x9FFF 2 = Res.abort) ∧
    ((NewController game).WriteToAddress 0xDFFF [x, y]
        = Exec.ret ({ NewController game with ram := List.replicate 8191 0 ++ [x] }, none) ∧
     (NewController game).ReadFromAddress 0xDFFF 2 = Res.abort) ∧
    ((NewController game).WriteToAddress 0xFFFE [x, y]
        = Exec.ret ({ NewController game with hram := List.replicate 126 0 ++ [x] }, none) ∧
     (NewController game).ReadFromAddress 0xFFFE 2 = Res.abort) := by
  have hv : (NewController game).vram = List.replicate (8191 + 1) 0 := rfl
  have hr : (NewController game).ram = List.replicate (8191 + 1) 0 := rfl
  have hh : (NewController game).hram = List.replicate (126 + 1) 0 := rfl
  have ev : toVRAMSpace 0x9FFF = 8191 := by decide
  have er : toRAMSpace 0xDFFF = 8191 := by decide
  have eh : toHRAMSpace 0xFFFE = 126 := by decide
  have u1 : upTo 8191 2 = 8193 := by decide
  have u2 : upTo 126 2 = 128 := by decide
  refine ⟨⟨?_, ?_⟩, ⟨?_, ?_⟩, ⟨?_, ?_⟩⟩
  · unfold Controller.WriteToAddress
    rw [if_neg (by decide), if_pos (by decide), ev, hv, goCopyAt_replicate_last]
  · unfold Controller.ReadFromAddress
    rw [if_neg (by decide), if_pos (by decide), ev, u1, hv]
    exact goSlice_abort (by rw [List.length_replicate]; decide)
  · unfold Controller.WriteToAddress
    rw [if_neg (by decide), if_neg (by decide), if_pos (by decide), er, hr,
      goCopyAt_replicate_last]
  · unfold Controller.ReadFromAddress
    rw [if_neg (by decide), if_neg (by decide), if_pos (by decide), er, u1, hr]
    exact goSlice_abort (by rw [List.length_replicate]; decide)
  · unfold Controller.WriteToAddress
    rw [if_neg (by decide), if_neg (by decide), if_neg (by decide), if_pos (by decide), eh, hh,
      goCopyAt_replicate_last]
  · unfold Controller.ReadFromAddress
    rw [if_neg (by decide), if_neg (by decide), if_neg (by decide), if_pos (by decide), eh, u2, hh]
    exact goSlice_abort (by rw [List.length_replicate]; decide)
/-! ## CALL -/

theorem controller_write_two_stored {m m1 : Controller} (hm : m.Sized) {a x y : Nat}
    (hreg : pairInOneRegion a) (hw : m.WriteToAddress a [x, y] = Exec.ret (m1, none)) :
    byteAt m1 a = some x ∧ byteAt m1 ((a + 1) % 65536) = some y := by
  have ha : a < 65536 := by
    rcases hreg with h | h | h <;> omega
  have ea : (a + 1) % 65536 = a + 1 := by
    rcases hreg with h | h | h <;> omega
  rw [ea]
  rcases controller_write_ok_inv ha hw with
    ⟨h1, h2, v, hv, rfl⟩ | ⟨h1, h2, v, hv, rfl⟩ | ⟨h1, h2, v, hv, rfl⟩ | ⟨h1, h2, rfl⟩
  · have hin : a + 1 ≤ 0x9FFF := by rcases hreg with h | h | h <;> omega
    have s8 : m.vram.length = 8192 := hm.1
    have c0 := goCopyAt_getElem? 0 hv (show 0 < 2 by decide) (by omega)
    have c1 := goCopyAt_getElem? 1 hv (show 1 < 2 by decide) (by omega)
    refine ⟨controller_byteAt_vram h1 h2 (by simpa using c0),
      controller_byteAt_vram (by omega) (by omega) ?_⟩
    have : a + 1 - 0x8000 = a - 0x8000 + 1 := by omega
    rw [this]
    exact c1
  · have hin : a + 1 ≤ 0xDFFF := by rcases hreg with h | h | h <;> omega
    have s8 : m.ram.length = 8192 := hm.2.1
    have c0 := goCopyAt_getElem? 0 hv (show 0 < 2 by decide) (by omega)
    have c1 := goCopyAt_getElem? 1 hv (show 1 < 2 by decide) (by omega)
    refine ⟨controller_byteAt_ram h1 h2 (by simpa using c0),
      controller_byteAt_ram (by omega) (by omega) ?_⟩
    have : a + 1 - 0xC000 = a - 0xC000 + 1 := by omega
    rw [this]
    exact c1
  · have hin : a + 1 ≤ 0xFFFE := by rcases hreg with h | h | h <;> omega
    have s8 : m.hram.length = 127 := hm.2.2
    have c0 := goCopyAt_getElem? 0 hv (show 0 < 2 by decide) (by omega)
    have c1 := goCopyAt_getElem? 1 hv (show 1 < 2 by decide) (by omega)
    refine ⟨controller_byteAt_hram h1 h2 (by simpa using c0),
      controller_byteAt_hram (by omega) (by omega) ?_⟩
    have : a + 1 - 0xFF80 = a - 0xFF80 + 1 := by omega
    rw [this]
    exact c1
  · exfalso
    rcases hreg with h | h | h <;> omega

/-- C15 fails as stated: on the memory Controller with `sp = 0xFF00` and
`PC = 0x0150`, the push of `CALL 0x1234` returns no error (the write lands in
`0xFE00..0xFF7F`), `PC` becomes `0x1234` and the stack pointer `0xFEFE`, yet the
bytes at `0xFEFE` and `0xFEFF` are not `0x50` and `0x01`: no read returns there. -/
theorem callSubroutine_io_push_stores_nothing :
    ({ NewCPU (NewController []) with sp := 0xFF00, PC := 0x0150 } : CPU Controller).callSubroutine
        0x1234
      = Exec.ret ({ NewCPU (NewController []) with sp := 0xFEFE, PC := 0x1234 }, none) ∧
    byteAt (NewController []) 0xFEFE = none ∧
    byteAt (NewController []) 0xFEFE ≠ some (0x0150 &&& 0xFF) ∧
    byteAt (NewController []) 0xFEFF ≠ some (0x0150 >>> 8) := by
  refine ⟨by rfl, by rfl, ?_, ?_⟩
  · have h : byteAt (NewController []) 0xFEFE = none := by rfl
    rw [h]; exact fun e => by cases e
  · have h : byteAt (NewController []) 0xFEFF = none := by rfl
    rw [h]; exact fun e => by cases e

theorem CALL_handler {σ : Type} [MemoryReadWriter σ] (ctx : context) (c : CPU σ) :
    ((List.lookup 0xCD opcodeLookup).map fun op => op.handler ctx c)
      = some (match c.callSubroutine ctx.n16 with
        | Exec.abort => Exec.abort
        | Exec.ret (cpu1, err) => Exec.ret (cpu1, 24, err)) := rfl

/-- C15 as amended: the handler of `CALL n16` returns 24 cycles with whatever
`callSubroutine n16` returns.  If the push returns no error, the bus was asked
to write the low then the high byte of the old `PC` at `(sp - 2) mod 2^16` and
accepted, `PC` is `n16`, the stack pointer is `(sp - 2) mod 2^16` and no other
register changed.  If the push returns an error, that error is returned, `PC`
is unchanged and the stack pointer is already decreased.  On a memory
Controller with arrays sized as `NewController` sizes them, when the new stack
pointer and the address above it lie in the same one of VRAM, work RAM and
HRAM, the two bytes at the new stack pointer are, after a push without error,
the low then the high byte of the old `PC`. -/
theorem callSubroutine_linkage {σ : Type} [MemoryReadWriter σ] (c : CPU σ) (ctx : context) :
    (∀ (c1 : CPU σ) (err : Option Fault), c.callSubroutine ctx.n16 = Exec.ret (c1, err) →
      ((List.lookup 0xCD opcodeLookup).map fun op => op.handler ctx c)
        = some (Exec.ret (c1, 24, err))) ∧
    (∀ c1 : CPU σ, c.callSubroutine ctx.n16 = Exec.ret (c1, none) →
      MemoryReadWriter.WriteToAddress c.memoryBus ((c.sp + 65534) % 65536)
        [(splitUint16IntoBytes c.PC).2, (splitUint16IntoBytes c.PC).1]
        = Exec.ret (c1.memoryBus, none) ∧
      c1 = { c with PC := ctx.n16, sp := (c.sp + 65534) % 65536, memoryBus := c1.memoryBus }) ∧
    (∀ (c1 : CPU σ) (e : Fault), c.callSubroutine ctx.n16 = Exec.ret (c1, some e) →
      MemoryReadWriter.WriteToAddress c.memoryBus ((c.sp + 65534) % 65536)
        [(splitUint16IntoBytes c.PC).2, (splitUint16IntoBytes c.PC).1]
        = Exec.ret (c1.memoryBus, some e) ∧
      c1.PC = c.PC ∧
      c1 = { c with sp := (c.sp + 65534) % 65536, memoryBus := c1.memoryBus }) ∧
    (∀ (k k1 : CPU Controller) (n16 : Nat), k.memoryBus.Sized → k.PC < 65536 →
      pairInOneRegion ((k.sp + 65534) % 65536) →
      k.callSubroutine n16 = Exec.ret (k1, none) →
      k1.PC = n16 ∧ k1.sp = (k.sp + 65534) % 65536 ∧
      byteAt k1.memoryBus k1.sp = some (k.PC &&& 0xFF) ∧
      byteAt k1.memoryBus ((k1.sp + 1) % 65536) = some (k.PC >>> 8)) := by
  refine ⟨?_, ?_, ?_, ?_⟩
  · intro c1 err h
    rw [CALL_handler, h]
  · intro c1 h
    obtain ⟨c2, hp, hc1⟩ := callSubroutine_ok_inv h
    obtain ⟨m, hw, hc2⟩ := push_inv hp
    have hb : c1.memoryBus = m := by rw [hc1, hc2]
    rw [hb]
    exact ⟨hw, by rw [hc1, hc2]⟩
  · intro c1 e h
    have hp := callSubroutine_fail_inv h
    obtain ⟨m, hw, hc1⟩ := push_inv hp
    have hb : c1.memoryBus = m := by rw [hc1]
    rw [hb]
    exact ⟨hw, by rw [hc1], by rw [hc1]⟩
  · intro k k1 n16 hm hpc hreg h
    obtain ⟨k2, hp, hk1⟩ := callSubroutine_ok_inv h
    obtain ⟨m, hw, hk2⟩ := push_inv hp
    have hsplit := split_eq hpc
    rw [hsplit] at hw
    obtain ⟨b0, b1⟩ := controller_write_two_stored hm hreg hw
    have hb : k1.memoryBus = m := by rw [hk1, hk2]
    have hs : k1.sp = (k.sp + 65534) % 65536 := by rw [hk1, hk2]
    rw [hb, hs]
    exact ⟨by rw [hk1], rfl, b0, b1⟩

set_option maxRecDepth 8000 in
/-- C15 as amended, on `NewController` of an empty ROM image with `sp = 0xFFFE`
and `PC = 0x0150`: `CALL 0x1234` leaves `PC = 0x1234`, `sp = 0xFFFC`, and `0x50`,
`0x01` at `0xFFFC`, `0xFFFD`. -/
theorem callSubroutine_linkage_witness :
    (0x0150 < 65536 ∧ pairInOneRegion ((0xFFFE + 65534) % 65536)) ∧
    ({ NewCPU (NewController []) with sp := 0xFFFE, PC := 0x0150 } : CPU Controller).callSubroutine
        0x1234
      = Exec.ret ({ NewCPU ({ NewController [] with
            hram := List.replicate 124 0 ++ [0x50, 0x01, 0x00] } : Controller) with
          sp := 0xFFFC, PC := 0x1234 }, none) ∧
    byteAt ({ NewController [] with
        hram := List.replicate 124 0 ++ [0x50, 0x01, 0x00] } : Controller) 0xFFFC
      = some (0x0150 &&& 0xFF) ∧
    byteAt ({ NewController [] with
        hram := List.replicate 124 0 ++ [0x50, 0x01, 0x00] } : Controller) ((0xFFFC + 1) % 65536)
      = some (0x0150 >>> 8) :=
  ⟨⟨by decide, Or.inr (Or.inr ⟨by decide, by decide⟩)⟩, by rfl,
   ((callSubroutine_linkage (NewCPU (mockMemory [])) { n8 := 0, e8 := 0, n16 := 0 }).2.2.2
      ({ NewCPU (NewController []) with sp := 0xFFFE, PC := 0x0150 } : CPU Controller)
      ({ NewCPU ({ NewController [] with
            hram := List.replicate 124 0 ++ [0x50, 0x01, 0x00] } : Controller) with
          sp := 0xFFFC, PC := 0x1234 })
      0x1234 (newController_sized []) (by decide)
      (Or.inr (Or.inr ⟨by decide, by decide⟩)) (by rfl)).2.2.1,
   ((callSubroutine_linkage (NewCPU (mockMemory [])) { n8 := 0, e8 := 0, n16 := 0 }).2.2.2
      ({ NewCPU (NewController []) with sp := 0xFFFE, PC := 0x0150 } : CPU Controller)
      ({ NewCPU ({ NewController [] with
            hram := List.replicate 124 0 ++ [0x50, 0x01, 0x00] } : Controller) with
          sp := 0xFFFC, PC := 0x1234 })
      0x1234 (newController_sized []) (by decide)
      (Or.inr (Or.inr ⟨by decide, by decide⟩)) (by rfl)).2.2.2⟩

/-! ## Array sizes of the memory Controller -/

theorem WriteToAddress_sized {m m1 : Controller} {a : Nat} {bs : List Nat}
    {err : Option Fault} (hm : m.Sized) (h : m.WriteToAddress a bs = Exec.ret (m1, err)) :
    m1.Sized := by
  unfold Controller.WriteToAddress at h
  split at h
  · cases h; exact hm
  · split at h
    · split at h
      · rename_i v hv
        cases h
        exact ⟨(goCopyAt_length hv).trans hm.1, hm.2.1, hm.2.2⟩
      · cases h
    · split at h
      · split at h
        · rename_i v hv
          cases h
          exact ⟨hm.1, (goCopyAt_length hv).trans hm.2.1, hm.2.2⟩
        · cases h
      · split at h
        · split at h
          · rename_i v hv
            cases h
            exact ⟨hm.1, hm.2.1, (goCopyAt_length hv).trans hm.2.2⟩
          · cases h
        · split at h
          · cases h; exact hm
          · cases h; exact hm
/-! ## Failed push and failed pop -/

/-- C24: a failed push is not atomic.  When the bus write of `push v` at
`(sp - 2) mod 2^16` returns an error, `push` returns that error with the stack
pointer already decreased by 2, while `PC`, the registers `A, F, B, C, D, E, H,
L` and the trace are as before (the bus is whatever the failed write left).  A
failed `pop` returns the error of its bus read and leaves the whole CPU, stack
pointer included, as it was.  A `CALL` whose push fails likewise returns with
the stack pointer decreased and `PC` unchanged. -/
theorem failed_push_not_atomic {σ : Type} [MemoryReadWriter σ] (c : CPU σ) (v : Nat) :
    (∀ (m : σ) (e : Fault),
      MemoryReadWriter.WriteToAddress c.memoryBus ((c.sp + 65534) % 65536)
        [(splitUint16IntoBytes v).2, (splitUint16IntoBytes v).1] = Exec.ret (m, some e) →
      c.push v
        = Exec.ret ({ c with sp := (c.sp + 65534) % 65536, memoryBus := m }, some e)) ∧
    (∀ (c1 : CPU σ) (e : Fault), c.push v = Exec.ret (c1, some e) →
      c1.sp = (c.sp + 65534) % 65536 ∧ (c1.sp : Int) = ((c.sp : Int) - 2) % 65536 ∧
      c1.PC = c.PC ∧ c1.A = c.A ∧ c1.F = c.F ∧ c1.B = c.B ∧ c1.C = c.C ∧ c1.D = c.D ∧
      c1.E = c.E ∧ c1.H = c.H ∧ c1.L = c.L ∧ c1.callStack = c.callStack) ∧
    (∀ e : Fault, MemoryReadWriter.ReadFromAddress c.memoryBus c.sp 2 = Res.fail e →
      c.pop = Exec.ret (c, 0, 0, some e)) ∧
    (∀ (c1 : CPU σ) (hi lo : Nat) (e : Fault), c.pop = Exec.ret (c1, hi, lo, some e) →
      c1 = c) ∧
    (∀ (c1 : CPU σ) (address : Nat) (e : Fault),
      c.callSubroutine address = Exec.ret (c1, some e) →
      c1.sp = (c.sp + 65534) % 65536 ∧ c1.PC = c.PC) := by
  refine ⟨?_, ?_, ?_, ?_, ?_⟩
  · intro m e hw
    unfold CPU.push
    dsimp only
    rw [hw]
  · intro c1 e h
    obtain ⟨m, _, hc1⟩ := push_inv h
    rw [hc1]
    refine ⟨rfl, ?_, rfl, rfl, rfl, rfl, rfl, rfl, rfl, rfl, rfl, rfl⟩
    show (((c.sp + 65534) % 65536 : Nat) : Int) = ((c.sp : Int) - 2) % 65536
    omega
  · intro e hr
    unfold CPU.pop
    rw [hr]
  · intro c1 hi lo e h
    exact (pop_fail_inv h).2.1
  · intro c1 address e h
    obtain ⟨m, _, hc1⟩ := push_inv (callSubroutine_fail_inv h)
    rw [hc1]
    exact ⟨rfl, rfl⟩

/-- C24 on the memory Controller: with `sp = 0x0002` the push writes to ROM at
`0x0000` and fails with `sp = 0x0000`; with `sp = 0x4000` the pop reads an
unmapped address and fails with `sp = 0x4000`. -/
theorem failed_push_not_atomic_witness :
    ({ NewCPU (NewController []) with sp := 0x0002, PC := 0x0150 } : CPU Controller).push 0xABCD
      = Exec.ret ({ NewCPU (NewController []) with sp := (0x0002 + 65534) % 65536, PC := 0x0150 },
          some (Fault.writeToROM 0)) ∧
    ({ NewCPU (NewController []) with sp := 0x4000 } : CPU Controller).pop
      = Exec.ret ({ NewCPU (NewController []) with sp := 0x4000 }, 0, 0,
          some (Fault.illegalRead 0x4000)) :=
  ⟨(failed_push_not_atomic
      ({ NewCPU (NewController []) with sp := 0x0002, PC := 0x0150 } : CPU Controller) 0xABCD).1
      (NewController []) (Fault.writeToROM 0) (by rfl),
   (failed_push_not_atomic
      ({ NewCPU (NewController []) with sp := 0x4000 } : CPU Controller) 0).2.2.1
      (Fault.illegalRead 0x4000) (by rfl)⟩
/-! ## Write then read on the memory Controller -/

theorem goCopyAt_fit {s bs : List Nat} {k : Nat} (hfit : k + bs.length ≤ s.length) :
    goCopyAt s k bs = Exec.ret (s.take k ++ bs ++ s.drop (k + bs.length)) := by
  have hmin : min (s.length - k) bs.length = bs.length := by omega
  unfold goCopyAt
  rw [if_pos (by omega), hmin, List.take_length]

theorem goSlice_of_copy {s bs : List Nat} {k : Nat} (hfit : k + bs.length ≤ s.length) :
    goSlice (s.take k ++ bs ++ s.drop (k + bs.length)) k (k + bs.length) = Res.ok bs := by
  have hk : (s.take k).length = k := by
    rw [List.length_take]; omega
  have hlen : (s.take k ++ bs ++ s.drop (k + bs.length)).length = s.length := by
    simp only [List.length_append, List.length_take, List.length_drop]
    omega
  unfold goSlice
  rw [hlen, if_pos ⟨by omega, hfit⟩, List.append_assoc, List.drop_left' hk,
    Nat.add_sub_cancel_left, List.take_left' rfl]

theorem goSlice_one_abort {L : List Nat} {k : Nat} (hk : k + 1 < 65536) (h : L[k]? = none) :
    goSlice L k (upTo k 1) = Res.abort := by
  have hlen : L.length ≤ k := by
    by_contra hn
    rw [List.getElem?_eq_getElem (by omega)] at h
    cases h
  have e : upTo k 1 = k + 1 := by unfold upTo; omega
  rw [e]
  exact goSlice_abort (by omega)

theorem byteAt_of_read_abort {σ : Type} [MemoryReadWriter σ] {m : σ} {a : Nat}
    (h : MemoryReadWriter.ReadFromAddress m a 1 = Res.abort) : byteAt m a = none := by
  unfold byteAt
  rw [h]

theorem byteAt_of_read_fail {σ : Type} [MemoryReadWriter σ] {m : σ} {a : Nat} {e : Fault}
    (h : MemoryReadWriter.ReadFromAddress m a 1 = Res.fail e) : byteAt m a = none := by
  unfold byteAt
  rw [h]

theorem byteAt_of_read_one {σ : Type} [MemoryReadWriter σ] {m : σ} {a x : Nat}
    (h : MemoryReadWriter.ReadFromAddress m a 1 = Res.ok [x]) : byteAt m a = some x := by
  unfold byteAt
  rw [h]

theorem controller_read_one (m : Controller) (a : Nat) :
    m.ReadFromAddress a 1 =
      if a ≤ 0x3FFF then goSlice m.cartridge a (upTo a 1)
      else if 0x8000 ≤ a ∧ a ≤ 0x9FFF then goSlice m.vram (a - 0x8000) (upTo (a - 0x8000) 1)
      else if 0xC000 ≤ a ∧ a ≤ 0xDFFF then goSlice m.ram (a - 0xC000) (upTo (a - 0xC000) 1)
      else if 0xFF80 ≤ a ∧ a ≤ 0xFFFE then goSlice m.hram (a - 0xFF80) (upTo (a - 0xFF80) 1)
      else Res.fail (Fault.illegalRead a) := by
  unfold Controller.ReadFromAddress
  by_cases h1 : a ≤ 0x3FFF
  · rw [if_pos h1, if_pos h1]
  · rw [if_neg h1, if_neg h1]
    by_cases h2 : 0x8000 ≤ a ∧ a ≤ 0x9FFF
    · have e : toVRAMSpace a = a - 0x8000 := by unfold toVRAMSpace; omega
      rw [if_pos h2, if_pos h2, e]
    · rw [if_neg h2, if_neg h2]
      by_cases h3 : 0xC000 ≤ a ∧ a ≤ 0xDFFF
      · have e : toRAMSpace a = a - 0xC000 := by unfold toRAMSpace; omega
        rw [if_pos h3, if_pos h3, e]
      · rw [if_neg h3, if_neg h3]
        by_cases h4 : 0xFF80 ≤ a ∧ a ≤ 0xFFFE
        · have e : toHRAMSpace a = a - 0xFF80 := by unfold toHRAMSpace; omega
          rw [if_pos h4, if_pos h4, e]
        · rw [if_neg h4, if_neg h4]

theorem byteAt_of_slice {m : Controller} {a k : Nat} {L : List Nat} (hk : k + 1 < 65536)
    (h : m.ReadFromAddress a 1 = goSlice L k (upTo k 1)) : byteAt m a = L[k]? := by
  cases hx : L[k]? with
  | some x =>
    rw [goSlice_one hk hx] at h
    exact byteAt_of_read_one h
  | none =>
    rw [goSlice_one_abort hk hx] at h
    exact byteAt_of_read_abort h

theorem controller_byteAt_eq (m : Controller) (a : Nat) :
    byteAt m a =
      if a ≤ 0x3FFF then m.cartridge[a]?
      else if 0x8000 ≤ a ∧ a ≤ 0x9FFF then m.vram[a - 0x8000]?
      else if 0xC000 ≤ a ∧ a ≤ 0xDFFF then m.ram[a - 0xC000]?
      else if 0xFF80 ≤ a ∧ a ≤ 0xFFFE then m.hram[a - 0xFF80]?
      else none := by
  have hr := controller_read_one m a
  by_cases h1 : a ≤ 0x3FFF
  · rw [if_pos h1] at hr
    rw [if_pos h1]
    exact byteAt_of_slice (by omega) hr
  · rw [if_neg h1] at hr
    rw [if_neg h1]
    by_cases h2 : 0x8000 ≤ a ∧ a ≤ 0x9FFF
    · rw [if_pos h2] at hr
      rw [if_pos h2]
      exact byteAt_of_slice (by omega) hr
    · rw [if_neg h2] at hr
      rw [if_neg h2]
      by_cases h3 : 0xC000 ≤ a ∧ a ≤ 0xDFFF
      · rw [if_pos h3] at hr
        rw [if_pos h3]
        exact byteAt_of_slice (by omega) hr
      · rw [if_neg h3] at hr
        rw [if_neg h3]
        by_cases h4 : 0xFF80 ≤ a ∧ a ≤ 0xFFFE
        · rw [if_pos h4] at hr
          rw [if_pos h4]
          exact byteAt_of_slice (by omega) hr
        · rw [if_neg h4] at hr
          rw [if_neg h4]
          exact byteAt_of_read_fail hr
theorem write_read_vram (m : Controller) (hlen : m.vram.length = 8192) (a : Nat) (bs : List Nat)
    (hne : bs ≠ []) (h1 : 0x8000 ≤ a) (h2 : a + bs.length - 1 ≤ 0x9FFF) :
    m.WriteToAddress a bs = Exec.ret
      ({ m with vram := m.vram.take (a - 0x8000) ++ bs ++ m.vram.drop (a - 0x8000 + bs.length) },
        none) ∧
    Controller.ReadFromAddress
      { m with vram := m.vram.take (a - 0x8000) ++ bs ++ m.vram.drop (a - 0x8000 + bs.length) }
      a bs.length = Res.ok bs ∧
    (∀ b, (b < a ∨ a + bs.length ≤ b) →
      byteAt
        ({ m with vram := m.vram.take (a - 0x8000) ++ bs ++ m.vram.drop (a - 0x8000 + bs.length) } :
          Controller)
        b = byteAt m b) := by
  have hpos : 0 < bs.length := List.length_pos.mpr hne
  have hfit : a - 0x8000 + bs.length ≤ m.vram.length := by omega
  have e : toVRAMSpace a = a - 0x8000 := by unfold toVRAMSpace; omega
  have hcopy := goCopyAt_fit hfit
  refine ⟨?_, ?_, ?_⟩
  · unfold Controller.WriteToAddress
    rw [if_neg (by omega), if_pos ⟨h1, by omega⟩, e, hcopy]
  · have eu : upTo (a - 0x8000) bs.length = a - 0x8000 + bs.length := by unfold upTo; omega
    unfold Controller.ReadFromAddress
    rw [if_neg (by omega), if_pos ⟨h1, by omega⟩, e, eu]
    exact goSlice_of_copy hfit
  · intro b hb
    rw [controller_byteAt_eq, controller_byteAt_eq]
    by_cases g1 : b ≤ 0x3FFF
    · rw [if_pos g1, if_pos g1]
    · rw [if_neg g1, if_neg g1]
      by_cases g2 : 0x8000 ≤ b ∧ b ≤ 0x9FFF
      · rw [if_pos g2, if_pos g2]
        exact goCopyAt_getElem?_other hcopy (by omega)
      · rw [if_neg g2, if_neg g2]

theorem write_read_ram (m : Controller) (hlen : m.ram.length = 8192) (a : Nat) (bs : List Nat)
    (hne : bs ≠ []) (h1 : 0xC000 ≤ a) (h2 : a + bs.length - 1 ≤ 0xDFFF) :
    m.WriteToAddress a bs = Exec.ret
      ({ m with ram := m.ram.take (a - 0xC000) ++ bs ++ m.ram.drop (a - 0xC000 + bs.length) },
        none) ∧
    Controller.ReadFromAddress
      { m with ram := m.ram.take (a - 0xC000) ++ bs ++ m.ram.drop (a - 0xC000 + bs.length) }
      a bs.length = Res.ok bs ∧
    (∀ b, (b < a ∨ a + bs.length ≤ b) →
      byteAt
        ({ m with ram := m.ram.take (a - 0xC000) ++ bs ++ m.ram.drop (a - 0xC000 + bs.length) } :
          Controller)
        b = byteAt m b) := by
  have hpos : 0 < bs.length := List.length_pos.mpr hne
  have hfit : a - 0xC000 + bs.length ≤ m.ram.length := by omega
  have e : toRAMSpace a = a - 0xC000 := by unfold toRAMSpace; omega
  have hcopy := goCopyAt_fit hfit
  refine ⟨?_, ?_, ?_⟩
  · unfold Controller.WriteToAddress
    rw [if_neg (by omega), if_neg (by omega), if_pos ⟨h1, by omega⟩, e, hcopy]
  · have eu : upTo (a - 0xC000) bs.length = a - 0xC000 + bs.length := by unfold upTo; omega
    unfold Controller.ReadFromAddress
    rw [if_neg (by omega), if_neg (by omega), if_pos ⟨h1, by omega⟩, e, eu]
    exact goSlice_of_copy hfit
  · intro b hb
    rw [controller_byteAt_eq, controller_byteAt_eq]
    by_cases g1 : b ≤ 0x3FFF
    · rw [if_pos g1, if_pos g1]
    · rw [if_neg g1, if_neg g1]
      by_cases g2 : 0x8000 ≤ b ∧ b ≤ 0x9FFF
      · rw [if_pos g2, if_pos g2]
      · rw [if_neg g2, if_neg g2]
        by_cases g3 : 0xC000 ≤ b ∧ b ≤ 0xDFFF
        · rw [if_pos g3, if_pos g3]
          exact goCopyAt_getElem?_other hcopy (by omega)
        · rw [if_neg g3, if_neg g3]

theorem write_read_hram (m : Controller) (hlen : m.hram.length = 127) (a : Nat) (bs : List Nat)
    (hne : bs ≠ []) (h1 : 0xFF80 ≤ a) (h2 : a + bs.length - 1 ≤ 0xFFFE) :
    m.WriteToAddress a bs = Exec.ret
      ({ m with hram := m.hram.take (a - 0xFF80) ++ bs ++ m.hram.drop (a - 0xFF80 + bs.length) },
        none) ∧
    Controller.ReadFromAddress
      { m with hram := m.hram.take (a - 0xFF80) ++ bs ++ m.hram.drop (a - 0xFF80 + bs.length) }
      a bs.length = Res.ok bs ∧
    (∀ b, (b < a ∨ a + bs.length ≤ b) →
      byteAt
        ({ m with hram := m.hram.take (a - 0xFF80) ++ bs ++ m.hram.drop (a - 0xFF80 + bs.length) } :
          Controller)
        b = byteAt m b) := by
  have hpos : 0 < bs.length := List.length_pos.mpr hne
  have hfit : a - 0xFF80 + bs.length ≤ m.hram.length := by omega
  have e : toHRAMSpace a = a - 0xFF80 := by unfold toHRAMSpace; omega
  have hcopy := goCopyAt_fit hfit
  refine ⟨?_, ?_, ?_⟩
  · unfold Controller.WriteToAddress
    rw [if_neg (by omega), if_neg (by omega), if_neg (by omega), if_pos ⟨h1, by omega⟩, e, hcopy]
  · have eu : upTo (a - 0xFF80) bs.length = a - 0xFF80 + bs.length := by unfold upTo; omega
    unfold Controller.ReadFromAddress
    rw [if_neg (by omega), if_neg (by omega), if_neg (by omega), if_pos ⟨h1, by omega⟩, e, eu]
    exact goSlice_of_copy hfit
  · intro b hb
    rw [controller_byteAt_eq, controller_byteAt_eq]
    by_cases g1 : b ≤ 0x3FFF
    · rw [if_pos g1, if_pos g1]
    · rw [if_neg g1, if_neg g1]
      by_cases g2 : 0x8000 ≤ b ∧ b ≤ 0x9FFF
      · rw [if_pos g2, if_pos g2]
      · rw [if_neg g2, if_neg g2]
        by_cases g3 : 0xC000 ≤ b ∧ b ≤ 0xDFFF
        · rw [if_pos g3, if_pos g3]
        · rw [if_neg g3, if_neg g3]
          by_cases g4 : 0xFF80 ≤ b ∧ b ≤ 0xFFFE
          · rw [if_pos g4, if_pos g4]
            exact goCopyAt_getElem?_other hcopy (by omega)
          · rw [if_neg g4, if_neg g4]

/-- C22: on a memory Controller with arrays sized as `NewController` sizes them,
let `a` and `a + len(bs) - 1` lie in the same one of VRAM, work RAM and HRAM,
with `bs` not empty.  Then `WriteToAddress(a, bs)` returns no error, the read
`ReadFromAddress(a, len(bs))` that follows returns exactly `bs`, and every
address outside `a .. a + len(bs) - 1` (in that region, in the other regions,
in the cartridge ROM) shows the byte it showed before the write; the cartridge
and the array sizes are unchanged. -/
theorem write_read_roundtrip (m : Controller) (hm : m.Sized) (a : Nat) (bs : List Nat)
    (hne : bs ≠ [])
    (hreg : (0x8000 ≤ a ∧ a + bs.length - 1 ≤ 0x9FFF) ∨
      (0xC000 ≤ a ∧ a + bs.length - 1 ≤ 0xDFFF) ∨
      (0xFF80 ≤ a ∧ a + bs.length - 1 ≤ 0xFFFE)) :
    ∃ m1 : Controller,
      m.WriteToAddress a bs = Exec.ret (m1, none) ∧
      m1.ReadFromAddress a bs.length = Res.ok bs ∧
      (∀ b, (b < a ∨ a + bs.length ≤ b) → byteAt m1 b = byteAt m b) ∧
      m1.cartridge = m.cartridge ∧ m1.Sized := by
  rcases hreg with ⟨h1, h2⟩ | ⟨h1, h2⟩ | ⟨h1, h2⟩
  · obtain ⟨w, r, o⟩ := write_read_vram m hm.1 a bs hne h1 h2
    exact ⟨_, w, r, o, rfl, WriteToAddress_sized hm w⟩
  · obtain ⟨w, r, o⟩ := write_read_ram m hm.2.1 a bs hne h1 h2
    exact ⟨_, w, r, o, rfl, WriteToAddress_sized hm w⟩
  · obtain ⟨w, r, o⟩ := write_read_hram m hm.2.2 a bs hne h1 h2
    exact ⟨_, w, r, o, rfl, WriteToAddress_sized hm w⟩

/-- C22 on `NewController` of a one-byte ROM image: three bytes written at
`0xC000`, the first work-RAM address. -/
theorem write_read_roundtrip_witness :
    ∃ m1 : Controller,
      (NewController [0x00]).WriteToAddress 0xC000 [0x11, 0x22, 0x33] = Exec.ret (m1, none) ∧
      m1.ReadFromAddress 0xC000 ([0x11, 0x22, 0x33] : List Nat).length
        = Res.ok [0x11, 0x22, 0x33] ∧
      (∀ b, (b < 0xC000 ∨ 0xC000 + ([0x11, 0x22, 0x33] : List Nat).length ≤ b) →
        byteAt m1 b = byteAt (NewController [0x00]) b) ∧
      m1.cartridge = (NewController [0x00]).cartridge ∧ m1.Sized :=
  write_read_roundtrip (NewController [0x00]) (newController_sized [0x00]) 0xC000
    [0x11, 0x22, 0x33] (by decide) (Or.inr (Or.inl ⟨by decide, by decide⟩))
/-! ## One-byte reads stay inside the backing arrays -/

theorem read_one_sized (m : Controller) (hm : m.Sized) (hrom : 0x4000 ≤ m.cartridge.length)
    (a : Nat) :
    (mappedAddress a → ∃ x, byteAt m a = some x ∧ m.ReadFromAddress a 1 = Res.ok [x]) ∧
    (¬ mappedAddress a → m.ReadFromAddress a 1 = Res.fail (Fault.illegalRead a)) := by
  have hr := controller_read_one m a
  have hb := controller_byteAt_eq m a
  constructor
  · intro hmap
    by_cases h1 : a ≤ 0x3FFF
    · rw [if_pos h1] at hr hb
      have hx := List.getElem?_eq_getElem (show a < m.cartridge.length by omega)
      exact ⟨_, hb.trans hx, hr.trans (goSlice_one (by omega) hx)⟩
    · rw [if_neg h1] at hr hb
      by_cases h2 : 0x8000 ≤ a ∧ a ≤ 0x9FFF
      · rw [if_pos h2] at hr hb
        have hx := List.getElem?_eq_getElem (show a - 0x8000 < m.vram.length by
          rw [hm.1]; omega)
        exact ⟨_, hb.trans hx, hr.trans (goSlice_one (by omega) hx)⟩
      · rw [if_neg h2] at hr hb
        by_cases h3 : 0xC000 ≤ a ∧ a ≤ 0xDFFF
        · rw [if_pos h3] at hr hb
          have hx := List.getElem?_eq_getElem (show a - 0xC000 < m.ram.length by
            rw [hm.2.1]; omega)
          exact ⟨_, hb.trans hx, hr.trans (goSlice_one (by omega) hx)⟩
        · rw [if_neg h3] at hr hb
          by_cases h4 : 0xFF80 ≤ a ∧ a ≤ 0xFFFE
          · rw [if_pos h4] at hr hb
            have hx := List.getElem?_eq_getElem (show a - 0xFF80 < m.hram.length by
              rw [hm.2.2]; omega)
            exact ⟨_, hb.trans hx, hr.trans (goSlice_one (by omega) hx)⟩
          · exfalso
            rcases hmap with h | h | h | h
            · exact h1 h
            · exact h2 h
            · exact h3 h
            · exact h4 h
  · intro hn
    have h1 : ¬ a ≤ 0x3FFF := fun h => hn (Or.inl h)
    have h2 : ¬ (0x8000 ≤ a ∧ a ≤ 0x9FFF) := fun h => hn (Or.inr (Or.inl h))
    have h3 : ¬ (0xC000 ≤ a ∧ a ≤ 0xDFFF) := fun h => hn (Or.inr (Or.inr (Or.inl h)))
    have h4 : ¬ (0xFF80 ≤ a ∧ a ≤ 0xFFFE) := fun h => hn (Or.inr (Or.inr (Or.inr h)))
    rw [if_neg h1, if_neg h2, if_neg h3, if_neg h4] at hr
    exact hr

/-- C23 fails as stated in its last sentence: a ROM image of `0x3FFF` bytes whose
backing array has one spare byte (capacity `0x4000`) is shorter than `0x4000`
bytes, yet no read of one byte at an address `0x0000..0x3FFF` is out of
bounds; the read at `0x3FFF`, past the image's length, returns the spare
byte. -/
theorem short_image_spare_capacity_reads :
    (List.replicate 0x3FFF 0).length = 0x3FFF ∧ 0x3FFF < 0x4000 ∧
    (List.replicate 0x3FFF 0 ++ [0]).length = 0x4000 ∧
    (NewController (List.replicate 0x3FFF 0 ++ [0])).ReadFromAddress 0x3FFF 1 = Res.ok [0] ∧
    ¬ (∃ a, a ≤ 0x3FFF ∧
      (NewController (List.replicate 0x3FFF 0 ++ [0])).ReadFromAddress a 1 = Res.abort) := by
  have hl : (List.replicate 0x3FFF 0 ++ [0]).length = 0x4000 := by
    rw [List.length_append, List.length_replicate]
    rfl
  have hc : (NewController (List.replicate 0x3FFF 0 ++ [0])).cartridge
      = List.replicate 0x3FFF 0 ++ [0] := rfl
  refine ⟨List.length_replicate _ _, by decide, hl, ?_, ?_⟩
  · have hr := controller_read_one (NewController (List.replicate 0x3FFF 0 ++ [0])) 0x3FFF
    rw [if_pos (by decide), hc] at hr
    rw [hr]
    apply goSlice_one (by decide)
    rw [List.getElem?_append_right (by rw [List.length_replicate]), List.length_replicate]
    rfl
  · rintro ⟨a, ha, hab⟩
    obtain ⟨x, _, hx⟩ := (read_one_sized (NewController (List.replicate 0x3FFF 0 ++ [0]))
      (newController_sized _) (by rw [hc, hl]) a).1 (Or.inl ha)
    rw [hx] at hab
    cases hab

/-- C23 as amended: let a ROM image `image` of at least `0x4000` bytes be passed
to `NewController`, its backing array continuing with any spare capacity
`spare`.  A one-byte read then never runs past a backing array: at an address
of the four mapped regions it returns exactly one byte (in `0x0000..0x3FFF`
the byte of the image), at every other address it returns the illegal-read
error, and it never aborts; the same holds of every Controller with such a
cartridge and RAM arrays of those sizes.  Every address `0xFF80..0xFFFE` falls
inside the 127-byte HRAM array.  With a ROM slice whose capacity is below
`0x4000` bytes, the read at the address equal to the capacity, which lies in
`0x0000..0x3FFF`, aborts; with an image shorter than `0x4000` bytes whose
capacity reaches `0x4000`, every read of one byte in `0x0000..0x3FFF`
returns. -/
theorem read_one_in_bounds (image spare : List Nat) (hlen : 0x4000 ≤ image.length) (a : Nat) :
    (mappedAddress a →
      ∃ x, byteAt (NewController (image ++ spare)) a = some x ∧
        (NewController (image ++ spare)).ReadFromAddress a 1 = Res.ok [x]) ∧
    (a ≤ 0x3FFF →
      ∃ x, image[a]? = some x ∧
        (NewController (image ++ spare)).ReadFromAddress a 1 = Res.ok [x]) ∧
    (¬ mappedAddress a →
      (NewController (image ++ spare)).ReadFromAddress a 1 = Res.fail (Fault.illegalRead a)) ∧
    (NewController (image ++ spare)).ReadFromAddress a 1 ≠ Res.abort ∧
    ((∃ x, (NewController (image ++ spare)).ReadFromAddress a 1 = Res.ok [x])
      ↔ mappedAddress a) ∧
    (∀ m : Controller, m.Sized → 0x4000 ≤ m.cartridge.length →
      (mappedAddress a → ∃ x, m.ReadFromAddress a 1 = Res.ok [x]) ∧
      (¬ mappedAddress a → m.ReadFromAddress a 1 = Res.fail (Fault.illegalRead a))) ∧
    ((0xFF80 ≤ a ∧ a ≤ 0xFFFE) →
      toHRAMSpace a < (NewController (image ++ spare)).hram.length ∧
      (NewController (image ++ spare)).ReadFromAddress a 1 = Res.ok [0]) ∧
    (∀ short extra : List Nat, (short ++ extra).length < 0x4000 →
      (short ++ extra).length ≤ 0x3FFF ∧
      (NewController (short ++ extra)).ReadFromAddress (short ++ extra).length 1
        = Res.abort) ∧
    (∀ short extra : List Nat, short.length < 0x4000 → 0x4000 ≤ (short ++ extra).length →
      ∀ b, b ≤ 0x3FFF →
        ∃ x, (NewController (short ++ extra)).ReadFromAddress b 1 = Res.ok [x]) := by
  have hcap : 0x4000 ≤ (NewController (image ++ spare)).cartridge.length := by
    show 0x4000 ≤ (image ++ spare).length
    rw [List.length_append]
    omega
  have g := read_one_sized (NewController (image ++ spare)) (newController_sized _) hcap a
  refine ⟨g.1, ?_, g.2, ?_, ?_, ?_, ?_, ?_, ?_⟩
  · intro ha
    have hx : image[a]? = some image[a] := List.getElem?_eq_getElem (by omega)
    have hx2 : (NewController (image ++ spare)).cartridge[a]? = some image[a] := by
      show (image ++ spare)[a]? = _
      rw [List.getElem?_append_left (by omega)]
      exact hx
    have hr := controller_read_one (NewController (image ++ spare)) a
    rw [if_pos ha] at hr
    exact ⟨_, hx, hr.trans (goSlice_one (by omega) hx2)⟩
  · intro hab
    by_cases hmap : mappedAddress a
    · obtain ⟨x, _, hx⟩ := g.1 hmap
      rw [hx] at hab
      cases hab
    · rw [g.2 hmap] at hab
      cases hab
  · constructor
    · rintro ⟨x, hx⟩
      by_contra hmap
      rw [g.2 hmap] at hx
      cases hx
    · intro hmap
      obtain ⟨x, _, hx⟩ := g.1 hmap
      exact ⟨x, hx⟩
  · intro m hm hrom
    have gm := read_one_sized m hm hrom a
    exact ⟨fun h => (gm.1 h).elim fun x hx => ⟨x, hx.2⟩, gm.2⟩
  · intro h4
    have e : toHRAMSpace a = a - 0xFF80 := by unfold toHRAMSpace; omega
    have hl : (NewController (image ++ spare)).hram.length = 127 :=
      (newController_sized _).2.2
    have hh : (NewController (image ++ spare)).hram = List.replicate 127 0 := rfl
    have hx : (NewController (image ++ spare)).hram[a - 0xFF80]? = some 0 := by
      rw [hh, List.getElem?_replicate, if_pos (by omega)]
    have hr := controller_read_one (NewController (image ++ spare)) a
    rw [if_neg (by omega), if_neg (by omega), if_neg (by omega), if_pos h4] at hr
    refine ⟨by rw [e, hl]; omega, hr.trans (goSlice_one (by omega) hx)⟩
  · intro short extra hs
    refine ⟨by omega, ?_⟩
    have hr := controller_read_one (NewController (short ++ extra)) (short ++ extra).length
    rw [if_pos (by omega)] at hr
    rw [hr]
    have e : upTo (short ++ extra).length 1 = (short ++ extra).length + 1 := by
      unfold upTo; omega
    rw [e]
    exact goSlice_abort
      (show (NewController (short ++ extra)).cartridge.length < (short ++ extra).length + 1
        from Nat.lt_succ_self _)
  · intro short extra _ hcap2 b hb
    obtain ⟨x, _, hx⟩ := (read_one_sized (NewController (short ++ extra))
      (newController_sized _) hcap2 b).1 (Or.inl hb)
    exact ⟨x, hx⟩

/-- C23 as amended, on a ROM image of `0x4000` zero bytes without spare capacity,
at `0x3FFF`, its last address, and at `0x4000`, the first unmapped one. -/
theorem read_one_in_bounds_witness :
    (0x4000 ≤ (List.replicate 0x4000 0).length) ∧
    (∃ x, (List.replicate 0x4000 0)[0x3FFF]? = some x ∧
      (NewController (List.replicate 0x4000 0 ++ [])).ReadFromAddress 0x3FFF 1 = Res.ok [x]) ∧
    (NewController (List.replicate 0x4000 0 ++ [])).ReadFromAddress 0x4000 1
      = Res.fail (Fault.illegalRead 0x4000) :=
  ⟨Nat.le_of_eq (List.length_replicate 0x4000 0).symm,
   (read_one_in_bounds (List.replicate 0x4000 0) []
      (Nat.le_of_eq (List.length_replicate 0x4000 0).symm) 0x3FFF).2.1 (by decide),
   (read_one_in_bounds (List.replicate 0x4000 0) []
      (Nat.le_of_eq (List.length_replicate 0x4000 0).symm) 0x4000).2.2.1
      (by unfold mappedAddress; decide)⟩


/-! ## `LD [HL-],A` -/

theorem write_one_stored (m : Controller) (hm : m.Sized) (a x : Nat)
    (hreg : (0x8000 ≤ a ∧ a ≤ 0x9FFF) ∨ (0xC000 ≤ a ∧ a ≤ 0xDFFF) ∨
      (0xFF80 ≤ a ∧ a ≤ 0xFFFE)) :
    ∃ m1 : Controller,
      m.WriteToAddress a [x] = Exec.ret (m1, none) ∧ byteAt m1 a = some x ∧
      (∀ b, b ≠ a → byteAt m1 b = byteAt m b) := by
  have hne : ([x] : List Nat) ≠ [] := List.cons_ne_nil x []
  have hl : ([x] : List Nat).length = 1 := rfl
  have oth : ∀ b : Nat, b ≠ a → (b < a ∨ a + ([x] : List Nat).length ≤ b) := by
    intro b hb
    rw [hl]
    omega
  rcases hreg with ⟨h1, h2⟩ | ⟨h1, h2⟩ | ⟨h1, h2⟩
  · obtain ⟨w, r, o⟩ := write_read_vram m hm.1 a [x] hne h1 (by rw [hl]; omega)
    exact ⟨_, w, byteAt_of_read_one r, fun b hb => o b (oth b hb)⟩
  · obtain ⟨w, r, o⟩ := write_read_ram m hm.2.1 a [x] hne h1 (by rw [hl]; omega)
    exact ⟨_, w, byteAt_of_read_one r, fun b hb => o b (oth b hb)⟩
  · obtain ⟨w, r, o⟩ := write_read_hram m hm.2.2 a [x] hne h1 (by rw [hl]; omega)
    exact ⟨_, w, byteAt_of_read_one r, fun b hb => o b (oth b hb)⟩

theorem LD_HLD_A_handler {σ : Type} [MemoryReadWriter σ] (ctx : context) (c : CPU σ) :
    ((List.lookup 0x32 opcodeLookup).map fun op => (op.mnemonic, op.size, op.handler ctx c))
      = some ("LD [HL-],A", 1, writeThen c (mergeBytesToUint16 c.H c.L) c.A fun cpu1 =>
        ({ cpu1 with
            H := (splitUint16IntoBytes ((mergeBytesToUint16 c.H c.L + 65535) % 65536)).1
            L := (splitUint16IntoBytes ((mergeBytesToUint16 c.H c.L + 65535) % 65536)).2 },
          8, none)) := rfl

theorem LD_HLD_A_run {σ : Type} [MemoryReadWriter σ] (ctx : context) (c : CPU σ) :
    ((List.lookup 0x32 opcodeLookup).map fun op => op.handler ctx c)
      = some (writeThen c (mergeBytesToUint16 c.H c.L) c.A fun cpu1 =>
        ({ cpu1 with
            H := (splitUint16IntoBytes ((mergeBytesToUint16 c.H c.L + 65535) % 65536)).1
            L := (splitUint16IntoBytes ((mergeBytesToUint16 c.H c.L + 65535) % 65536)).2 },
          8, none)) := rfl

theorem merge_split_pair {v : Nat} (hv : v < 65536) :
    mergeBytesToUint16 (splitUint16IntoBytes v).1 (splitUint16IntoBytes v).2 = v := by
  rw [split_eq hv]
  exact merge_split hv

/-- C21 fails as stated: on the memory Controller with `H = 0xFE`, `L = 0x00` and
`A = 0x10`, the handler of `LD [HL-],A` returns 8 cycles and no error (the write
at `0xFE00` lands in `0xFE00..0xFF7F`) and `HL` becomes `0xFDFF`, yet the byte at
`0xFE00` is not `0x10`: no read returns there. -/
theorem LD_HLD_A_io_stores_nothing :
    ((List.lookup 0x32 opcodeLookup).map fun op =>
        op.handler (context.mk 0 0 0)
          ({ NewCPU (NewController []) with H := 0xFE, L := 0x00, A := 0x10 } : CPU Controller))
      = some (Exec.ret
          ({ NewCPU (NewController []) with H := 0xFD, L := 0xFF, A := 0x10 }, 8, none)) ∧
    mergeBytesToUint16 0xFE 0x00 = 0xFE00 ∧
    byteAt (NewController []) 0xFE00 = none ∧
    byteAt (NewController []) 0xFE00 ≠ some 0x10 := by
  refine ⟨by rfl, by rfl, by rfl, ?_⟩
  have h : byteAt (NewController []) 0xFE00 = none := by rfl
  rw [h]; exact fun e => by cases e

/-- C21 as amended: the handler of `LD [HL-],A` (opcode `0x32`) asks the bus to
write the byte `A` at the address formed by `H` and `L`.  If the bus accepts
the write, the handler returns 8 cycles and no error, the pair `HL` afterwards
is `(old HL - 1) mod 2^16` (`H = 0xBB`, `L = 0xCC` gives `0xBBCB`; `HL = 0x0000`
gives `0xFFFF`), and `A`, the flags and every other register are unchanged.  If
the bus write returns an error, the handler returns that error with 0 cycles
and `H` and `L` are unchanged.  On a memory Controller with arrays sized as
`NewController` sizes them, when the old `HL` lies in VRAM, work RAM or HRAM,
the write is accepted and the byte at the old `HL` then equals `A`. -/
theorem LD_HLD_A_stores_and_decrements {σ : Type} [MemoryReadWriter σ] (c : CPU σ)
    (ctx : context) :
    ((List.lookup 0x32 (opcodeLookup : List (Nat × opcode σ))).map
        fun op => (op.mnemonic, op.size)) = some ("LD [HL-],A", 1) ∧
    (∀ m : σ,
      MemoryReadWriter.WriteToAddress c.memoryBus (mergeBytesToUint16 c.H c.L) [c.A]
        = Exec.ret (m, none) →
      ∃ c1 : CPU σ,
        ((List.lookup 0x32 opcodeLookup).map fun op => op.handler ctx c)
          = some (Exec.ret (c1, 8, none)) ∧
        c1 = { c with memoryBus := m, H := c1.H, L := c1.L } ∧
        mergeBytesToUint16 c1.H c1.L = (mergeBytesToUint16 c.H c.L + 65535) % 65536 ∧
        ((mergeBytesToUint16 c1.H c1.L : Nat) : Int)
          = ((mergeBytesToUint16 c.H c.L : Nat) - 1 : Int) % 65536 ∧
        c1.A = c.A ∧ c1.F = c.F ∧ (∀ f, c1.getFlag f = c.getFlag f)) ∧
    (∀ (m : σ) (e : Fault),
      MemoryReadWriter.WriteToAddress c.memoryBus (mergeBytesToUint16 c.H c.L) [c.A]
        = Exec.ret (m, some e) →
      ((List.lookup 0x32 opcodeLookup).map fun op => op.handler ctx c)
        = some (Exec.ret ({ c with memoryBus := m }, 0, some e))) ∧
    (∀ k : CPU Controller, k.memoryBus.Sized →
      ((0x8000 ≤ mergeBytesToUint16 k.H k.L ∧ mergeBytesToUint16 k.H k.L ≤ 0x9FFF) ∨
        (0xC000 ≤ mergeBytesToUint16 k.H k.L ∧ mergeBytesToUint16 k.H k.L ≤ 0xDFFF) ∨
        (0xFF80 ≤ mergeBytesToUint16 k.H k.L ∧ mergeBytesToUint16 k.H k.L ≤ 0xFFFE)) →
      ∃ k1 : CPU Controller,
        ((List.lookup 0x32 opcodeLookup).map fun op => op.handler ctx k)
          = some (Exec.ret (k1, 8, none)) ∧
        byteAt k1.memoryBus (mergeBytesToUint16 k.H k.L) = some k.A ∧
        mergeBytesToUint16 k1.H k1.L = (mergeBytesToUint16 k.H k.L + 65535) % 65536) ∧
    splitUint16IntoBytes ((mergeBytesToUint16 0xBB 0xCC + 65535) % 65536) = (0xBB, 0xCB) ∧
    splitUint16IntoBytes ((mergeBytesToUint16 0x00 0x00 + 65535) % 65536) = (0xFF, 0xFF) := by
  refine ⟨rfl, ?_, ?_, ?_, by decide, by decide⟩
  · intro m hw
    have hv : (mergeBytesToUint16 c.H c.L + 65535) % 65536 < 65536 :=
      Nat.mod_lt _ (by decide)
    have hm := merge_split_pair hv
    have run : ((List.lookup 0x32 opcodeLookup).map fun op => op.handler ctx c)
        = some (Exec.ret (({ c with
            memoryBus := m
            H := (splitUint16IntoBytes ((mergeBytesToUint16 c.H c.L + 65535) % 65536)).1
            L := (splitUint16IntoBytes ((mergeBytesToUint16 c.H c.L + 65535) % 65536)).2 } :
              CPU σ), 8, none)) := by
      rw [LD_HLD_A_run]
      unfold writeThen
      rw [hw]
    have hi : ((((mergeBytesToUint16 c.H c.L + 65535) % 65536 : Nat)) : Int)
        = ((mergeBytesToUint16 c.H c.L : Nat) - 1 : Int) % 65536 := by
      omega
    exact ⟨_, run, rfl, hm, (congrArg Nat.cast hm).trans hi, rfl, rfl, fun _ => rfl⟩
  · intro m e hw
    rw [LD_HLD_A_run]
    unfold writeThen
    rw [hw]
  · intro k hk hreg
    obtain ⟨m1, w, s, _⟩ := write_one_stored k.memoryBus hk (mergeBytesToUint16 k.H k.L) k.A hreg
    have hv : (mergeBytesToUint16 k.H k.L + 65535) % 65536 < 65536 :=
      Nat.mod_lt _ (by decide)
    have w2 : MemoryReadWriter.WriteToAddress k.memoryBus (mergeBytesToUint16 k.H k.L) [k.A]
        = Exec.ret (m1, none) := w
    have run : ((List.lookup 0x32 opcodeLookup).map fun op => op.handler ctx k)
        = some (Exec.ret (({ k with
            memoryBus := m1
            H := (splitUint16IntoBytes ((mergeBytesToUint16 k.H k.L + 65535) % 65536)).1
            L := (splitUint16IntoBytes ((mergeBytesToUint16 k.H k.L + 65535) % 65536)).2 } :
              CPU Controller), 8, none)) := by
      rw [LD_HLD_A_run]
      unfold writeThen
      rw [w2]
    exact ⟨_, run, s, merge_split_pair hv⟩
/-- C21 as amended, on `NewController` of an empty ROM image with `H = 0xFF`,
`L = 0x90` and `A = 0x10`: the handler returns 8 cycles and no error, the byte
at `0xFF90` is then `0x10` and `HL` is `0xFF8F`. -/
theorem LD_HLD_A_stores_and_decrements_witness :
    (NewController []).Sized ∧
    (0xFF80 ≤ mergeBytesToUint16 0xFF 0x90 ∧ mergeBytesToUint16 0xFF 0x90 ≤ 0xFFFE) ∧
    (mergeBytesToUint16 0xFF 0x90 + 65535) % 65536 = 0xFF8F ∧
    ∃ k1 : CPU Controller,
      ((List.lookup 0x32 opcodeLookup).map fun op =>
          op.handler { n8 := 0, e8 := 0, n16 := 0 }
            ({ NewCPU (NewController []) with H := 0xFF, L := 0x90, A := 0x10 } : CPU Controller))
        = some (Exec.ret (k1, 8, none)) ∧
      byteAt k1.memoryBus (mergeBytesToUint16 0xFF 0x90) = some 0x10 ∧
      mergeBytesToUint16 k1.H k1.L = (mergeBytesToUint16 0xFF 0x90 + 65535) % 65536 :=
  ⟨newController_sized [], ⟨by decide, by decide⟩, by decide,
   (LD_HLD_A_stores_and_decrements
      ({ NewCPU (NewController []) with H := 0xFF, L := 0x90, A := 0x10 } : CPU Controller)
      { n8 := 0, e8 := 0, n16 := 0 }).2.2.2.1
      ({ NewCPU (NewController []) with H := 0xFF, L := 0x90, A := 0x10 } : CPU Controller)
      (newController_sized []) (Or.inr (Or.inr ⟨by decide, by decide⟩))⟩

end Gby
